import Mathlib

/-
Verification of the Solidity AST instrumentation engine
(libs/compiler/src/ast: utils.rs, stitcher.rs, instrumenter.rs, core.rs).

The engine manipulates serde_json trees.  We embed JSON values as the
inductive type Json below.  serde_json object maps are embedded as
association lists; map insertion replaces the value in place when the key
is present and otherwise appends the binding, and map iteration follows
the list order.  JSON numbers are embedded as integers (node ids are i64
in the source; every id-relevant read goes through as_i64).  The external
Solidity compiler (solc) is out of scope: functions of the source that
call it take the compiler's answer as an explicit argument.
-/

set_option maxHeartbeats 4000000

namespace AstEngine

/-- JSON values, mirroring serde_json::Value as used by the engine. -/
inductive Json where
  | null : Json
  | bool : Bool → Json
  | num  : Int → Json
  | str  : String → Json
  | arr  : List Json → Json
  | obj  : List (String × Json) → Json
deriving Repr


/-- Value.get(key) on an object; None on every other variant
(serde_json::Value::get). -/
def get_field (j : Json) (key : String) : Option Json :=
  match j with
  | .obj fields => fields.lookup key
  | _ => none


/-- Writing through the mutable reference returned by get_mut(key):
the binding's value is replaced in place.  Non-objects and objects
without the key are returned unchanged (get_mut would have returned
None and the caller checks for that separately). -/
def set_field (j : Json) (key : String) (v : Json) : Json :=
  match j with
  | .obj fields => .obj (fields.map (fun kv => if kv.1 = key then (kv.1, v) else kv))
  | _ => j


/-- Map::insert on an object map: replace the value in place when the key
is present, append the binding otherwise. -/
def insert_key (j : Json) (key : String) (v : Json) : Json :=
  match j with
  | .obj fields =>
      if (fields.lookup key).isSome then set_field j key v
      else .obj (fields ++ [(key, v)])
  | _ => j


/-- Mutation through nodes.get_mut(idx): replace the list element at idx. -/
def modify_at (l : List Json) (idx : Nat) (f : Json → Json) : List Json :=
  match l.get? idx with
  | some x => l.set idx (f x)
  | none => l


/-- node_type helper of stitcher.rs / instrumenter.rs:
value.get("nodeType").and_then(as_str). -/
def node_type (j : Json) : Option String :=
  match get_field j "nodeType" with
  | some (.str s) => some s
  | _ => none


/-- node_name helper: value.get("name").and_then(as_str). -/
def node_name (j : Json) : Option String :=
  match get_field j "name" with
  | some (.str s) => some s
  | _ => none


/-- function_kind helper of instrumenter.rs:
value.get("kind").and_then(as_str). -/
def function_kind (j : Json) : Option String :=
  match get_field j "kind" with
  | some (.str s) => some s
  | _ => none


/- ------------------------------------------------------------------
utils.rs: walk_max_id / max_id, walk_renumber / clone_with_new_ids.
------------------------------------------------------------------ -/
mutual

/-- walk_max_id of utils.rs: for each object whose id field holds a
number, fold the maximum into the accumulator; recurse into every
object value and array element. -/
def walk_max_id : Json → Int → Int
  | .obj fields, m =>
      let m1 := match fields.lookup "id" with
        | some (.num i) => max m i
        | _ => m
      walk_max_id_fields fields m1
  | .arr items, m => walk_max_id_list items m
  | _, m => m

def walk_max_id_fields : List (String × Json) → Int → Int
  | [], m => m
  | (_, v) :: rest, m => walk_max_id_fields rest (walk_max_id v m)

def walk_max_id_list : List Json → Int → Int
  | [], m => m
  | j :: rest, m => walk_max_id_list rest (walk_max_id j m)

end

/-- max_id of utils.rs: maximum id in the subtree, 0 when none occurs. -/
def max_id (j : Json) : Int := walk_max_id j 0


mutual

/-- collect_ids of stitcher.rs: ids of every object carrying a numeric
id field, in traversal order (the object's own id first, then its
values in map order, then array elements in order). -/
def collect_ids : Json → List Int
  | .obj fields =>
      (match fields.lookup "id" with
        | some (.num i) => [i]
        | _ => []) ++ collect_ids_fields fields
  | .arr items => collect_ids_list items
  | _ => []

def collect_ids_fields : List (String × Json) → List Int
  | [] => []
  | (_, v) :: rest => collect_ids v ++ collect_ids_fields rest

def collect_ids_list : List Json → List Int
  | [] => []
  | j :: rest => collect_ids j ++ collect_ids_list rest

end

mutual

/-- walk_renumber of utils.rs.  On an object carrying a nodeType key the
counter is bumped and inserted as the object's id, then every value of
the (updated) map is walked; since the inserted id is a leaf number,
walking the updated map equals walking the original bindings with the
id binding's value forced to the fresh number (appended when the key
was absent), which is how the object case is written here. -/
def walk_renumber : Json → Int → Json × Int
  | .null, n => (.null, n)
  | .bool b, n => (.bool b, n)
  | .num m, n => (.num m, n)
  | .str s, n => (.str s, n)
  | .arr items, n =>
      let (items', n') := walk_renumber_list items n
      (.arr items', n')
  | .obj fields, n =>
      if (fields.lookup "nodeType").isSome then
        let n1 := n + 1
        let (fields', n') := walk_renumber_fields_id fields n1 n1
        (.obj (if (fields.lookup "id").isSome then fields'
               else fields' ++ [("id", .num n1)]), n')
      else
        let (fields', n') := walk_renumber_fields fields n
        (.obj fields', n')

def walk_renumber_fields : List (String × Json) → Int → List (String × Json) × Int
  | [], n => ([], n)
  | (k, v) :: rest, n =>
      let (v', n1) := walk_renumber v n
      let (rest', n2) := walk_renumber_fields rest n1
      ((k, v') :: rest', n2)

/-- Field walk of an object whose id binding was just replaced by the
leaf number idv: the id slot keeps the fresh number and is not walked,
every other value is walked in order. -/
def walk_renumber_fields_id : List (String × Json) → Int → Int → List (String × Json) × Int
  | [], _, n => ([], n)
  | (k, v) :: rest, idv, n =>
      if k = "id" then
        let (rest', n2) := walk_renumber_fields_id rest idv n
        ((k, .num idv) :: rest', n2)
      else
        let (v', n1) := walk_renumber v n
        let (rest', n2) := walk_renumber_fields_id rest idv n1
        ((k, v') :: rest', n2)

def walk_renumber_list : List Json → Int → List Json × Int
  | [], n => ([], n)
  | j :: rest, n =>
      let (j', n1) := walk_renumber j n
      let (rest', n2) := walk_renumber_list rest n1
      (j' :: rest', n2)

end

/-- clone_with_new_ids of utils.rs: clone the value and renumber the
clone, returning the clone together with the advanced counter (Rust
threads the counter through a mutable reference). -/
def clone_with_new_ids (j : Json) (next_id : Int) : Json × Int :=
  walk_renumber j next_id


/- ------------------------------------------------------------------
Specification-side observation functions.  The data model (spec section
3) calls "node" an object carrying a nodeType tag; these functions
observe the nodes of a subtree.
------------------------------------------------------------------ -/
mutual

/-- Number of nodes (objects carrying a nodeType key) in a subtree. -/
def nt_count : Json → Nat
  | .obj fields =>
      (if (fields.lookup "nodeType").isSome then 1 else 0) + nt_count_fields fields
  | .arr items => nt_count_list items
  | _ => 0

def nt_count_fields : List (String × Json) → Nat
  | [] => 0
  | (_, v) :: rest => nt_count v + nt_count_fields rest

def nt_count_list : List Json → Nat
  | [] => 0
  | j :: rest => nt_count j + nt_count_list rest

end

mutual

/-- Ids of the nodes (nodeType-carrying objects) of a subtree, in
traversal order; a node whose id is missing or not a number
contributes nothing. -/
def nt_ids : Json → List Int
  | .obj fields =>
      (if (fields.lookup "nodeType").isSome then
        match fields.lookup "id" with
        | some (.num i) => [i]
        | _ => []
       else []) ++ nt_ids_fields fields
  | .arr items => nt_ids_list items
  | _ => []

def nt_ids_fields : List (String × Json) → List Int
  | [] => []
  | (_, v) :: rest => nt_ids v ++ nt_ids_fields rest

def nt_ids_list : List Json → List Int
  | [] => []
  | j :: rest => nt_ids j ++ nt_ids_list rest

end

mutual

/-- Erase the id binding of every node (nodeType-carrying object),
leaving everything else — including id bindings of non-node objects —
untouched.  Two subtrees equal under this erasure differ at most in
the ids of their nodes. -/
def erase_nt_ids : Json → Json
  | .null => .null
  | .bool b => .bool b
  | .num m => .num m
  | .str s => .str s
  | .arr items => .arr (erase_nt_ids_list items)
  | .obj fields =>
      if (fields.lookup "nodeType").isSome then
        .obj (erase_nt_ids_fields_drop fields)
      else
        .obj (erase_nt_ids_fields fields)

def erase_nt_ids_fields : List (String × Json) → List (String × Json)
  | [] => []
  | (k, v) :: rest => (k, erase_nt_ids v) :: erase_nt_ids_fields rest

/-- Field erasure that also removes the id bindings themselves (used on
nodes, whose id is about to be rewritten). -/
def erase_nt_ids_fields_drop : List (String × Json) → List (String × Json)
  | [] => []
  | (k, v) :: rest =>
      if k = "id" then erase_nt_ids_fields_drop rest
      else (k, erase_nt_ids v) :: erase_nt_ids_fields_drop rest

def erase_nt_ids_list : List Json → List Json
  | [] => []
  | j :: rest => erase_nt_ids j :: erase_nt_ids_list rest

end

/-- Ascending run of k integers starting right above a:
a+1, a+2, ..., a+k. -/
def int_range : Int → Nat → List Int
  | _, 0 => []
  | a, k + 1 => (a + 1) :: int_range (a + 1) k


/- ------------------------------------------------------------------
stitcher.rs: find_instrumented_contract_index.
------------------------------------------------------------------ -/
/-- Predicate of the named branch of the loop: the node is a
ContractDefinition whose name (empty when missing) equals the target. -/
def is_contract_named (node : Json) (nm : String) : Prop :=
  node_type node = some "ContractDefinition" ∧ (node_name node).getD "" = nm

instance (node : Json) (nm : String) : Decidable (is_contract_named node nm) := by
  unfold is_contract_named
  infer_instance


/-- Predicate of the fallback branch: the node is a ContractDefinition. -/
def is_contract (node : Json) : Prop :=
  node_type node = some "ContractDefinition"

instance (node : Json) : Decidable (is_contract node) := by
  unfold is_contract
  infer_instance


/-- Named arm of the loop of find_instrumented_contract_index: the first
ContractDefinition whose name (default empty) equals the target wins. -/
def find_named_contract : List Json → Nat → String → Option Nat
  | [], _, _ => none
  | node :: rest, idx, target =>
      if is_contract_named node target then some idx
      else find_named_contract rest (idx + 1) target


/-- Unnamed arm of the loop: the fallback slot is overwritten by every
ContractDefinition encountered, so the last one wins. -/
def find_last_contract : List Json → Nat → Option Nat
  | [], _ => none
  | node :: rest, idx =>
      match find_last_contract rest (idx + 1) with
      | some i => some i
      | none => if is_contract node then some idx else none


/-- find_instrumented_contract_index of stitcher.rs. -/
def find_instrumented_contract_index (unit : Json) (contract_name : Option String) :
    Except String Nat :=
  match get_field unit "nodes" with
  | some (.arr nodes) =>
      match contract_name with
      | some target =>
          match find_named_contract nodes 0 target with
          | some i => .ok i
          | none => .error ("Contract '" ++ target ++ "' not found")
      | none =>
          match find_last_contract nodes 0 with
          | some i => .ok i
          | none => .error "No ContractDefinition found"
  | _ => .error "Source unit has no nodes array"


/- ------------------------------------------------------------------
sizeOf facts about field lookups, used for termination of the walkers
of instrumenter.rs.
------------------------------------------------------------------ -/
theorem lookup_mem {l : List (String × Json)} {k : String} {v : Json}
    (h : l.lookup k = some v) : (k, v) ∈ l := by
  induction l with
  | nil => simp [List.lookup] at h
  | cons kv rest ih =>
    obtain ⟨k', v'⟩ := kv
    rw [List.lookup] at h
    by_cases hk : (k == k') = true
    · rw [hk] at h
      simp only [Option.some.injEq] at h
      subst h
      have : k = k' := by simpa using hk
      subst this
      exact List.mem_cons_self _ _
    · rw [Bool.eq_false_iff.mpr hk] at h
      exact List.mem_cons_of_mem _ (ih h)


theorem get_field_sizeOf {j v : Json} {k : String} (h : get_field j k = some v) :
    sizeOf v + 2 < sizeOf j := by
  cases j
  case obj fields =>
    rw [get_field] at h
    have hmem := lookup_mem h
    have h1 : sizeOf (k, v) < sizeOf fields := List.sizeOf_lt_of_mem hmem
    have h2 : sizeOf (Json.obj fields) = 1 + sizeOf fields := by simp
    have h3 : sizeOf (k, v) = 1 + sizeOf k + sizeOf v := by simp
    omega
  all_goals simp [get_field] at h


theorem get_field_arr_sizeOf {j : Json} {k : String} {ss : List Json}
    (h : get_field j k = some (.arr ss)) : sizeOf ss + 3 < sizeOf j := by
  have h1 := get_field_sizeOf h
  have h2 : sizeOf (Json.arr ss) = 1 + sizeOf ss := by simp
  omega


/- ------------------------------------------------------------------
stitcher.rs: drop_ids, canonical serialisation, signatures,
conflict keys.
------------------------------------------------------------------ -/
mutual

/-- drop_ids of stitcher.rs: remove the id binding of every object
(map.remove("id")), then recurse into the remaining values. -/
def drop_ids : Json → Json
  | .obj fields => .obj (drop_ids_fields fields)
  | .arr items => .arr (drop_ids_list items)
  | .null => .null
  | .bool b => .bool b
  | .num m => .num m
  | .str s => .str s

def drop_ids_fields : List (String × Json) → List (String × Json)
  | [] => []
  | (k, v) :: rest =>
      if k = "id" then drop_ids_fields rest
      else (k, drop_ids v) :: drop_ids_fields rest

def drop_ids_list : List Json → List Json
  | [] => []
  | j :: rest => drop_ids j :: drop_ids_list rest

end

def hex_digit (n : Nat) : Char :=
  if n < 10 then Char.ofNat (48 + n)
  else if n < 16 then Char.ofNat (87 + n)
  else '0'


/-- JSON string escaping as performed by serde_json::to_string. -/
def escape_char (c : Char) : String :=
  if c = '"' then "\\\""
  else if c = '\\' then "\\\\"
  else if c = '\x08' then "\\b"
  else if c = '\x0c' then "\\f"
  else if c = '\n' then "\\n"
  else if c = '\r' then "\\r"
  else if c = '\t' then "\\t"
  else if c.toNat < 32 then
    "\\u00" ++ String.singleton (hex_digit (c.toNat / 16)) ++
      String.singleton (hex_digit (c.toNat % 16))
  else String.singleton c


def escape_string (s : String) : String :=
  "\"" ++ String.join (s.data.map escape_char) ++ "\""


mutual

/-- serde_json::to_string (compact form); object bindings are emitted
in map order. -/
def render : Json → String
  | .null => "null"
  | .bool true => "true"
  | .bool false => "false"
  | .num n => toString n
  | .str s => escape_string s
  | .arr items => "[" ++ render_list items ++ "]"
  | .obj fields => "\x7b" ++ render_fields fields ++ "\x7d"

def render_fields : List (String × Json) → String
  | [] => ""
  | [(k, v)] => escape_string k ++ ":" ++ render v
  | (k, v) :: rest => escape_string k ++ ":" ++ render v ++ "," ++ render_fields rest

def render_list : List Json → String
  | [] => ""
  | [j] => render j
  | j :: rest => render j ++ "," ++ render_list rest

end

/-- serialise_without_ids of stitcher.rs; serde_json::to_string cannot
fail on a Value, so the JsonError arm of the source is unreachable and
the function is total here. -/
def serialise_without_ids (node : Json) : String :=
  render (drop_ids node)


/-- parameter_type_key of stitcher.rs: typeIdentifier, else typeString,
else the id-stripped serialisation of typeName, else a positional
placeholder. -/
def parameter_type_key (param : Json) (idx : Nat) : String :=
  match (get_field param "typeDescriptions").bind (fun td => get_field td "typeIdentifier") with
  | some (.str s) => s
  | _ =>
    match (get_field param "typeDescriptions").bind (fun td => get_field td "typeString") with
    | some (.str s) => s
    | _ =>
      match get_field param "typeName" with
      | some tn => serialise_without_ids tn
      | none => "__anon_parameter_" ++ toString idx


/-- function_signature of stitcher.rs: the canonical parameter type key
list of a FunctionDefinition, failing when the parameters list is
missing. -/
def function_signature (function : Json) : Except String (List String) :=
  match (get_field function "parameters").bind (fun p => get_field p "parameters") with
  | some (.arr params) =>
      .ok (params.enum.map (fun p => parameter_type_key p.2 p.1))
  | _ => .error "FunctionDefinition parameters list is missing"


/-- function_kind_tag of stitcher.rs: the kind string, defaulting to
"function". -/
def function_kind_tag (function : Json) : String :=
  (function_kind function).getD "function"


/-- ConflictKey of stitcher.rs. -/
inductive ConflictKey where
  | function (name : String) (signature : List String) (kind : String)
  | var (name : String)
  | event (name : String)
  | error (name : String)
  | modifier (name : String)
  | struct (name : String)
  | enum (name : String)
  | userDefinedValueType (name : String)
deriving DecidableEq, Repr


/-- contract_part_key of stitcher.rs.  A FunctionDefinition is always
keyed (missing name defaults to the empty string); the other keyed
kinds contribute a key only when they carry a string name;
UsingForDirective and unrecognised node types have no key. -/
def contract_part_key (node : Json) : Except String (Option ConflictKey) :=
  match node_type node with
  | some "FunctionDefinition" =>
      (match function_signature node with
       | .error e => .error e
       | .ok signature =>
          .ok (some (.function ((node_name node).getD "") signature
            (function_kind_tag node))))
  | some "VariableDeclaration" => .ok ((node_name node).map (fun n => .var n))
  | some "EventDefinition" => .ok ((node_name node).map (fun n => .event n))
  | some "ErrorDefinition" => .ok ((node_name node).map (fun n => .error n))
  | some "ModifierDefinition" => .ok ((node_name node).map (fun n => .modifier n))
  | some "StructDefinition" => .ok ((node_name node).map (fun n => .struct n))
  | some "EnumDefinition" => .ok ((node_name node).map (fun n => .enum n))
  | some "UserDefinedValueTypeDefinition" =>
      .ok ((node_name node).map (fun n => .userDefinedValueType n))
  | some "UsingForDirective" => .ok none
  | _ => .ok none


/- ------------------------------------------------------------------
stitcher.rs: assign_ids_with_snapshot / apply_id_snapshot.
------------------------------------------------------------------ -/
mutual

/-- assign_ids_with_snapshot of stitcher.rs.  On an object carrying a
nodeType key the replacement id is the snapshot entry at the cursor
when one remains (advancing the cursor) and a fresh counter value
otherwise; the id is inserted and every value of the updated map is
walked.  As in walk_renumber, walking the updated map equals walking
the original bindings with the id slot forced to the leaf number. -/
def assign_ids_with_snapshot : Json → List Int → Nat → Int → Json × Nat × Int
  | .obj fields, snapshot, cursor, n =>
      if (fields.lookup "nodeType").isSome then
        let step : Int × Nat × Int :=
          match snapshot.get? cursor with
          | some v => (v, cursor + 1, n)
          | none => (n + 1, cursor, n + 1)
        let newId := step.1
        let (fields', cur2, n2) :=
          assign_snap_fields_id fields snapshot newId step.2.1 step.2.2
        (.obj (if (fields.lookup "id").isSome then fields'
               else fields' ++ [("id", .num newId)]), cur2, n2)
      else
        let (fields', cur2, n2) := assign_snap_fields fields snapshot cursor n
        (.obj fields', cur2, n2)
  | .arr items, snapshot, cursor, n =>
      let (items', cur2, n2) := assign_snap_list items snapshot cursor n
      (.arr items', cur2, n2)
  | j, _, cursor, n => (j, cursor, n)

def assign_snap_fields :
    List (String × Json) → List Int → Nat → Int → List (String × Json) × Nat × Int
  | [], _, cursor, n => ([], cursor, n)
  | (k, v) :: rest, snapshot, cursor, n =>
      let (v', cur1, n1) := assign_ids_with_snapshot v snapshot cursor n
      let (rest', cur2, n2) := assign_snap_fields rest snapshot cur1 n1
      ((k, v') :: rest', cur2, n2)

def assign_snap_fields_id :
    List (String × Json) → List Int → Int → Nat → Int → List (String × Json) × Nat × Int
  | [], _, _, cursor, n => ([], cursor, n)
  | (k, v) :: rest, snapshot, idv, cursor, n =>
      if k = "id" then
        let (rest', cur2, n2) := assign_snap_fields_id rest snapshot idv cursor n
        ((k, .num idv) :: rest', cur2, n2)
      else
        let (v', cur1, n1) := assign_ids_with_snapshot v snapshot cursor n
        let (rest', cur2, n2) := assign_snap_fields_id rest snapshot idv cur1 n1
        ((k, v') :: rest', cur2, n2)

def assign_snap_list : List Json → List Int → Nat → Int → List Json × Nat × Int
  | [], _, cursor, n => ([], cursor, n)
  | j :: rest, snapshot, cursor, n =>
      let (j', cur1, n1) := assign_ids_with_snapshot j snapshot cursor n
      let (rest', cur2, n2) := assign_snap_list rest snapshot cur1 n1
      (j' :: rest', cur2, n2)

end

/-- apply_id_snapshot of stitcher.rs: assign with the cursor starting
at zero. -/
def apply_id_snapshot (node : Json) (snapshot : List Int) (next_id : Int) :
    Json × Nat × Int :=
  assign_ids_with_snapshot node snapshot 0 next_id


/- ------------------------------------------------------------------
instrumenter.rs / stitcher.rs: clone_statements (also the clone-append
loops of the stitcher, which thread the same counter through
clone_with_new_ids in list order).
------------------------------------------------------------------ -/
/-- clone_statements of instrumenter.rs: clone every statement with
fresh ids, threading the counter left to right. -/
def clone_statements : List Json → Int → List Json × Int
  | [], n => ([], n)
  | s :: rest, n =>
      let (c, n1) := clone_with_new_ids s n
      let (cs, n2) := clone_statements rest n1
      (c :: cs, n2)


/- ------------------------------------------------------------------
stitcher.rs: the Replace strategy.
------------------------------------------------------------------ -/
/-- Entries of the HashMap of stitch_replace: conflict key to (member
index, recorded id sequence).  Only lookup, overwrite-insert and
remove are performed on the map, so an association list models it
faithfully. -/
abbrev KeyMap : Type := List (ConflictKey × Nat × List Int)


/-- HashMap::insert (overwrite when present, add otherwise). -/
def key_insert : KeyMap → ConflictKey → Nat × List Int → KeyMap
  | [], k, v => [(k, v)]
  | (k', v') :: rest, k, v =>
      if k' = k then (k, v) :: rest else (k', v') :: key_insert rest k v


/-- HashMap::remove, returning the removed value and the shrunk map. -/
def key_remove : KeyMap → ConflictKey → Option ((Nat × List Int) × KeyMap)
  | [], _ => none
  | (k', v') :: rest, k =>
      if k' = k then some (v', rest)
      else (key_remove rest k).map (fun p => (p.1, (k', v') :: p.2))


/-- First phase of stitch_replace: scan the target members, recording
for each keyed member its index and the ids of its subtree. -/
def build_key_map : List Json → Nat → KeyMap → Except String KeyMap
  | [], _, m => .ok m
  | node :: rest, idx, m =>
      match contract_part_key node with
      | .error e => .error e
      | .ok (some k) =>
          build_key_map rest (idx + 1) (key_insert m k (idx, collect_ids node))
      | .ok none => build_key_map rest (idx + 1) m


/-- Second phase of stitch_replace: iterate the fragment members in
order; a member whose key is still in the map is scheduled as a
replacement (consuming the key), every other member is queued for
appending. -/
def split_fragment :
    KeyMap → List Json → Except String (List (Nat × List Int × Json) × List Json)
  | _, [] => .ok ([], [])
  | m, node :: rest =>
      match contract_part_key node with
      | .error e => .error e
      | .ok (some k) =>
          (match key_remove m k with
           | some (iv, m') =>
              (match split_fragment m' rest with
               | .error e => .error e
               | .ok (repls, apps) => .ok ((iv.1, iv.2, node) :: repls, apps))
           | none =>
              (match split_fragment m rest with
               | .error e => .error e
               | .ok (repls, apps) => .ok (repls, node :: apps)))
      | .ok none =>
          (match split_fragment m rest with
           | .error e => .error e
           | .ok (repls, apps) => .ok (repls, node :: apps))


/-- replacements.sort_by_key(idx).  The scheduled indices are pairwise
distinct (each target index contributes at most one map entry), so any
sorting by the index computes what the stable sort of the source
does; insertion sort is used here. -/
def insert_repl (x : Nat × List Int × Json) :
    List (Nat × List Int × Json) → List (Nat × List Int × Json)
  | [] => [x]
  | y :: rest => if x.1 < y.1 then x :: y :: rest else y :: insert_repl x rest


def sort_repls : List (Nat × List Int × Json) → List (Nat × List Int × Json)
  | [] => []
  | x :: rest => insert_repl x (sort_repls rest)


/-- Application phase of stitch_replace: overlay each scheduled
replacement at its index after reassigning ids from the snapshot. -/
def apply_replacements :
    List (Nat × List Int × Json) → List Json → Int → Except String (List Json × Int)
  | [], target, n => .ok (target, n)
  | (idx, snapshot, replacement) :: rest, target, n =>
      let (node', _, n1) := apply_id_snapshot replacement snapshot n
      if idx < target.length then
        apply_replacements rest (target.set idx node') n1
      else .error "Replacement index out of bounds"


/-- stitch_replace of stitcher.rs. -/
def stitch_replace (target_nodes : List Json) (fragment_nodes : List Json)
    (next_id : Int) : Except String (List Json × Int) :=
  match build_key_map target_nodes 0 [] with
  | .error e => .error e
  | .ok m =>
      match split_fragment m fragment_nodes with
      | .error e => .error e
      | .ok (repls, apps) =>
          match apply_replacements (sort_repls repls) target_nodes next_id with
          | .error e => .error e
          | .ok (t1, n1) =>
              let (clones, _) := clone_statements apps n1
              .ok (t1 ++ clones, (clone_statements apps n1).2)


/-- ResolveConflictStrategy of config.rs. -/
inductive ResolveConflictStrategy where
  | safe
  | replace
deriving DecidableEq, Repr


/-- contract_mut_at of stitcher.rs / instrumenter.rs: the node at the
index, required to be a ContractDefinition. -/
def contract_mut_at (unit : Json) (idx : Nat) : Except String Json :=
  match get_field unit "nodes" with
  | some (.arr nodes) =>
      match nodes.get? idx with
      | some node =>
          if node_type node = some "ContractDefinition" then .ok node
          else .error "Target index is not a contract definition"
      | none => .error "Invalid contract index"
  | _ => .error "Source unit has no nodes array"


/-- Write back a new member list for the contract at the index
(mutation through the references of the source). -/
def set_contract_nodes (unit : Json) (idx : Nat) (new_nodes : List Json) : Json :=
  match get_field unit "nodes" with
  | some (.arr nodes) =>
      set_field unit "nodes"
        (.arr (modify_at nodes idx (fun c => set_field c "nodes" (.arr new_nodes))))
  | _ => unit


/-- stitch_fragment_nodes_into_contract of stitcher.rs. -/
def stitch_fragment_nodes_into_contract (target : Json) (contract_idx : Nat)
    (fragment_contract : Json) (max_target_id : Int)
    (strategy : ResolveConflictStrategy) : Except String Json :=
  match contract_mut_at target contract_idx with
  | .error e => .error e
  | .ok target_contract =>
    match get_field fragment_contract "nodes" with
    | some (.arr fragment_nodes) =>
        (match get_field target_contract "nodes" with
         | some (.arr target_nodes) =>
            (match strategy with
             | .safe =>
                let (clones, _) := clone_statements fragment_nodes max_target_id
                .ok (set_contract_nodes target contract_idx (target_nodes ++ clones))
             | .replace =>
                match stitch_replace target_nodes fragment_nodes max_target_id with
                | .error e => .error e
                | .ok (new_nodes, _) =>
                    .ok (set_contract_nodes target contract_idx new_nodes))
         | _ => .error "Target contract missing nodes array")
    | _ => .error "Fragment contract missing nodes array"


/-- stitch_fragment_into_contract of the orchestrator: the counter is
seeded with max_id of the whole unit. -/
def stitch_fragment_into_contract (unit : Json) (contract_idx : Nat)
    (fragment_contract : Json) (strategy : ResolveConflictStrategy) :
    Except String Json :=
  stitch_fragment_nodes_into_contract unit contract_idx fragment_contract
    (max_id unit) strategy


/- ------------------------------------------------------------------
core.rs: visibility promotion.
------------------------------------------------------------------ -/
/-- The member update of expose_variables_internal and
expose_functions_internal: set visibility to "public", replacing a
differing value in place and inserting the binding when absent;
members that are not objects are left alone (as_object_mut is None). -/
def set_visibility_public (member : Json) : Json :=
  match member with
  | .obj fields =>
      match fields.lookup "visibility" with
      | some (.str s) =>
          if s = "public" then member
          else set_field member "visibility" (.str "public")
      | some _ => set_field member "visibility" (.str "public")
      | none => .obj (fields ++ [("visibility", .str "public")])
  | _ => member


/-- The per-contract closure of expose_variables_internal /
expose_functions_internal (the two sources differ only in the
nodeType they test, factored here as a parameter). -/
def expose_kind_in_contract (contract : Json) (kind : String) : Json :=
  match get_field contract "nodes" with
  | some (.arr members) =>
      set_field contract "nodes"
        (.arr (members.map (fun m =>
          if node_type m = some kind then set_visibility_public m else m)))
  | _ => contract


/-- The enumerate-and-filter of the unnamed arm of contract_indices of
core.rs: the indices of the ContractDefinition members, ascending. -/
def contract_definition_indices : List Json → Nat → List Nat
  | [], _ => []
  | node :: rest, idx =>
      if node_type node = some "ContractDefinition" then
        idx :: contract_definition_indices rest (idx + 1)
      else contract_definition_indices rest (idx + 1)


def contract_indices (unit : Json) (contract_name : Option String) :
    Except String (List Nat) :=
  match contract_name with
  | some nm =>
      (match find_instrumented_contract_index unit (some nm) with
       | .error e => .error e
       | .ok i => .ok [i])
  | none =>
      match get_field unit "nodes" with
      | some (.arr nodes) =>
          let idxs := contract_definition_indices nodes 0
          if idxs.isEmpty then
            .error "Target AST does not contain any contract definitions"
          else .ok idxs
      | _ => .error "Target AST does not contain any nodes"


/-- mutate_contracts of core.rs. -/
def mutate_contracts (unit : Json) (contract_name : Option String)
    (mutator : Json → Json) : Except String Json :=
  match contract_indices unit contract_name with
  | .error e => .error e
  | .ok idxs =>
      match get_field unit "nodes" with
      | some (.arr nodes) =>
          .ok (set_field unit "nodes"
            (.arr (idxs.foldl (fun ns i => modify_at ns i mutator) nodes)))
      | _ => .error "Target AST does not contain any nodes"


/-- expose_variables_internal of core.rs. -/
def expose_variables_internal (unit : Json) (contract_name : Option String) :
    Except String Json :=
  mutate_contracts unit contract_name
    (fun c => expose_kind_in_contract c "VariableDeclaration")


/-- expose_functions_internal of core.rs. -/
def expose_functions_internal (unit : Json) (contract_name : Option String) :
    Except String Json :=
  mutate_contracts unit contract_name
    (fun c => expose_kind_in_contract c "FunctionDefinition")


/- ------------------------------------------------------------------
instrumenter.rs: selectors and function resolution.
------------------------------------------------------------------ -/
/-- FunctionSelectorKind of instrumenter.rs.  parse_selector builds
this from the selector string; the canonical arm requires the external
compiler (to canonicalise the parameter types), so resolution takes
the selector kind as input here. -/
inductive FunctionSelectorKind where
  | canonical (name : String) (signature : List String)
  | name (n : String)
  | fallback
  | receive
  | constructor
deriving DecidableEq, Repr


/-- The per-node test of the resolution loop of resolve_function_mut. -/
def selector_matches (sel : FunctionSelectorKind) (node : Json) :
    Except String Bool :=
  match sel with
  | .fallback => .ok (function_kind node == some "fallback")
  | .receive => .ok (function_kind node == some "receive")
  | .constructor => .ok (function_kind node == some "constructor")
  | .canonical nm sig =>
      if node_name node = some nm then
        match function_signature node with
        | .error e => .error e
        | .ok s => .ok (s == sig)
      else .ok false
  | .name nm => .ok (node_name node == some nm)


/-- The match-collection loop of resolve_function_mut: indices of the
FunctionDefinition members matching the selector, failing as soon as a
signature cannot be computed for a candidate. -/
def collect_matches : List Json → Nat → FunctionSelectorKind → Except String (List Nat)
  | [], _, _ => .ok []
  | node :: rest, idx, sel =>
      if node_type node = some "FunctionDefinition" then
        match selector_matches sel node with
        | .error e => .error e
        | .ok m =>
            match collect_matches rest (idx + 1) sel with
            | .error e => .error e
            | .ok ms => .ok (if m then idx :: ms else ms)
      else collect_matches rest (idx + 1) sel


/-- resolve_function_mut of instrumenter.rs, returning the index of
the resolved function among the contract members. -/
def resolve_function_idx (contract : Json) (sel : FunctionSelectorKind) :
    Except String Nat :=
  match get_field contract "nodes" with
  | some (.arr nodes) =>
      (match collect_matches nodes 0 sel with
       | .error e => .error e
       | .ok [] => .error "Target function not found for injectShadowAtEdges."
       | .ok [i] => .ok i
       | .ok _ => .error "Function name is ambiguous. Please provide a full function signature.")
  | _ => .error "Contract has no members to instrument"



/- ------------------------------------------------------------------
instrumenter.rs: the inline-assembly precondition walker.
------------------------------------------------------------------ -/
mutual

/-- ensure_no_inline_assembly_in_statement of instrumenter.rs. -/
def ensure_no_inline_assembly_in_statement (statement : Json) : Except String Unit :=
    match node_type statement with
    | some "InlineAssembly" =>
        .error "injectShadowAtEdges does not support functions that contain inline assembly."
    | some "Block" | some "UncheckedBlock" =>
        (match hss : get_field statement "statements" with
         | some (.arr ss) => ensure_no_asm_list ss
         | _ => .error "Block missing statements array")
    | some "IfStatement" =>
        (match htb : get_field statement "trueBody" with
         | some tb =>
            (match ensure_no_inline_assembly_in_statement tb with
             | .error e => .error e
             | .ok _ =>
                (match hfb : get_field statement "falseBody" with
                 | some fb => ensure_no_inline_assembly_in_statement fb
                 | none => .ok ()))
         | none =>
            (match hfb : get_field statement "falseBody" with
             | some fb => ensure_no_inline_assembly_in_statement fb
             | none => .ok ()))
    | some "WhileStatement" | some "ForStatement" =>
        (match hb : get_field statement "body" with
         | some b => ensure_no_inline_assembly_in_statement b
         | none => .ok ())
    | some "DoWhileStatement" =>
        (match hb : get_field statement "body" with
         | some b => ensure_no_inline_assembly_in_statement b
         | none => .ok ())
    | some "TryStatement" =>
        (match hc : get_field statement "clauses" with
         | some (.arr clauses) => ensure_no_asm_clauses clauses
         | _ => .ok ())
    | _ => .ok ()
termination_by (sizeOf statement, 1)
decreasing_by
  all_goals simp_wf
  all_goals first
    | (have h := get_field_arr_sizeOf hss; omega)
    | (have h := get_field_sizeOf htb; omega)
    | (have h := get_field_sizeOf hfb; omega)
    | (have h := get_field_sizeOf hb; omega)
    | (have h := get_field_arr_sizeOf hc; omega)
    | omega
    | (apply Prod.Lex.right
       omega)
    | (simp only [Prod.lex_def]
       omega)
    | (simp only [Prod.lex_def]
       simp
       omega)

def ensure_no_asm_list : List Json → Except String Unit
  | [] => .ok ()
  | s :: rest =>
      match ensure_no_inline_assembly_in_statement s with
      | .error e => .error e
      | .ok _ => ensure_no_asm_list rest
termination_by l => (sizeOf l, 0)
decreasing_by
  all_goals simp_wf
  all_goals first
    | omega
    | (apply Prod.Lex.right
       omega)
    | (simp only [Prod.lex_def]
       omega)
    | (simp only [Prod.lex_def]
       simp
       omega)

def ensure_no_asm_clauses : List Json → Except String Unit
  | [] => .ok ()
  | clause :: rest =>
      match hb : get_field clause "block" with
      | some block =>
          (match ensure_no_inline_assembly_in_statement block with
           | .error e => .error e
           | .ok _ => ensure_no_asm_clauses rest)
      | none => ensure_no_asm_clauses rest
termination_by l => (sizeOf l, 0)
decreasing_by
  all_goals simp_wf
  all_goals first
    | (have h := get_field_sizeOf hb; omega)
    | omega
    | (apply Prod.Lex.right
       omega)
    | (simp only [Prod.lex_def]
       omega)
    | (simp only [Prod.lex_def]
       simp
       omega)

end

/-- ensure_no_inline_assembly of instrumenter.rs: the body must carry a
statements array, and no walker-reachable statement may be an
InlineAssembly node. -/
def ensure_no_inline_assembly (body : Json) : Except String Unit :=
  match get_field body "statements" with
  | some (.arr ss) => ensure_no_asm_list ss
  | _ => .error "Function body missing statements array"


/- ------------------------------------------------------------------
instrumenter.rs: ensure_block and the inject_after walker.
------------------------------------------------------------------ -/
/-- ensure_block of instrumenter.rs: a Block or UncheckedBlock is left
alone; any other node is replaced by a fresh Block (fresh id bumped
from the counter, src copied from the node or defaulted) holding the
node as its only statement.  Map::new of the source inserts nodeType,
id, src, statements in this order. -/
def ensure_block (node : Json) (next_id : Int) : Json × Int :=
  if node_type node = some "Block" ∨ node_type node = some "UncheckedBlock" then
    (node, next_id)
  else
    let src := (get_field node "src").getD (.str "0:0:0")
    let n1 := next_id + 1
    (.obj [("nodeType", .str "Block"), ("id", .num n1), ("src", src),
           ("statements", .arr [node])], n1)


mutual

/-- inject_after of instrumenter.rs, written as front-recursion over the
statement list: the while loop of the source only moves its index
forward, skipping the statements it inserts, so processing the head
and recursing on the tail computes the same list.  The third component
is the error of the source's Result; on an error the first component
is the partially mutated list exactly as the source leaves it behind
the &mut reference. -/
def inject_after : List Json → List Json → Int → List Json × Int × Option String
  | [], _, n => ([], n, none)
  | s :: rest, template, n =>
      match node_type s with
      | some "Return" =>
          let (clones, n1) := clone_statements template n
          let (rest', n2, e) := inject_after rest template n1
          (clones ++ s :: rest', n2, e)
      | some "Block" | some "UncheckedBlock" =>
          (match hss : get_field s "statements" with
           | some (.arr ss) =>
              let (ss', n1, e) := inject_after ss template n
              let s' := set_field s "statements" (.arr ss')
              (match e with
               | some err => (s' :: rest, n1, some err)
               | none =>
                  let (rest', n2, e2) := inject_after rest template n1
                  (s' :: rest', n2, e2))
           | _ => (s :: rest, n, some "Block missing statements array"))
      | some "IfStatement" =>
          (match htb : get_field s "trueBody" with
           | some tb =>
              let (tb', n1, e) := inject_into_block_or_statement tb template n
              let s1 := set_field s "trueBody" tb'
              (match e with
               | some err => (s1 :: rest, n1, some err)
               | none =>
                  (match hfb : get_field s "falseBody" with
                   | some fb =>
                      let (fb', n2, e2) := inject_into_block_or_statement fb template n1
                      let s2 := set_field s1 "falseBody" fb'
                      (match e2 with
                       | some err => (s2 :: rest, n2, some err)
                       | none =>
                          let (rest', n3, e3) := inject_after rest template n2
                          (s2 :: rest', n3, e3))
                   | none =>
                      let (rest', n2, e2) := inject_after rest template n1
                      (s1 :: rest', n2, e2)))
           | none =>
              (match hfb : get_field s "falseBody" with
               | some fb =>
                  let (fb', n1, e) := inject_into_block_or_statement fb template n
                  let s1 := set_field s "falseBody" fb'
                  (match e with
                   | some err => (s1 :: rest, n1, some err)
                   | none =>
                      let (rest', n2, e2) := inject_after rest template n1
                      (s1 :: rest', n2, e2))
               | none =>
                  let (rest', n1, e1) := inject_after rest template n
                  (s :: rest', n1, e1)))
      | some "WhileStatement" | some "ForStatement" =>
          (match hb : get_field s "body" with
           | some b =>
              let (b', n1, e) := inject_into_block_or_statement b template n
              let s' := set_field s "body" b'
              (match e with
               | some err => (s' :: rest, n1, some err)
               | none =>
                  let (rest', n2, e2) := inject_after rest template n1
                  (s' :: rest', n2, e2))
           | none =>
              let (rest', n1, e1) := inject_after rest template n
              (s :: rest', n1, e1))
      | some "DoWhileStatement" =>
          (match hb : get_field s "body" with
           | some b =>
              (match hbs : get_field b "statements" with
               | some (.arr ss) =>
                  let (ss', n1, e) := inject_after ss template n
                  let s' := set_field s "body" (set_field b "statements" (.arr ss'))
                  (match e with
                   | some err => (s' :: rest, n1, some err)
                   | none =>
                      let (rest', n2, e2) := inject_after rest template n1
                      (s' :: rest', n2, e2))
               | _ => (s :: rest, n, some "DoWhile body missing statements array"))
           | none =>
              let (rest', n1, e1) := inject_after rest template n
              (s :: rest', n1, e1))
      | some "TryStatement" =>
          (match hc : get_field s "clauses" with
           | some (.arr clauses) =>
              let (clauses', n1, e) := inject_try_clauses clauses template n
              let s' := set_field s "clauses" (.arr clauses')
              (match e with
               | some err => (s' :: rest, n1, some err)
               | none =>
                  let (rest', n2, e2) := inject_after rest template n1
                  (s' :: rest', n2, e2))
           | _ =>
              let (rest', n1, e1) := inject_after rest template n
              (s :: rest', n1, e1))
      | _ =>
          let (rest', n1, e1) := inject_after rest template n
          (s :: rest', n1, e1)
termination_by stmts template n => (sizeOf stmts, 0)
decreasing_by
  all_goals simp_wf
  all_goals first
    | (have h := get_field_arr_sizeOf hss; omega)
    | (have h := get_field_sizeOf htb; omega)
    | (have h := get_field_sizeOf hfb; omega)
    | (have h1 := get_field_sizeOf hb
       have h2 := get_field_arr_sizeOf hbs; omega)
    | (have h := get_field_sizeOf hb; omega)
    | (have h := get_field_arr_sizeOf hc; omega)
    | omega
    | (apply Prod.Lex.right
       omega)
    | (simp only [Prod.lex_def]
       omega)
    | (simp only [Prod.lex_def]
       simp
       omega)

/-- inject_into_block_or_statement of instrumenter.rs.  A block-typed
node is descended into; any other node is first wrapped by
ensure_block, whose statements array is the single original node, and
the walk continues inside the wrapper. -/
def inject_into_block_or_statement : Json → List Json → Int → Json × Int × Option String
  | node, template, n =>
      if node_type node = some "Block" ∨ node_type node = some "UncheckedBlock" then
        match hss : get_field node "statements" with
        | some (.arr ss) =>
            let (ss', n1, e) := inject_after ss template n
            (set_field node "statements" (.arr ss'), n1, e)
        | _ => (node, n, some "Block missing statements array")
      else
        let (wrapped, n1) := ensure_block node n
        let (ss', n2, e) := inject_after [node] template n1
        (set_field wrapped "statements" (.arr ss'), n2, e)
termination_by node template n => (sizeOf node + 2, 1)
decreasing_by
  all_goals simp_wf
  all_goals first
    | (have h := get_field_arr_sizeOf hss; omega)
    | omega
    | (apply Prod.Lex.right
       omega)
    | (simp only [Prod.lex_def]
       omega)
    | (simp only [Prod.lex_def]
       simp
       omega)

/-- The clause loop of the TryStatement arm of inject_after. -/
def inject_try_clauses : List Json → List Json → Int → List Json × Int × Option String
  | [], _, n => ([], n, none)
  | clause :: rest, template, n =>
      match hb : get_field clause "block" with
      | some block =>
          (match hbs : get_field block "statements" with
           | some (.arr ss) =>
              let (ss', n1, e) := inject_after ss template n
              let clause' := set_field clause "block" (set_field block "statements" (.arr ss'))
              (match e with
               | some err => (clause' :: rest, n1, some err)
               | none =>
                  let (rest', n2, e2) := inject_try_clauses rest template n1
                  (clause' :: rest', n2, e2))
           | _ => (clause :: rest, n, some "Try clause block missing statements array"))
      | none =>
          let (rest', n1, e1) := inject_try_clauses rest template n
          (clause :: rest', n1, e1)
termination_by clauses template n => (sizeOf clauses, 1)
decreasing_by
  all_goals simp_wf
  all_goals first
    | (have h1 := get_field_sizeOf hb
       have h2 := get_field_arr_sizeOf hbs; omega)
    | omega
    | (apply Prod.Lex.right
       omega)
    | (simp only [Prod.lex_def]
       omega)
    | (simp only [Prod.lex_def]
       simp
       omega)

end

/- ------------------------------------------------------------------
instrumenter.rs: parse_statements, the after-template application and
inject_edges.
------------------------------------------------------------------ -/
/-- Model of Rust str::trim (strip leading and trailing whitespace),
written over the character list so that it evaluates inside the
kernel; Char.isWhitespace stands for Rust's char::is_whitespace. -/
def str_trim (s : String) : String :=
  String.mk (((s.data.dropWhile Char.isWhitespace).reverse.dropWhile
    Char.isWhitespace).reverse)


/-- parse_statements of instrumenter.rs.  An empty snippet list parses
to no statements; entries are trimmed and whitespace-only entries are
filtered out, and when nothing remains no fragment is built and no
compiler call happens.  Otherwise the snippets are joined into a
synthetic function body and parsed through solc; that external step
and the extraction of the resulting statements array are modelled by
the explicit argument ext. -/
def parse_statements (snippets : List String) (ext : Except String (List Json)) :
    Except String (List Json) :=
  if snippets.isEmpty then .ok []
  else
    let joined := (snippets.map (fun sn => str_trim sn)).filter (fun sn => !sn.isEmpty)
    if joined.isEmpty then .ok []
    else ext


/-- Lines 76-80 of inject_edges: run inject_after over the statement
list, then clone the after template once more and append it at the
end.  On a walker error the partially mutated list is kept and the
tail is not appended (the Rust ? operator returns early). -/
def apply_after (stmts : List Json) (template : List Json) (n : Int) :
    List Json × Int × Option String :=
  let (stmts2, n2, e) := inject_after stmts template n
  match e with
  | some err => (stmts2, n2, some err)
  | none =>
      let (tail, n3) := clone_statements template n2
      (stmts2 ++ tail, n3, none)


/-- Write a new statements list into the body of member fidx of
contract cidx (the in-place mutation performed through the source's
chain of mutable references). -/
def set_function_body_statements (unit : Json) (cidx fidx : Nat)
    (new_stmts : List Json) : Json :=
  match get_field unit "nodes" with
  | some (.arr nodes) =>
      set_field unit "nodes"
        (.arr (modify_at nodes cidx (fun c =>
          match get_field c "nodes" with
          | some (.arr members) =>
              set_field c "nodes"
                (.arr (modify_at members fidx (fun f =>
                  match get_field f "body" with
                  | some body =>
                      set_field f "body" (set_field body "statements" (.arr new_stmts))
                  | none => f)))
          | _ => c)))
  | _ => unit


/-- inject_edges of instrumenter.rs, with the mutable unit made
explicit: the returned Json is the unit as the source leaves it (also
on error, where the source may already have mutated it through the
&mut reference).  parse_selector needs the external compiler for
canonical selectors and is taken as the pre-parsed selector kind;
ext_before and ext_after stand for the external snippet parses. -/
def inject_edges (unit : Json) (contract_idx : Nat) (sel : FunctionSelectorKind)
    (before_snippets after_snippets : List String)
    (ext_before ext_after : Except String (List Json)) :
    Json × Except String Unit :=
  if before_snippets.isEmpty ∧ after_snippets.isEmpty then
    (unit, .error "injectShadowAtEdges requires a before and/or after snippet.")
  else
    let next_id := max_id unit
    match contract_mut_at unit contract_idx with
    | .error e => (unit, .error e)
    | .ok contract =>
      match resolve_function_idx contract sel with
      | .error e => (unit, .error e)
      | .ok fidx =>
        match get_field contract "nodes" with
        | some (.arr members) =>
          match members.get? fidx with
          | some function =>
            match get_field function "body" with
            | none => (unit, .error "Cannot instrument a function without an implementation")
            | some body =>
              match body with
              | .null => (unit, .error "Cannot instrument a function without an implementation")
              | _ =>
                match ensure_no_inline_assembly body with
                | .error e => (unit, .error e)
                | .ok _ =>
                  match parse_statements before_snippets ext_before with
                  | .error e => (unit, .error e)
                  | .ok before_statements =>
                    match parse_statements after_snippets ext_after with
                    | .error e => (unit, .error e)
                    | .ok after_statements =>
                      if before_statements.isEmpty ∧ after_statements.isEmpty then
                        (unit, .ok ())
                      else
                        match get_field body "statements" with
                        | some (.arr stmts) =>
                            let (stmts1, n1) :=
                              if before_statements.isEmpty then (stmts, next_id)
                              else
                                let (clones, nn) := clone_statements before_statements next_id
                                (clones ++ stmts, nn)
                            if after_statements.isEmpty then
                              (set_function_body_statements unit contract_idx fidx stmts1,
                               .ok ())
                            else
                              let (stmts2, _, e) := apply_after stmts1 after_statements n1
                              match e with
                              | some err =>
                                  (set_function_body_statements unit contract_idx fidx stmts2,
                                   .error err)
                              | none =>
                                  (set_function_body_statements unit contract_idx fidx stmts2,
                                   .ok ())
                        | _ => (unit, .error "Function body missing statements array")
          | none => (unit, .error "Invalid function index after resolution")
        | _ => (unit, .error "Contract has no members to instrument")



/-- Concrete unit with a pragma and two contracts, used by witnesses. -/
def sample_contract : Json :=
  .obj [("nodeType", .str "ContractDefinition"), ("id", .num 5),
        ("name", .str "Sample"), ("nodes", .arr [])]


def other_contract : Json :=
  .obj [("nodeType", .str "ContractDefinition"), ("id", .num 9),
        ("name", .str "Other"), ("nodes", .arr [])]


def pragma_node : Json :=
  .obj [("nodeType", .str "PragmaDirective"), ("id", .num 2)]


def two_contract_nodes : List Json := [pragma_node, sample_contract, other_contract]


def two_contract_unit : Json :=
  .obj [("nodeType", .str "SourceUnit"), ("id", .num 1),
        ("nodes", .arr two_contract_nodes)]


/-- Concrete function with a Return body, used by witnesses. -/
def read_function : Json :=
  .obj [("nodeType", .str "FunctionDefinition"), ("id", .num 10),
        ("name", .str "read"), ("kind", .str "function"),
        ("parameters", .obj [("id", .num 11), ("parameters", .arr [])]),
        ("body", .obj [("nodeType", .str "Block"), ("id", .num 12),
          ("statements", .arr [.obj [("nodeType", .str "Return"), ("id", .num 13)]])])]


def read_body : Json :=
  .obj [("nodeType", .str "Block"), ("id", .num 12),
        ("statements", .arr [.obj [("nodeType", .str "Return"), ("id", .num 13)]])]


def one_function_contract : Json :=
  .obj [("nodeType", .str "ContractDefinition"), ("id", .num 5),
        ("name", .str "Sample"), ("nodes", .arr [read_function])]


def one_function_unit : Json :=
  .obj [("nodeType", .str "SourceUnit"), ("id", .num 1),
        ("nodes", .arr [one_function_contract])]


/-- Concrete contract with two overloads of the same bare name, used by
witnesses. -/
def call_uint_function : Json :=
  .obj [("nodeType", .str "FunctionDefinition"), ("id", .num 20),
        ("name", .str "call"), ("kind", .str "function"),
        ("parameters", .obj [("id", .num 21), ("parameters", .arr
          [.obj [("id", .num 22), ("typeDescriptions",
            .obj [("typeIdentifier", .str "t_uint256")])]])])]


def call_addr_function : Json :=
  .obj [("nodeType", .str "FunctionDefinition"), ("id", .num 23),
        ("name", .str "call"), ("kind", .str "function"),
        ("parameters", .obj [("id", .num 24), ("parameters", .arr
          [.obj [("id", .num 25), ("typeDescriptions",
            .obj [("typeIdentifier", .str "t_address")])]])])]


def overload_contract : Json :=
  .obj [("nodeType", .str "ContractDefinition"), ("id", .num 19),
        ("name", .str "Overloaded"),
        ("nodes", .arr [call_uint_function, call_addr_function])]


/-- A source unit with one contract holding one internal state variable
(no visibility field), and its exposed form. -/
def c9_unit : Json :=
  .obj [("nodeType", .str "SourceUnit"), ("id", .num 1),
        ("nodes", .arr [
          .obj [("nodeType", .str "ContractDefinition"), ("id", .num 2),
                ("name", .str "Sample"),
                ("nodes", .arr [
                  .obj [("nodeType", .str "VariableDeclaration"), ("id", .num 3),
                        ("name", .str "stored")]])]])]


def c9_exposed : Json :=
  .obj [("nodeType", .str "SourceUnit"), ("id", .num 1),
        ("nodes", .arr [
          .obj [("nodeType", .str "ContractDefinition"), ("id", .num 2),
                ("name", .str "Sample"),
                ("nodes", .arr [
                  .obj [("nodeType", .str "VariableDeclaration"), ("id", .num 3),
                        ("name", .str "stored"),
                        ("visibility", .str "public")]])]])]


/-- A source unit with one contract holding one internal function, and its
exposed form (the visibility value replaced in place). -/
def c9_funit : Json :=
  .obj [("nodeType", .str "SourceUnit"), ("id", .num 1),
        ("nodes", .arr [
          .obj [("nodeType", .str "ContractDefinition"), ("id", .num 2),
                ("name", .str "Sample"),
                ("nodes", .arr [
                  .obj [("nodeType", .str "FunctionDefinition"), ("id", .num 3),
                        ("name", .str "ping"),
                        ("visibility", .str "internal")]])]])]


def c9_fexposed : Json :=
  .obj [("nodeType", .str "SourceUnit"), ("id", .num 1),
        ("nodes", .arr [
          .obj [("nodeType", .str "ContractDefinition"), ("id", .num 2),
                ("name", .str "Sample"),
                ("nodes", .arr [
                  .obj [("nodeType", .str "FunctionDefinition"), ("id", .num 3),
                        ("name", .str "ping"),
                        ("visibility", .str "public")]])]])]


/-- C6 failing input: a function whose body holds a DoWhileStatement whose
body is not a block (no statements array), which makes the after-walker of
inject_after fail after the before-prologue was already inserted. -/
def c6_tpl : Json :=
  .obj [("nodeType", .str "ExpressionStatement"), ("id", .num 0)]


def c6_dowhile : Json :=
  .obj [("nodeType", .str "DoWhileStatement"), ("id", .num 4),
        ("body", .obj [("nodeType", .str "ExpressionStatement"), ("id", .num 5)])]


def c6_body_fields : List (String × Json) :=
  [("nodeType", .str "Block"), ("id", .num 6),
   ("statements", .arr [c6_dowhile])]


def c6_function : Json :=
  .obj [("nodeType", .str "FunctionDefinition"), ("id", .num 3),
        ("name", .str "f"), ("body", .obj c6_body_fields)]


def c6_contract : Json :=
  .obj [("nodeType", .str "ContractDefinition"), ("id", .num 2),
        ("name", .str "Sample"), ("nodes", .arr [c6_function])]


def c6_unit : Json :=
  .obj [("nodeType", .str "SourceUnit"), ("id", .num 1),
        ("nodes", .arr [c6_contract])]


/-- The before-template clone as inserted: id renumbered to 7. -/
def c6_tpl7 : Json :=
  .obj [("nodeType", .str "ExpressionStatement"), ("id", .num 7)]


/-- The unit inject_edges leaves behind on the failing run: the before
prologue (cloned with fresh id 7) is already inserted when the walker
errors, so the function body gained a statement. -/
def c6_mutated : Json :=
  .obj [("nodeType", .str "SourceUnit"), ("id", .num 1),
        ("nodes", .arr [
          .obj [("nodeType", .str "ContractDefinition"), ("id", .num 2),
                ("name", .str "Sample"),
                ("nodes", .arr [
                  .obj [("nodeType", .str "FunctionDefinition"), ("id", .num 3),
                        ("name", .str "f"),
                        ("body", .obj [("nodeType", .str "Block"), ("id", .num 6),
                                       ("statements", .arr [c6_tpl7, c6_dowhile])])]])]])]


/-- An anonymous fallback FunctionDefinition in the stitch target and a
fragment member with the same (empty) name, signature and kind. -/
def c8_target_fn : Json :=
  .obj [("nodeType", .str "FunctionDefinition"), ("id", .num 10),
        ("kind", .str "fallback"),
        ("parameters", .obj [("parameters", .arr [])])]


def c8_frag_fn : Json :=
  .obj [("nodeType", .str "FunctionDefinition"), ("id", .num 20),
        ("kind", .str "fallback"),
        ("parameters", .obj [("parameters", .arr [])]),
        ("documentation", .str "replacement")]


/-- c8_frag_fn as overlaid: the snapshot id 10 of the overlaid member is
reused for its one nodeType node. -/
def c8_frag_repl : Json :=
  .obj [("nodeType", .str "FunctionDefinition"), ("id", .num 10),
        ("kind", .str "fallback"),
        ("parameters", .obj [("parameters", .arr [])]),
        ("documentation", .str "replacement")]


def c8_ufd : Json := .obj [("nodeType", .str "UsingForDirective"), ("id", .num 1)]


def c8_anon_var : Json := .obj [("nodeType", .str "VariableDeclaration"), ("id", .num 2)]


/-- Fragment member of the replace run: the target function "f()" and a
fragment member with the same conflict key. -/
def c2_target_f : Json :=
  .obj [("nodeType", .str "FunctionDefinition"), ("id", .num 3),
        ("name", .str "f"), ("kind", .str "function"),
        ("parameters", .obj [("parameters", .arr [])])]


def c2_frag_f : Json :=
  .obj [("nodeType", .str "FunctionDefinition"), ("id", .num 7),
        ("name", .str "f"), ("kind", .str "function"),
        ("parameters", .obj [("parameters", .arr [])]),
        ("implemented", .bool true)]


/-- c2_frag_f as overlaid: its single node reuses the recorded id 3. -/
def c2_overlaid : Json :=
  .obj [("nodeType", .str "FunctionDefinition"), ("id", .num 3),
        ("name", .str "f"), ("kind", .str "function"),
        ("parameters", .obj [("parameters", .arr [])]),
        ("implemented", .bool true)]


def c2_key : ConflictKey := .function "f" [] "function"


def c2_contract : Json :=
  .obj [("nodeType", .str "ContractDefinition"), ("id", .num 2),
        ("name", .str "T"), ("nodes", .arr [c2_target_f])]


def c2_unit : Json :=
  .obj [("nodeType", .str "SourceUnit"), ("id", .num 1),
        ("nodes", .arr [c2_contract])]


def c2_fragc : Json :=
  .obj [("nodeType", .str "ContractDefinition"), ("id", .num 100),
        ("name", .str "T"), ("nodes", .arr [c2_frag_f])]


/-- Node types the after-walker descends into or acts on; anything else
is passed over unchanged. -/
def walker_passes (o : Option String) : Prop :=
  o ≠ some "Return" ∧ o ≠ some "Block" ∧ o ≠ some "UncheckedBlock" ∧
  o ≠ some "IfStatement" ∧ o ≠ some "WhileStatement" ∧ o ≠ some "ForStatement" ∧
  o ≠ some "DoWhileStatement" ∧ o ≠ some "TryStatement"


mutual

/-- The claim's insertion shape, mirroring the recursive walker: one
clone of the template (equal to the template up to node ids) lands
immediately before every Return the walker reaches, inside blocks,
unchecked blocks, if-branches, loop bodies, do-while bodies and try
clause blocks, with non-block children wrapped in a fresh Block first;
everything else is copied through. -/
inductive InsertedAfter (t : List Json) : List Json → List Json → Prop
  | nil : InsertedAfter t [] []
  | ret : ∀ s rest out clones,
      node_type s = some "Return" →
      clones.map erase_nt_ids = t.map erase_nt_ids →
      InsertedAfter t rest out →
      InsertedAfter t (s :: rest) (clones ++ s :: out)
  | block : ∀ s rest ss ss' out,
      (node_type s = some "Block" ∨ node_type s = some "UncheckedBlock") →
      get_field s "statements" = some (.arr ss) →
      InsertedAfter t ss ss' →
      InsertedAfter t rest out →
      InsertedAfter t (s :: rest) (set_field s "statements" (.arr ss') :: out)
  | ifBoth : ∀ s rest tb tb' fb fb' out,
      node_type s = some "IfStatement" →
      get_field s "trueBody" = some tb →
      get_field s "falseBody" = some fb →
      InsertedInto t tb tb' →
      InsertedInto t fb fb' →
      InsertedAfter t rest out →
      InsertedAfter t (s :: rest)
        (set_field (set_field s "trueBody" tb') "falseBody" fb' :: out)
  | ifTrue : ∀ s rest tb tb' out,
      node_type s = some "IfStatement" →
      get_field s "trueBody" = some tb →
      get_field s "falseBody" = none →
      InsertedInto t tb tb' →
      InsertedAfter t rest out →
      InsertedAfter t (s :: rest) (set_field s "trueBody" tb' :: out)
  | ifFalse : ∀ s rest fb fb' out,
      node_type s = some "IfStatement" →
      get_field s "trueBody" = none →
      get_field s "falseBody" = some fb →
      InsertedInto t fb fb' →
      InsertedAfter t rest out →
      InsertedAfter t (s :: rest) (set_field s "falseBody" fb' :: out)
  | ifNone : ∀ s rest out,
      node_type s = some "IfStatement" →
      get_field s "trueBody" = none →
      get_field s "falseBody" = none →
      InsertedAfter t rest out →
      InsertedAfter t (s :: rest) (s :: out)
  | loopBody : ∀ s rest b b' out,
      (node_type s = some "WhileStatement" ∨ node_type s = some "ForStatement") →
      get_field s "body" = some b →
      InsertedInto t b b' →
      InsertedAfter t rest out →
      InsertedAfter t (s :: rest) (set_field s "body" b' :: out)
  | loopNoBody : ∀ s rest out,
      (node_type s = some "WhileStatement" ∨ node_type s = some "ForStatement") →
      get_field s "body" = none →
      InsertedAfter t rest out →
      InsertedAfter t (s :: rest) (s :: out)
  | doWhile : ∀ s rest b ss ss' out,
      node_type s = some "DoWhileStatement" →
      get_field s "body" = some b →
      get_field b "statements" = some (.arr ss) →
      InsertedAfter t ss ss' →
      InsertedAfter t rest out →
      InsertedAfter t (s :: rest)
        (set_field s "body" (set_field b "statements" (.arr ss')) :: out)
  | doWhileNoBody : ∀ s rest out,
      node_type s = some "DoWhileStatement" →
      get_field s "body" = none →
      InsertedAfter t rest out →
      InsertedAfter t (s :: rest) (s :: out)
  | tryClauses : ∀ s rest clauses clauses' out,
      node_type s = some "TryStatement" →
      get_field s "clauses" = some (.arr clauses) →
      InsertedClauses t clauses clauses' →
      InsertedAfter t rest out →
      InsertedAfter t (s :: rest) (set_field s "clauses" (.arr clauses') :: out)
  | tryOther : ∀ s rest out,
      node_type s = some "TryStatement" →
      (∀ cl, get_field s "clauses" ≠ some (.arr cl)) →
      InsertedAfter t rest out →
      InsertedAfter t (s :: rest) (s :: out)
  | other : ∀ s rest out,
      walker_passes (node_type s) →
      InsertedAfter t rest out →
      InsertedAfter t (s :: rest) (s :: out)

/-- Block-or-statement insertion: a block-typed child is descended
into; any other child is first wrapped in a fresh Block (new id,
inherited src) holding the child as sole statement. -/
inductive InsertedInto (t : List Json) : Json → Json → Prop
  | intoBlock : ∀ node ss ss',
      (node_type node = some "Block" ∨ node_type node = some "UncheckedBlock") →
      get_field node "statements" = some (.arr ss) →
      InsertedAfter t ss ss' →
      InsertedInto t node (set_field node "statements" (.arr ss'))
  | wrap : ∀ node ss' (idv : Int),
      ¬ (node_type node = some "Block" ∨ node_type node = some "UncheckedBlock") →
      InsertedAfter t [node] ss' →
      InsertedInto t node
        (.obj [("nodeType", .str "Block"), ("id", .num idv),
               ("src", (get_field node "src").getD (.str "0:0:0")),
               ("statements", .arr ss')])

/-- Try-clause traversal: each clause with a block whose statements are
an array is processed inside that block; clauses without a block pass
through. -/
inductive InsertedClauses (t : List Json) : List Json → List Json → Prop
  | nil : InsertedClauses t [] []
  | clauseBlock : ∀ clause rest block ss ss' out,
      get_field clause "block" = some block →
      get_field block "statements" = some (.arr ss) →
      InsertedAfter t ss ss' →
      InsertedClauses t rest out →
      InsertedClauses t (clause :: rest)
        (set_field clause "block" (set_field block "statements" (.arr ss')) :: out)
  | noBlock : ∀ clause rest out,
      get_field clause "block" = none →
      InsertedClauses t rest out →
      InsertedClauses t (clause :: rest) (clause :: out)

end

def c1_tpl : Json := .obj [("nodeType", .str "ExpressionStatement"), ("id", .num 0)]


def c1_ret : Json := .obj [("nodeType", .str "Return"), ("id", .num 4)]


def c1_tpl11 : Json := .obj [("nodeType", .str "ExpressionStatement"), ("id", .num 11)]


def c1_tpl12 : Json := .obj [("nodeType", .str "ExpressionStatement"), ("id", .num 12)]


theorem json_sizeOf_pos (j : Json) : 0 < sizeOf j := by
  cases j <;> simp


/-- Joint structural induction over Json values, field lists and element
lists, obtained from strong induction on sizeOf. -/
theorem json_mutual_ind (P : Json → Prop) (Q : List (String × Json) → Prop)
    (R : List Json → Prop)
    (hnull : P .null) (hbool : ∀ b, P (.bool b)) (hnum : ∀ n, P (.num n))
    (hstr : ∀ s, P (.str s))
    (harr : ∀ l, R l → P (.arr l)) (hobj : ∀ fs, Q fs → P (.obj fs))
    (qnil : Q []) (qcons : ∀ k v rest, P v → Q rest → Q ((k, v) :: rest))
    (rnil : R []) (rcons : ∀ j rest, P j → R rest → R (j :: rest)) :
    (∀ j, P j) ∧ (∀ fs, Q fs) ∧ (∀ l, R l) := by
  have key : ∀ n : Nat, (∀ j : Json, sizeOf j ≤ n → P j) ∧
      (∀ fs : List (String × Json), sizeOf fs ≤ n → Q fs) ∧
      (∀ l : List Json, sizeOf l ≤ n → R l) := by
    intro n
    induction n with
    | zero =>
      refine ⟨fun j h => absurd h ?_, fun fs h => absurd h ?_, fun l h => absurd h ?_⟩
      · exact Nat.not_le.mpr (json_sizeOf_pos j)
      · cases fs <;> simp
      · cases l <;> simp
    | succ n ih =>
      obtain ⟨ihj, ihf, ihl⟩ := ih
      refine ⟨fun j h => ?_, fun fs h => ?_, fun l h => ?_⟩
      · cases j with
        | null => exact hnull
        | bool b => exact hbool b
        | num m => exact hnum m
        | str s => exact hstr s
        | arr l =>
          refine harr l (ihl l ?_)
          simp at h; omega
        | obj fs =>
          refine hobj fs (ihf fs ?_)
          simp at h; omega
      · cases fs with
        | nil => exact qnil
        | cons kv rest =>
          obtain ⟨k, v⟩ := kv
          refine qcons k v rest (ihj v ?_) (ihf rest ?_) <;> (simp at h; omega)
      · cases l with
        | nil => exact rnil
        | cons j rest =>
          refine rcons j rest (ihj j ?_) (ihl rest ?_) <;> (simp at h; omega)
  exact ⟨fun j => (key (sizeOf j)).1 j le_rfl,
    fun fs => (key (sizeOf fs)).2.1 fs le_rfl,
    fun l => (key (sizeOf l)).2.2 l le_rfl⟩


theorem int_range_append (a : Int) (k₁ k₂ : Nat) :
    int_range a k₁ ++ int_range (a + k₁) k₂ = int_range a (k₁ + k₂) := by
  induction k₁ generalizing a with
  | zero => simp [int_range]
  | succ k ih =>
    have h1 : k + 1 + k₂ = (k + k₂) + 1 := by omega
    rw [h1, int_range, int_range, List.cons_append]
    have h2 : a + (k + 1 : Nat) = (a + 1) + (k : Int) := by push_cast; ring
    rw [h2, ih (a + 1)]


theorem int_range_length (a : Int) (k : Nat) : (int_range a k).length = k := by
  induction k generalizing a with
  | zero => rfl
  | succ k ih => simp [int_range, ih]


theorem int_range_mem {a : Int} {k : Nat} {x : Int} :
    x ∈ int_range a k ↔ a < x ∧ x ≤ a + k := by
  induction k generalizing a with
  | zero => simp [int_range]
  | succ k ih =>
    rw [int_range]
    simp only [List.mem_cons, ih]
    push_cast
    omega


/- ------------------------------------------------------------------
Characterisation of walk_renumber / clone_with_new_ids.
------------------------------------------------------------------ -/
theorem nt_ids_fields_append (xs ys : List (String × Json)) :
    nt_ids_fields (xs ++ ys) = nt_ids_fields xs ++ nt_ids_fields ys := by
  induction xs with
  | nil => simp [nt_ids_fields]
  | cons kv rest ih => obtain ⟨k, v⟩ := kv; simp [nt_ids_fields, ih]


theorem erase_nt_ids_fields_drop_append (xs ys : List (String × Json)) :
    erase_nt_ids_fields_drop (xs ++ ys) =
      erase_nt_ids_fields_drop xs ++ erase_nt_ids_fields_drop ys := by
  induction xs with
  | nil => simp [erase_nt_ids_fields_drop]
  | cons kv rest ih =>
    obtain ⟨k, v⟩ := kv
    by_cases hk : k = "id" <;> simp [erase_nt_ids_fields_drop, hk, ih]


theorem lookup_isSome_of_keys_eq {l₁ l₂ : List (String × Json)}
    (h : l₁.map Prod.fst = l₂.map Prod.fst) (k : String) :
    (l₁.lookup k).isSome = (l₂.lookup k).isSome := by
  induction l₁ generalizing l₂ with
  | nil =>
    cases l₂ with
    | nil => rfl
    | cons b t => simp at h
  | cons a t ih =>
    obtain ⟨ka, va⟩ := a
    cases l₂ with
    | nil => simp at h
    | cons b t₂ =>
      obtain ⟨kb, vb⟩ := b
      simp only [List.map_cons, List.cons.injEq] at h
      obtain ⟨h1, h2⟩ := h
      subst h1
      by_cases hk : k == ka
      · simp [List.lookup, hk]
      · simp only [List.lookup, hk]
        exact ih h2


theorem nt_ids_obj_node (fields : List (String × Json)) (i : Int)
    (h1 : (fields.lookup "nodeType").isSome = true)
    (h2 : fields.lookup "id" = some (.num i)) :
    nt_ids (.obj fields) = i :: nt_ids_fields fields := by
  simp [nt_ids, h1, h2]


theorem nt_ids_obj_plain (fields : List (String × Json))
    (h1 : (fields.lookup "nodeType").isSome = false) :
    nt_ids (.obj fields) = nt_ids_fields fields := by
  simp [nt_ids, h1]


theorem erase_nt_ids_obj_node (fields : List (String × Json))
    (h1 : (fields.lookup "nodeType").isSome = true) :
    erase_nt_ids (.obj fields) = .obj (erase_nt_ids_fields_drop fields) := by
  simp [erase_nt_ids, h1]


theorem erase_nt_ids_obj_plain (fields : List (String × Json))
    (h1 : (fields.lookup "nodeType").isSome = false) :
    erase_nt_ids (.obj fields) = .obj (erase_nt_ids_fields fields) := by
  simp [erase_nt_ids, h1]


/-- Master characterisation of walk_renumber: the counter never
decreases, the node ids of the result are exactly the ascending run
from the entry counter to the exit counter, and erasing node ids
recovers the original subtree (so everything apart from node ids —
including ids of objects not carrying a nodeType — is copied
structurally). -/
theorem walk_renumber_spec :
    (∀ j : Json, ∀ n : Int,
      n ≤ (walk_renumber j n).2 ∧
      nt_ids (walk_renumber j n).1 =
        int_range n ((walk_renumber j n).2 - n).toNat ∧
      erase_nt_ids (walk_renumber j n).1 = erase_nt_ids j) ∧
    (∀ fs : List (String × Json),
      (∀ n : Int,
        n ≤ (walk_renumber_fields fs n).2 ∧
        nt_ids_fields (walk_renumber_fields fs n).1 =
          int_range n ((walk_renumber_fields fs n).2 - n).toNat ∧
        erase_nt_ids_fields (walk_renumber_fields fs n).1 = erase_nt_ids_fields fs ∧
        erase_nt_ids_fields_drop (walk_renumber_fields fs n).1 =
          erase_nt_ids_fields_drop fs ∧
        (walk_renumber_fields fs n).1.map Prod.fst = fs.map Prod.fst) ∧
      (∀ idv n : Int,
        n ≤ (walk_renumber_fields_id fs idv n).2 ∧
        nt_ids_fields (walk_renumber_fields_id fs idv n).1 =
          int_range n ((walk_renumber_fields_id fs idv n).2 - n).toNat ∧
        erase_nt_ids_fields_drop (walk_renumber_fields_id fs idv n).1 =
          erase_nt_ids_fields_drop fs ∧
        (walk_renumber_fields_id fs idv n).1.map Prod.fst = fs.map Prod.fst ∧
        ((fs.lookup "id").isSome →
          (walk_renumber_fields_id fs idv n).1.lookup "id" = some (.num idv)))) ∧
    (∀ l : List Json, ∀ n : Int,
      n ≤ (walk_renumber_list l n).2 ∧
      nt_ids_list (walk_renumber_list l n).1 =
        int_range n ((walk_renumber_list l n).2 - n).toNat ∧
      erase_nt_ids_list (walk_renumber_list l n).1 = erase_nt_ids_list l) := by
  refine json_mutual_ind _ _ _ ?_ ?_ ?_ ?_ ?_ ?_ ?_ ?_ ?_ ?_
  · intro n
    simp [walk_renumber, nt_ids, erase_nt_ids, int_range]
  · intro b n
    simp [walk_renumber, nt_ids, erase_nt_ids, int_range]
  · intro m n
    simp [walk_renumber, nt_ids, erase_nt_ids, int_range]
  · intro s n
    simp [walk_renumber, nt_ids, erase_nt_ids, int_range]
  · -- arrays
    intro l hl n
    obtain ⟨h1, h2, h3⟩ := hl n
    rcases hL : walk_renumber_list l n with ⟨L1, L2⟩
    rw [hL] at h1 h2 h3
    refine ⟨?_, ?_, ?_⟩ <;>
      simp_all [walk_renumber, nt_ids, erase_nt_ids, hL]
  · -- objects
    intro fs hfs n
    obtain ⟨hplain, hid⟩ := hfs
    by_cases hnt : (fs.lookup "nodeType").isSome
    · -- a node: bump the counter, force the id slot, walk the rest
      obtain ⟨m1, mids, mdrop, mkeys, midlookup⟩ := hid (n + 1) (n + 1)
      rcases hF : walk_renumber_fields_id fs (n + 1) (n + 1) with ⟨F1, F2⟩
      rw [hF] at m1 mids mdrop mkeys midlookup
      simp only at m1 mids mdrop mkeys midlookup
      have keynt : (F1.lookup "nodeType").isSome = (fs.lookup "nodeType").isSome :=
        lookup_isSome_of_keys_eq mkeys "nodeType"
      have keyid : (F1.lookup "id").isSome = (fs.lookup "id").isSome :=
        lookup_isSome_of_keys_eq mkeys "id"
      by_cases hidp : (fs.lookup "id").isSome
      · have hstep : walk_renumber (.obj fs) n = (.obj F1, F2) := by
          simp [walk_renumber, hnt, hidp, hF]
        rw [hstep]
        dsimp only
        have hcount : (F2 - n).toNat = (F2 - (n + 1)).toNat + 1 := by omega
        refine ⟨by omega, ?_, ?_⟩
        · rw [nt_ids_obj_node F1 (n + 1) (by rw [keynt]; exact hnt) (midlookup hidp),
            mids, hcount, int_range]
        · rw [erase_nt_ids_obj_node F1 (by rw [keynt]; exact hnt),
            erase_nt_ids_obj_node fs hnt, mdrop]
      · have hstep : walk_renumber (.obj fs) n =
            (.obj (F1 ++ [("id", .num (n + 1))]), F2) := by
          simp [walk_renumber, hnt, hidp, hF]
        rw [hstep]
        dsimp only
        have hcount : (F2 - n).toNat = (F2 - (n + 1)).toNat + 1 := by omega
        have keynt' : ((F1 ++ [("id", Json.num (n + 1))]).lookup "nodeType").isSome = true := by
          rw [List.lookup_append]
          cases h : F1.lookup "nodeType" with
          | some v => simp
          | none =>
            exfalso
            rw [h] at keynt
            simp [hnt] at keynt
        have keyid' : (F1 ++ [("id", Json.num (n + 1))]).lookup "id" =
            some (Json.num (n + 1)) := by
          rw [List.lookup_append]
          cases h : F1.lookup "id" with
          | some v =>
            exfalso
            rw [h] at keyid
            simp [hidp] at keyid
          | none => simp [List.lookup]
        refine ⟨by omega, ?_, ?_⟩
        · rw [nt_ids_obj_node _ (n + 1) keynt' keyid', nt_ids_fields_append,
            mids, hcount]
          simp [nt_ids_fields, nt_ids, int_range]
        · rw [erase_nt_ids_obj_node _ keynt', erase_nt_ids_obj_node fs hnt,
            erase_nt_ids_fields_drop_append, mdrop]
          simp [erase_nt_ids_fields_drop]
    · -- not a node: plain walk
      obtain ⟨m1, mids, merase, mdrop, mkeys⟩ := hplain n
      rcases hF : walk_renumber_fields fs n with ⟨F1, F2⟩
      rw [hF] at m1 mids merase mdrop mkeys
      simp only at m1 mids merase mdrop mkeys
      have keynt : (F1.lookup "nodeType").isSome = (fs.lookup "nodeType").isSome :=
        lookup_isSome_of_keys_eq mkeys "nodeType"
      have hntf : (fs.lookup "nodeType").isSome = false :=
        Bool.eq_false_iff.mpr hnt
      have hstep : walk_renumber (.obj fs) n = (.obj F1, F2) := by
        simp [walk_renumber, hntf, hF]
      rw [hstep]
      dsimp only
      refine ⟨m1, ?_, ?_⟩
      · rw [nt_ids_obj_plain F1 (by rw [keynt]; exact hntf)]
        exact mids
      · rw [erase_nt_ids_obj_plain F1 (by rw [keynt]; exact hntf),
          erase_nt_ids_obj_plain fs hntf, merase]
  · -- empty field list
    refine ⟨fun n => ?_, fun idv n => ?_⟩ <;>
      simp [walk_renumber_fields, walk_renumber_fields_id, nt_ids_fields,
        erase_nt_ids_fields, erase_nt_ids_fields_drop, int_range, List.lookup]
  · -- field cons
    intro k v rest hv hrest
    obtain ⟨hplain, hid⟩ := hrest
    constructor
    · intro n
      obtain ⟨v1, vids, verase⟩ := hv n
      rcases hV : walk_renumber v n with ⟨V1, V2⟩
      rw [hV] at v1 vids verase
      simp only at v1 vids verase
      obtain ⟨r1, rids, rerase, rdrop, rkeys⟩ := hplain V2
      rcases hR : walk_renumber_fields rest V2 with ⟨R1, R2⟩
      rw [hR] at r1 rids rerase rdrop rkeys
      simp only at r1 rids rerase rdrop rkeys
      have hstep : walk_renumber_fields ((k, v) :: rest) n = ((k, V1) :: R1, R2) := by
        simp [walk_renumber_fields, hV, hR]
      rw [hstep]
      dsimp only
      have hcount : (R2 - n).toNat = (V2 - n).toNat + (R2 - V2).toNat := by omega
      refine ⟨by omega, ?_, ?_, ?_, ?_⟩
      · simp only [nt_ids_fields, vids, rids, hcount]
        rw [← int_range_append]
        congr 2
        omega
      · simp [erase_nt_ids_fields, verase, rerase]
      · by_cases hk : k = "id" <;>
          simp [erase_nt_ids_fields_drop, hk, verase, rdrop]
      · simp [rkeys]
    · intro idv n
      by_cases hk : k = "id"
      · obtain ⟨r1, rids, rdrop, rkeys, ridlk⟩ := hid idv n
        rcases hR : walk_renumber_fields_id rest idv n with ⟨R1, R2⟩
        rw [hR] at r1 rids rdrop rkeys ridlk
        simp only at r1 rids rdrop rkeys ridlk
        have hstep : walk_renumber_fields_id ((k, v) :: rest) idv n =
            ((k, .num idv) :: R1, R2) := by
          simp [walk_renumber_fields_id, hk, hR]
        rw [hstep]
        dsimp only
        refine ⟨r1, ?_, ?_, ?_, ?_⟩
        · simp [nt_ids_fields, nt_ids, rids]
        · simp [erase_nt_ids_fields_drop, hk, rdrop]
        · simp [rkeys]
        · intro _
          subst hk
          simp [List.lookup]
      · obtain ⟨v1, vids, verase⟩ := hv n
        rcases hV : walk_renumber v n with ⟨V1, V2⟩
        rw [hV] at v1 vids verase
        simp only at v1 vids verase
        obtain ⟨r1, rids, rdrop, rkeys, ridlk⟩ := hid idv V2
        rcases hR : walk_renumber_fields_id rest idv V2 with ⟨R1, R2⟩
        rw [hR] at r1 rids rdrop rkeys ridlk
        simp only at r1 rids rdrop rkeys ridlk
        have hstep : walk_renumber_fields_id ((k, v) :: rest) idv n =
            ((k, V1) :: R1, R2) := by
          simp [walk_renumber_fields_id, hk, hV, hR]
        rw [hstep]
        dsimp only
        have hcount : (R2 - n).toNat = (V2 - n).toNat + (R2 - V2).toNat := by omega
        refine ⟨by omega, ?_, ?_, ?_, ?_⟩
        · simp only [nt_ids_fields, vids, rids, hcount]
          rw [← int_range_append]
          congr 2
          omega
        · simp [erase_nt_ids_fields_drop, hk, verase, rdrop]
        · simp [rkeys]
        · intro hpresent
          have hkbeq : ("id" == k) = false := by
            rw [beq_eq_false_iff_ne]
            exact fun h => hk h.symm
          simp only [List.lookup, hkbeq] at hpresent ⊢
          exact ridlk hpresent
  · -- empty element list
    intro n
    simp [walk_renumber_list, nt_ids_list, erase_nt_ids_list, int_range]
  · -- element cons
    intro j rest hj hrest n
    obtain ⟨j1, jids, jerase⟩ := hj n
    rcases hJ : walk_renumber j n with ⟨J1, J2⟩
    rw [hJ] at j1 jids jerase
    simp only at j1 jids jerase
    obtain ⟨r1, rids, rerase⟩ := hrest J2
    rcases hR : walk_renumber_list rest J2 with ⟨R1, R2⟩
    rw [hR] at r1 rids rerase
    simp only at r1 rids rerase
    have hstep : walk_renumber_list (j :: rest) n = (J1 :: R1, R2) := by
      simp [walk_renumber_list, hJ, hR]
    rw [hstep]
    dsimp only
    have hcount : (R2 - n).toNat = (J2 - n).toNat + (R2 - J2).toNat := by omega
    refine ⟨by omega, ?_, ?_⟩
    · simp only [nt_ids_list, jids, rids, hcount]
      rw [← int_range_append]
      congr 2
      omega
    · simp [erase_nt_ids_list, jerase, rerase]



/- ------------------------------------------------------------------
walk_max_id: every id of the subtree is bounded by the result.
------------------------------------------------------------------ -/
theorem walk_max_id_spec :
    (∀ j : Json, ∀ m : Int,
      m ≤ walk_max_id j m ∧ ∀ i ∈ collect_ids j, i ≤ walk_max_id j m) ∧
    (∀ fs : List (String × Json), ∀ m : Int,
      m ≤ walk_max_id_fields fs m ∧
      ∀ i ∈ collect_ids_fields fs, i ≤ walk_max_id_fields fs m) ∧
    (∀ l : List Json, ∀ m : Int,
      m ≤ walk_max_id_list l m ∧ ∀ i ∈ collect_ids_list l, i ≤ walk_max_id_list l m) := by
  refine json_mutual_ind _ _ _ ?_ ?_ ?_ ?_ ?_ ?_ ?_ ?_ ?_ ?_
  · intro m; simp [walk_max_id, collect_ids]
  · intro b m; simp [walk_max_id, collect_ids]
  · intro x m; simp [walk_max_id, collect_ids]
  · intro s m; simp [walk_max_id, collect_ids]
  · intro l hl m
    obtain ⟨h1, h2⟩ := hl m
    exact ⟨by simpa [walk_max_id] using h1, by simpa [walk_max_id, collect_ids] using h2⟩
  · intro fs hfs m
    have hwm : walk_max_id (Json.obj fs) m = walk_max_id_fields fs
        (match fs.lookup "id" with
          | some (Json.num i) => max m i
          | _ => m) := rfl
    have hci : collect_ids (Json.obj fs) =
        (match fs.lookup "id" with
          | some (Json.num i) => [i]
          | _ => []) ++ collect_ids_fields fs := rfl
    rw [hwm]
    cases hidv : fs.lookup "id" with
    | none =>
      obtain ⟨h1, h2⟩ := hfs m
      refine ⟨h1, ?_⟩
      intro x hx
      rw [hci, hidv] at hx
      simp only [List.nil_append] at hx
      exact h2 x hx
    | some v =>
      cases v
      case num i =>
        obtain ⟨h1, h2⟩ := hfs (max m i)
        refine ⟨le_trans (le_max_left m i) h1, ?_⟩
        intro x hx
        rw [hci, hidv] at hx
        simp only [List.mem_append, List.mem_singleton] at hx
        rcases hx with rfl | hx
        · exact le_trans (le_max_right m x) h1
        · exact h2 x hx
      all_goals
        obtain ⟨h1, h2⟩ := hfs m
      all_goals refine ⟨h1, ?_⟩
      all_goals intro x hx
      all_goals rw [hci, hidv] at hx
      all_goals simp only [List.nil_append] at hx
      all_goals exact h2 x hx
  · intro m; simp [walk_max_id_fields, collect_ids_fields]
  · intro k v rest hv hrest m
    obtain ⟨v1, v2⟩ := hv m
    obtain ⟨r1, r2⟩ := hrest (walk_max_id v m)
    constructor
    · calc m ≤ walk_max_id v m := v1
        _ ≤ _ := by simpa [walk_max_id_fields] using r1
    · intro x hx
      rw [collect_ids_fields] at hx
      simp only [List.mem_append] at hx
      rcases hx with hx | hx
      · calc x ≤ walk_max_id v m := v2 x hx
          _ ≤ _ := by simpa [walk_max_id_fields] using r1
      · simpa [walk_max_id_fields] using r2 x hx
  · intro m; simp [walk_max_id_list, collect_ids_list]
  · intro j rest hj hrest m
    obtain ⟨j1, j2⟩ := hj m
    obtain ⟨r1, r2⟩ := hrest (walk_max_id j m)
    constructor
    · calc m ≤ walk_max_id j m := j1
        _ ≤ _ := by simpa [walk_max_id_list] using r1
    · intro x hx
      rw [collect_ids_list] at hx
      simp only [List.mem_append] at hx
      rcases hx with hx | hx
      · calc x ≤ walk_max_id j m := j2 x hx
          _ ≤ _ := by simpa [walk_max_id_list] using r1
      · simpa [walk_max_id_list] using r2 x hx


theorem max_id_nonneg (j : Json) : 0 ≤ max_id j :=
  (walk_max_id_spec.1 j 0).1


theorem find_named_contract_none (nodes : List Json) (base : Nat) (t : String) :
    find_named_contract nodes base t = none ↔
      ∀ node ∈ nodes, ¬ is_contract_named node t := by
  induction nodes generalizing base with
  | nil => simp [find_named_contract]
  | cons node rest ih =>
    by_cases h : is_contract_named node t
    · simp [find_named_contract, h]
    · simp [find_named_contract, h, ih (base + 1)]


theorem find_named_contract_some (nodes : List Json) (base : Nat) (t : String) (i : Nat) :
    find_named_contract nodes base t = some i ↔
      ∃ k, i = base + k ∧
        (∃ node, nodes.get? k = some node ∧ is_contract_named node t) ∧
        (∀ j < k, ∀ node', nodes.get? j = some node' → ¬ is_contract_named node' t) := by
  induction nodes generalizing base with
  | nil => simp [find_named_contract]
  | cons node rest ih =>
    by_cases h : is_contract_named node t
    · simp only [find_named_contract, h, if_true, Option.some.injEq]
      constructor
      · rintro rfl
        exact ⟨0, by omega, ⟨node, rfl, h⟩, by omega⟩
      · rintro ⟨k, rfl, ⟨node', hget, hnode'⟩, hmin⟩
        cases k with
        | zero => omega
        | succ k => exact absurd h (hmin 0 (by omega) node rfl)
    · rw [find_named_contract, if_neg h, ih (base + 1)]
      constructor
      · rintro ⟨k, rfl, ⟨node', hget, hnode'⟩, hmin⟩
        refine ⟨k + 1, by omega, ⟨node', by simpa using hget, hnode'⟩, ?_⟩
        intro j hj node'' hget''
        cases j with
        | zero =>
          simp only [List.get?] at hget''
          cases hget''
          exact h
        | succ j => exact hmin j (by omega) node'' (by simpa using hget'')
      · rintro ⟨k, rfl, ⟨node', hget, hnode'⟩, hmin⟩
        cases k with
        | zero =>
          simp only [List.get?] at hget
          cases hget
          exact absurd hnode' h
        | succ k =>
          refine ⟨k, by omega, ⟨node', by simpa using hget, hnode'⟩, ?_⟩
          intro j hj node'' hget''
          exact hmin (j + 1) (by omega) node'' (by simpa using hget'')


theorem find_last_contract_none (nodes : List Json) (base : Nat) :
    find_last_contract nodes base = none ↔ ∀ node ∈ nodes, ¬ is_contract node := by
  induction nodes generalizing base with
  | nil => simp [find_last_contract]
  | cons node rest ih =>
    rw [find_last_contract]
    cases hrec : find_last_contract rest (base + 1) with
    | some i =>
      constructor
      · intro h
        exact Option.noConfusion h
      · intro h
        have hnone : find_last_contract rest (base + 1) = none :=
          (ih (base + 1)).mpr (fun n hn => h n (List.mem_cons_of_mem _ hn))
        rw [hnone] at hrec
        exact Option.noConfusion hrec
    | none =>
      have hrest : ∀ node ∈ rest, ¬ is_contract node := (ih (base + 1)).mp hrec
      by_cases h : is_contract node
      · simp only [h, if_true]
        constructor
        · intro hx
          exact Option.noConfusion hx
        · intro hx
          exact absurd h (hx node (by simp))
      · simp only [h, if_false]
        constructor
        · intro _ node' hmem
          rcases List.mem_cons.mp hmem with rfl | hmem'
          · exact h
          · exact hrest node' hmem'
        · intro _
          trivial


theorem find_last_contract_some (nodes : List Json) (base i : Nat) :
    find_last_contract nodes base = some i ↔
      ∃ k, i = base + k ∧
        (∃ node, nodes.get? k = some node ∧ is_contract node) ∧
        (∀ j, k < j → ∀ node', nodes.get? j = some node' → ¬ is_contract node') := by
  induction nodes generalizing base i with
  | nil => simp [find_last_contract]
  | cons node rest ih =>
    rw [find_last_contract]
    cases hrec : find_last_contract rest (base + 1) with
    | some m =>
      obtain ⟨k, hmk, ⟨node', hget, hnode'⟩, hmax⟩ := (ih (base + 1) m).mp hrec
      constructor
      · intro hsm
        have him : m = i := Option.some.inj hsm
        refine ⟨k + 1, by omega, ⟨node', by simpa using hget, hnode'⟩, ?_⟩
        intro j hj node'' hget''
        cases j with
        | zero => omega
        | succ j => exact hmax j (by omega) node'' (by simpa using hget'')
      · rintro ⟨k', hk', ⟨node'', hget'', hnode''⟩, hmax'⟩
        cases k' with
        | zero =>
          exfalso
          exact hmax' (k + 1) (by omega) node' (by simpa using hget) hnode'
        | succ k' =>
          have hsome : find_last_contract rest (base + 1) = some (base + 1 + k') := by
            rw [ih (base + 1) (base + 1 + k')]
            refine ⟨k', rfl, ⟨node'', by simpa using hget'', hnode''⟩, ?_⟩
            intro j hj node₃ hget₃
            exact hmax' (j + 1) (by omega) node₃ (by simpa using hget₃)
          rw [hrec] at hsome
          have hm2 : m = base + 1 + k' := Option.some.inj hsome
          have : base + 1 + k' = i := by omega
          rw [hm2, this]
    | none =>
      have hrest : ∀ nd ∈ rest, ¬ is_contract nd :=
        (find_last_contract_none rest (base + 1)).mp hrec
      by_cases h : is_contract node
      · simp only [h, if_true]
        constructor
        · intro hsm
          have hbi : base = i := Option.some.inj hsm
          refine ⟨0, by omega, ⟨node, rfl, h⟩, ?_⟩
          intro j hj node' hget' hc
          cases j with
          | zero => omega
          | succ j => exact hrest node' (List.get?_mem (by simpa using hget')) hc
        · rintro ⟨k, hk, ⟨node', hget, hnode'⟩, hmax⟩
          cases k with
          | zero =>
            simp only [List.get?] at hget
            cases hget
            exact congrArg some (by omega)
          | succ k =>
            exfalso
            exact hrest node' (List.get?_mem (by simpa using hget)) hnode'
      · simp only [h, if_false]
        constructor
        · intro hx
          exact Option.noConfusion hx
        · rintro ⟨k, hk, ⟨node', hget, hnode'⟩, hmax⟩
          exfalso
          cases k with
          | zero =>
            simp only [List.get?] at hget
            cases hget
            exact h hnode'
          | succ k =>
            exact hrest node' (List.get?_mem (by simpa using hget)) hnode'



/- ------------------------------------------------------------------
Claim C3.
------------------------------------------------------------------ -/
/-- C3: for every subtree and every initial counter value,
clone_with_new_ids returns a structural copy whose (node) ids are
disjoint from every id less than or equal to the counter's initial
value, and after return the counter equals the final assigned value;
only objects carrying a nodeType are renumbered, while non-nodeType
objects and arrays are copied structurally without renumbering.
Here "ids" are the ids of the nodes of the copy (the data model, spec
section 3, calls node an object carrying a nodeType tag): the second
conjunct says the node ids of the clone are exactly the ascending run
from the entry counter to the exit counter (so the counter ends on the
last assigned value and fresh ids are contiguous), the third that they
all exceed the initial counter, and the erasure equation says that
everything apart from node ids — in particular every non-nodeType
object, id bindings of non-nodeType objects included, and every
array — is copied structurally. -/
theorem C3_clone_with_new_ids (j : Json) (n : Int) :
    n ≤ (clone_with_new_ids j n).2 ∧
    nt_ids (clone_with_new_ids j n).1 =
      int_range n ((clone_with_new_ids j n).2 - n).toNat ∧
    (∀ i ∈ nt_ids (clone_with_new_ids j n).1, n < i) ∧
    erase_nt_ids (clone_with_new_ids j n).1 = erase_nt_ids j := by
  obtain ⟨h1, h2, h3⟩ := walk_renumber_spec.1 j n
  simp only [clone_with_new_ids]
  refine ⟨h1, h2, ?_, h3⟩
  intro i hi
  rw [h2] at hi
  exact (int_range_mem.mp hi).1


/- ------------------------------------------------------------------
Claim C4.
------------------------------------------------------------------ -/
/-- C4: for every source unit, find-target-contract with a provided
name returns the index of the first ContractDefinition child with that
name and fails when no such contract exists; with no name it returns
the index of the last ContractDefinition child encountered and fails
if the unit contains no ContractDefinition at all ("name" of a
ContractDefinition defaults to the empty string when the field is
missing, as in the source's unwrap_or_default). -/
theorem C4_find_instrumented_contract_index (unit : Json) (nodes : List Json)
    (nm : String) (h : get_field unit "nodes" = some (.arr nodes)) :
    (∀ i, find_instrumented_contract_index unit (some nm) = .ok i ↔
      ((∃ node, nodes.get? i = some node ∧ is_contract_named node nm) ∧
       ∀ j < i, ∀ node', nodes.get? j = some node' → ¬ is_contract_named node' nm)) ∧
    ((∀ node ∈ nodes, ¬ is_contract_named node nm) →
      find_instrumented_contract_index unit (some nm) =
        .error ("Contract '" ++ nm ++ "' not found")) ∧
    (∀ i, find_instrumented_contract_index unit none = .ok i ↔
      ((∃ node, nodes.get? i = some node ∧ is_contract node) ∧
       ∀ j, i < j → ∀ node', nodes.get? j = some node' → ¬ is_contract node')) ∧
    ((∀ node ∈ nodes, ¬ is_contract node) →
      find_instrumented_contract_index unit none = .error "No ContractDefinition found") := by
  refine ⟨?_, ?_, ?_, ?_⟩
  · intro i
    simp only [find_instrumented_contract_index, h]
    cases hf : find_named_contract nodes 0 nm with
    | some k =>
      obtain ⟨k', hk', hprop, hmin⟩ := (find_named_contract_some nodes 0 nm k).mp hf
      constructor
      · intro hok
        have : k = i := by
          simpa using hok
        subst this
        subst hk'
        simp only [Nat.zero_add]
        exact ⟨hprop, hmin⟩
      · rintro ⟨hprop', hmin'⟩
        have : find_named_contract nodes 0 nm = some i :=
          (find_named_contract_some nodes 0 nm i).mpr ⟨i, by omega, hprop', by simpa using hmin'⟩
        rw [hf] at this
        simpa using this
    | none =>
      constructor
      · intro hok
        exact absurd hok (by simp)
      · rintro ⟨hprop', hmin'⟩
        have : find_named_contract nodes 0 nm = some i :=
          (find_named_contract_some nodes 0 nm i).mpr ⟨i, by omega, hprop', by simpa using hmin'⟩
        rw [hf] at this
        exact absurd this (by simp)
  · intro hall
    simp only [find_instrumented_contract_index, h,
      (find_named_contract_none nodes 0 nm).mpr hall]
  · intro i
    simp only [find_instrumented_contract_index, h]
    cases hf : find_last_contract nodes 0 with
    | some k =>
      obtain ⟨k', hk', hprop, hmax⟩ := (find_last_contract_some nodes 0 k).mp hf
      constructor
      · intro hok
        have : k = i := by simpa using hok
        subst this
        subst hk'
        simp only [Nat.zero_add]
        exact ⟨hprop, hmax⟩
      · rintro ⟨hprop', hmax'⟩
        have : find_last_contract nodes 0 = some i :=
          (find_last_contract_some nodes 0 i).mpr ⟨i, by omega, hprop', by simpa using hmax'⟩
        rw [hf] at this
        simpa using this
    | none =>
      constructor
      · intro hok
        exact absurd hok (by simp)
      · rintro ⟨hprop', hmax'⟩
        have : find_last_contract nodes 0 = some i :=
          (find_last_contract_some nodes 0 i).mpr ⟨i, by omega, hprop', by simpa using hmax'⟩
        rw [hf] at this
        exact absurd this (by simp)
  · intro hall
    simp only [find_instrumented_contract_index, h,
      (find_last_contract_none nodes 0).mpr hall]


/-- Witness for C4 at a concrete unit: a missing name fails with the
not-found error. -/
theorem C4_witness :
    get_field two_contract_unit "nodes" = some (.arr two_contract_nodes) ∧
    find_instrumented_contract_index two_contract_unit (some "Missing") =
      .error "Contract 'Missing' not found" :=
  ⟨rfl, (C4_find_instrumented_contract_index two_contract_unit two_contract_nodes
    "Missing" rfl).2.1 (by decide)⟩



/- ------------------------------------------------------------------
Generic facts about set_field / modify_at.
------------------------------------------------------------------ -/
theorem lookup_map_set (fields : List (String × Json)) (k : String) (v : Json) :
    (fields.map (fun kv => if kv.1 = k then (kv.1, v) else kv)).lookup k =
      (fields.lookup k).map (fun _ => v) := by
  induction fields with
  | nil => rfl
  | cons kv rest ih =>
    obtain ⟨k', v'⟩ := kv
    simp only [List.map_cons]
    by_cases hk : k' = k
    · subst hk
      rw [if_pos rfl]
      simp [List.lookup]
    · have hbeq : (k == k') = false := by
        rw [beq_eq_false_iff_ne]
        exact fun h => hk h.symm
      rw [if_neg hk]
      simp [List.lookup, hbeq, ih]


theorem lookup_map_set_ne (fields : List (String × Json)) (k k' : String) (v : Json)
    (h : k' ≠ k) :
    (fields.map (fun kv => if kv.1 = k then (kv.1, v) else kv)).lookup k' =
      fields.lookup k' := by
  induction fields with
  | nil => rfl
  | cons kv rest ih =>
    obtain ⟨k₀, v₀⟩ := kv
    simp only [List.map_cons]
    by_cases hk : k₀ = k
    · subst hk
      rw [if_pos rfl]
      have hbeq : (k' == k₀) = false := by
        rw [beq_eq_false_iff_ne]
        exact h
      simp [List.lookup, hbeq, ih]
    · rw [if_neg hk]
      simp [List.lookup, ih]


theorem get_field_set_field_same (j : Json) (k : String) (v : Json)
    (h : (get_field j k).isSome) : get_field (set_field j k v) k = some v := by
  cases j
  case obj fields =>
    rw [get_field] at h
    rw [set_field, get_field, lookup_map_set]
    cases hl : fields.lookup k with
    | some w => rfl
    | none => rw [hl] at h; simp at h
  all_goals simp [get_field] at h


theorem get_field_set_field_ne (j : Json) (k k' : String) (v : Json)
    (h : k' ≠ k) : get_field (set_field j k v) k' = get_field j k' := by
  cases j
  case obj fields => rw [set_field, get_field, get_field, lookup_map_set_ne _ _ _ _ h]
  all_goals rfl


theorem node_type_set_field (j : Json) (k : String) (v : Json)
    (h : k ≠ "nodeType") : node_type (set_field j k v) = node_type j := by
  rw [node_type, node_type, get_field_set_field_ne j k "nodeType" v (fun hx => h hx.symm)]


theorem node_name_set_field (j : Json) (k : String) (v : Json)
    (h : k ≠ "name") : node_name (set_field j k v) = node_name j := by
  rw [node_name, node_name, get_field_set_field_ne j k "name" v (fun hx => h hx.symm)]


theorem set_field_set_field (j : Json) (k : String) (v v' : Json) :
    set_field (set_field j k v) k v' = set_field j k v' := by
  cases j
  case obj fields =>
    simp only [set_field, List.map_map]
    congr 1
    apply List.map_congr_left
    intro kv _
    by_cases hk : kv.1 = k <;> simp [Function.comp, hk]
  all_goals rfl


theorem list_set_same {α : Type} (l : List α) (i : Nat) (v : α)
    (h : l.get? i = some v) : l.set i v = l := by
  induction l generalizing i with
  | nil => simp [List.get?] at h
  | cons x rest ih =>
    cases i with
    | zero =>
      simp only [List.get?, Option.some.injEq] at h
      subst h
      rfl
    | succ i =>
      simp only [List.get?] at h
      simp [List.set, ih i h]


theorem get?_modify_at_same (l : List Json) (i : Nat) (f : Json → Json) :
    (modify_at l i f).get? i = (l.get? i).map f := by
  rw [modify_at]
  cases h : l.get? i with
  | none => exact h
  | some x =>
    have hlen : i < l.length := by
      by_contra hx
      rw [List.get?_eq_none.mpr (by omega)] at h
      cases h
    simp [List.get?_set_eq, h, hlen]


theorem get?_modify_at_ne (l : List Json) (i j : Nat) (f : Json → Json)
    (h : j ≠ i) : (modify_at l i f).get? j = l.get? j := by
  rw [modify_at]
  cases hx : l.get? i with
  | none => rfl
  | some x => rw [List.get?_set_ne _ _ (fun hx => h hx.symm)]


theorem length_modify_at (l : List Json) (i : Nat) (f : Json → Json) :
    (modify_at l i f).length = l.length := by
  rw [modify_at]
  cases h : l.get? i with
  | none => rfl
  | some x => simp


theorem foldl_modify_get?_not_mem (idxs : List Nat) (l : List Json) (i : Nat)
    (f : Json → Json) (hi : i ∉ idxs) :
    (idxs.foldl (fun ns j => modify_at ns j f) l).get? i = l.get? i := by
  induction idxs generalizing l with
  | nil => rfl
  | cons j rest ih =>
    have hji : i ≠ j := fun h => hi (h ▸ List.mem_cons_self _ _)
    have hrest : i ∉ rest := fun h => hi (List.mem_cons_of_mem _ h)
    simp only [List.foldl_cons]
    rw [ih _ hrest, get?_modify_at_ne _ _ _ _ hji]


theorem foldl_modify_get?_mem (idxs : List Nat) (l : List Json) (i : Nat)
    (f : Json → Json) (hf : ∀ x, f (f x) = f x) (hi : i ∈ idxs) :
    (idxs.foldl (fun ns j => modify_at ns j f) l).get? i = (l.get? i).map f := by
  induction idxs generalizing l with
  | nil => cases hi
  | cons j rest ih =>
    simp only [List.foldl_cons]
    by_cases hji : i = j
    · subst hji
      by_cases hmem : i ∈ rest
      · rw [ih _ hmem, get?_modify_at_same]
        cases l.get? i <;> simp [hf]
      · rw [foldl_modify_get?_not_mem _ _ _ _ hmem, get?_modify_at_same]
    · have hmem : i ∈ rest := by
        rcases List.mem_cons.mp hi with h | h
        · exact absurd h hji
        · exact h
      rw [ih _ hmem, get?_modify_at_ne _ _ _ _ hji]


theorem foldl_modify_id (idxs : List Nat) (l : List Json) (f : Json → Json)
    (h : ∀ i ∈ idxs, ∀ v, l.get? i = some v → f v = v) :
    idxs.foldl (fun ns j => modify_at ns j f) l = l := by
  induction idxs with
  | nil => rfl
  | cons j rest ih =>
    simp only [List.foldl_cons]
    have hstep : modify_at l j f = l := by
      rw [modify_at]
      cases hx : l.get? j with
      | none => rfl
      | some v =>
        dsimp only
        rw [h j (List.mem_cons_self _ _) v hx]
        exact list_set_same l j v hx
    rw [hstep]
    exact ih (fun i hi v hv => h i (List.mem_cons_of_mem _ hi) v hv)


theorem foldl_modify_length (idxs : List Nat) (l : List Json) (f : Json → Json) :
    (idxs.foldl (fun ns j => modify_at ns j f) l).length = l.length := by
  induction idxs generalizing l with
  | nil => rfl
  | cons j rest ih =>
    simp only [List.foldl_cons]
    rw [ih, length_modify_at]



/- ------------------------------------------------------------------
Claims C10 and C5.
------------------------------------------------------------------ -/
theorem parse_statements_whitespace (snippets : List String)
    (ext : Except String (List Json)) (h : ∀ sn ∈ snippets, str_trim sn = "") :
    parse_statements snippets ext = .ok [] := by
  rw [parse_statements]
  by_cases hz : snippets.isEmpty
  · rw [if_pos hz]
  · rw [if_neg hz]
    have : ((snippets.map (fun sn => str_trim sn)).filter (fun sn => !sn.isEmpty)) = [] := by
      rw [List.filter_eq_nil]
      intro a ha
      obtain ⟨sn, hsn, rfl⟩ := List.mem_map.mp ha
      rw [h sn hsn]
      decide
    simp only [this]
    rfl


/-- C10: when the before and after lists are non-empty as lists but
every entry trims to the empty string, inject-shadow-at-edges does not
fail with EmptySnippets (the guard only tests list emptiness), never
invokes the external snippet parser (the result holds for every value
of the parse oracles), and — provided the contract lookup, the
function resolution, the body lookup and the assembly check succeed —
returns success with the unit left exactly unchanged. -/
theorem C10_whitespace_snippets (unit : Json) (cidx : Nat)
    (sel : FunctionSelectorKind) (before after : List String)
    (extB extA : Except String (List Json)) (contract : Json) (fidx : Nat)
    (members : List Json) (function body : Json)
    (hne : ¬ (before.isEmpty ∧ after.isEmpty))
    (hws : ∀ sn ∈ before ++ after, str_trim sn = "")
    (hc : contract_mut_at unit cidx = .ok contract)
    (hr : resolve_function_idx contract sel = .ok fidx)
    (hm : get_field contract "nodes" = some (.arr members))
    (hf : members.get? fidx = some function)
    (hb : get_field function "body" = some body)
    (hnn : body ≠ .null)
    (ha : ensure_no_inline_assembly body = .ok ()) :
    inject_edges unit cidx sel before after extB extA = (unit, .ok ()) := by
  have hpb : parse_statements before extB = .ok [] :=
    parse_statements_whitespace _ _ (fun sn hs => hws sn (List.mem_append_left _ hs))
  have hpa : parse_statements after extA = .ok [] :=
    parse_statements_whitespace _ _ (fun sn hs => hws sn (List.mem_append_right _ hs))
  have hne' : ¬ (before = [] ∧ after = []) := by
    simpa using hne
  have hf' : members[fidx]? = some function := by
    simpa using hf
  cases body with
  | null => exact absurd rfl hnn
  | bool b => simp [inject_edges, hne', hc, hr, hm, hf, hf', hb, ha, hpb, hpa]
  | num m => simp [inject_edges, hne', hc, hr, hm, hf, hf', hb, ha, hpb, hpa]
  | str st => simp [inject_edges, hne', hc, hr, hm, hf, hf', hb, ha, hpb, hpa]
  | arr items => simp [inject_edges, hne', hc, hr, hm, hf, hf', hb, ha, hpb, hpa]
  | obj fields => simp [inject_edges, hne', hc, hr, hm, hf, hf', hb, ha, hpb, hpa]


/-- Witness for C10: whitespace-only snippet lists succeed and leave the
unit untouched even when the external parse oracles hold errors. -/
theorem C10_witness :
    (¬ (([" "] : List String).isEmpty ∧ (["  "] : List String).isEmpty)) ∧
    inject_edges one_function_unit 0 (.name "read") [" "] ["  "]
      (.error "never invoked") (.error "never invoked") =
      (one_function_unit, .ok ()) :=
  ⟨by decide,
   C10_whitespace_snippets one_function_unit 0 (.name "read") [" "] ["  "]
     (.error "never invoked") (.error "never invoked")
     one_function_contract 0 [read_function] read_function read_body
     (by decide)
     (by decide)
     rfl rfl rfl rfl rfl
     (fun h => Json.noConfusion h)
     (by simp [ensure_no_inline_assembly, ensure_no_asm_list,
       ensure_no_inline_assembly_in_statement, read_body, node_type, get_field,
       List.lookup])⟩


theorem collect_matches_spec (nodes : List Json) (base : Nat)
    (sel : FunctionSelectorKind) (ms : List Nat)
    (h : collect_matches nodes base sel = .ok ms) :
    ∀ i, i ∈ ms ↔ ∃ k node, i = base + k ∧ nodes.get? k = some node ∧
      node_type node = some "FunctionDefinition" ∧
      selector_matches sel node = .ok true := by
  induction nodes generalizing base ms with
  | nil =>
    rw [collect_matches] at h
    cases h
    intro i
    simp
  | cons node rest ih =>
    rw [collect_matches] at h
    by_cases hfd : node_type node = some "FunctionDefinition"
    · rw [if_pos hfd] at h
      cases hsm : selector_matches sel node with
      | error e => rw [hsm] at h; cases h
      | ok m =>
        rw [hsm] at h
        cases hrec : collect_matches rest (base + 1) sel with
        | error e => rw [hrec] at h; cases h
        | ok ms' =>
          rw [hrec] at h
          have hms : ms = if m then base :: ms' else ms' := by
            cases h
            rfl
          subst hms
          have ihx := ih (base + 1) ms' hrec
          intro i
          cases m with
          | true =>
            rw [if_pos rfl]
            constructor
            · intro hi
              rcases List.mem_cons.mp hi with rfl | hi'
              · exact ⟨0, node, by omega, rfl, hfd, hsm⟩
              · obtain ⟨k, node', rfl, hget, hty, hmt⟩ := (ihx i).mp hi'
                exact ⟨k + 1, node', by omega, by simpa using hget, hty, hmt⟩
            · rintro ⟨k, node', hik, hget, hty, hmt⟩
              cases k with
              | zero =>
                simp only [List.get?] at hget
                cases hget
                exact List.mem_cons.mpr (Or.inl (by omega))
              | succ k =>
                refine List.mem_cons.mpr (Or.inr ?_)
                rw [ihx i]
                exact ⟨k, node', by omega, by simpa using hget, hty, hmt⟩
          | false =>
            rw [if_neg (by simp)]
            rw [ihx i]
            constructor
            · rintro ⟨k, node', rfl, hget, hty, hmt⟩
              exact ⟨k + 1, node', by omega, by simpa using hget, hty, hmt⟩
            · rintro ⟨k, node', hik, hget, hty, hmt⟩
              cases k with
              | zero =>
                simp only [List.get?] at hget
                cases hget
                rw [hsm] at hmt
                cases hmt
              | succ k =>
                exact ⟨k, node', by omega, by simpa using hget, hty, hmt⟩
    · rw [if_neg hfd] at h
      have ihx := ih (base + 1) ms h
      intro i
      rw [ihx i]
      constructor
      · rintro ⟨k, node', rfl, hget, hty, hmt⟩
        exact ⟨k + 1, node', by omega, by simpa using hget, hty, hmt⟩
      · rintro ⟨k, node', hik, hget, hty, hmt⟩
        cases k with
        | zero =>
          simp only [List.get?] at hget
          cases hget
          exact absurd hty hfd
        | succ k =>
          exact ⟨k, node', by omega, by simpa using hget, hty, hmt⟩


/-- C5: for every selector (kind-based, bare-name or canonical
name-plus-signature), resolution over the target contract's members
fails with TargetNotFound when zero FunctionDefinition members match,
fails with Ambiguous when two or more match, and proceeds with the
unique matching function when exactly one matches.  The first conjunct
characterises the match list: it holds exactly the indices of the
FunctionDefinition members for which the selector test of the source
returns true. -/
theorem C5_resolve_function (contract : Json) (sel : FunctionSelectorKind)
    (nodes : List Json) (ms : List Nat)
    (hn : get_field contract "nodes" = some (.arr nodes))
    (hms : collect_matches nodes 0 sel = .ok ms) :
    (∀ i, i ∈ ms ↔ ∃ node, nodes.get? i = some node ∧
      node_type node = some "FunctionDefinition" ∧
      selector_matches sel node = .ok true) ∧
    (ms = [] → resolve_function_idx contract sel =
      .error "Target function not found for injectShadowAtEdges.") ∧
    (2 ≤ ms.length → resolve_function_idx contract sel =
      .error "Function name is ambiguous. Please provide a full function signature.") ∧
    (∀ i, ms = [i] → resolve_function_idx contract sel = .ok i) := by
  have hchar := collect_matches_spec nodes 0 sel ms hms
  refine ⟨?_, ?_, ?_, ?_⟩
  · intro i
    rw [hchar i]
    constructor
    · rintro ⟨k, node, rfl, hget, hty, hmt⟩
      exact ⟨node, by simpa using hget, hty, hmt⟩
    · rintro ⟨node, hget, hty, hmt⟩
      exact ⟨i, node, by omega, hget, hty, hmt⟩
  · intro hempty
    subst hempty
    simp [resolve_function_idx, hn, hms]
  · intro hlen
    obtain ⟨a, rest1, rfl⟩ : ∃ a r, ms = a :: r := by
      cases ms with
      | nil => simp at hlen
      | cons a r => exact ⟨a, r, rfl⟩
    obtain ⟨b, rest2, rfl⟩ : ∃ b r, rest1 = b :: r := by
      cases rest1 with
      | nil => simp at hlen
      | cons b r => exact ⟨b, r, rfl⟩
    simp [resolve_function_idx, hn, hms]
  · intro i hone
    subst hone
    simp [resolve_function_idx, hn, hms]


/-- Witness for C5: the bare name matching two overloads resolves to
the ambiguity error. -/
theorem C5_witness :
    collect_matches [call_uint_function, call_addr_function] 0
      (.name "call") = .ok [0, 1] ∧
    resolve_function_idx overload_contract (.name "call") =
      .error "Function name is ambiguous. Please provide a full function signature." :=
  ⟨rfl,
   (C5_resolve_function overload_contract (.name "call")
     [call_uint_function, call_addr_function] [0, 1] rfl rfl).2.2.1 (by decide)⟩



/- ------------------------------------------------------------------
Claim C9: visibility promotion.
------------------------------------------------------------------ -/
theorem set_visibility_public_visibility (fields : List (String × Json)) :
    get_field (set_visibility_public (.obj fields)) "visibility" =
      some (.str "public") := by
  rw [set_visibility_public]
  cases hv : fields.lookup "visibility" with
  | none =>
    rw [get_field, List.lookup_append, hv]
    rfl
  | some v =>
    have hsome : (get_field (Json.obj fields) "visibility").isSome = true := by
      rw [get_field, hv]; rfl
    cases v with
    | str sv =>
      dsimp only
      by_cases hpub : sv = "public"
      · subst hpub
        rw [if_pos rfl, get_field, hv]
      · rw [if_neg hpub]
        exact get_field_set_field_same _ _ _ hsome
    | null => exact get_field_set_field_same _ _ _ hsome
    | bool b => exact get_field_set_field_same _ _ _ hsome
    | num m => exact get_field_set_field_same _ _ _ hsome
    | arr l => exact get_field_set_field_same _ _ _ hsome
    | obj fs => exact get_field_set_field_same _ _ _ hsome


theorem set_visibility_public_other (m : Json) (k : String)
    (h : k ≠ "visibility") :
    get_field (set_visibility_public m) k = get_field m k := by
  cases m
  case obj fields =>
    rw [set_visibility_public]
    cases hv : fields.lookup "visibility" with
    | none =>
      rw [get_field, get_field, List.lookup_append]
      cases hk : fields.lookup k with
      | some w => rfl
      | none =>
        simp only [Option.none_or]
        rw [List.lookup]
        have : (k == "visibility") = false := by
          rw [beq_eq_false_iff_ne]; exact h
        rw [this]
        rfl
    | some v =>
      cases v with
      | str sv =>
        dsimp only
        by_cases hpub : sv = "public"
        · subst hpub
          rw [if_pos rfl]
        · rw [if_neg hpub]
          exact get_field_set_field_ne _ _ _ _ h
      | null => exact get_field_set_field_ne _ _ _ _ h
      | bool b => exact get_field_set_field_ne _ _ _ _ h
      | num mm => exact get_field_set_field_ne _ _ _ _ h
      | arr l => exact get_field_set_field_ne _ _ _ _ h
      | obj fs => exact get_field_set_field_ne _ _ _ _ h
  all_goals rfl


theorem set_visibility_public_idem (m : Json) :
    set_visibility_public (set_visibility_public m) = set_visibility_public m := by
  cases m
  case obj fields =>
    have hget := set_visibility_public_visibility fields
    cases hshape : set_visibility_public (Json.obj fields) with
    | obj fields' =>
      rw [hshape] at hget
      rw [get_field] at hget
      rw [set_visibility_public, hget]
      dsimp only
      rw [if_pos rfl]
    | null =>
      exfalso
      rw [hshape] at hget
      simp [get_field] at hget
    | bool b =>
      exfalso
      rw [hshape] at hget
      simp [get_field] at hget
    | num mm =>
      exfalso
      rw [hshape] at hget
      simp [get_field] at hget
    | str sv =>
      exfalso
      rw [hshape] at hget
      simp [get_field] at hget
    | arr l =>
      exfalso
      rw [hshape] at hget
      simp [get_field] at hget
  all_goals rfl


theorem node_type_set_visibility_public (m : Json) :
    node_type (set_visibility_public m) = node_type m := by
  rw [node_type, node_type, set_visibility_public_other m "nodeType" (by decide)]


theorem node_name_set_visibility_public (m : Json) :
    node_name (set_visibility_public m) = node_name m := by
  rw [node_name, node_name, set_visibility_public_other m "name" (by decide)]


theorem expose_kind_in_contract_nodes (c : Json) (members : List Json) (kind : String)
    (h : get_field c "nodes" = some (.arr members)) :
    get_field (expose_kind_in_contract c kind) "nodes" =
      some (.arr (members.map (fun m =>
        if node_type m = some kind then set_visibility_public m else m))) := by
  rw [expose_kind_in_contract, h]
  exact get_field_set_field_same _ _ _ (by rw [h]; rfl)


theorem expose_kind_in_contract_other (c : Json) (kind : String) (k : String)
    (h : k ≠ "nodes") :
    get_field (expose_kind_in_contract c kind) k = get_field c k := by
  rw [expose_kind_in_contract]
  cases hn : get_field c "nodes" with
  | none => rfl
  | some v =>
    cases v with
    | arr members => exact get_field_set_field_ne _ _ _ _ h
    | null => rfl
    | bool b => rfl
    | num m => rfl
    | str sv => rfl
    | obj fs => rfl


theorem node_type_expose_kind_in_contract (c : Json) (kind : String) :
    node_type (expose_kind_in_contract c kind) = node_type c := by
  rw [node_type, node_type, expose_kind_in_contract_other c kind "nodeType" (by decide)]


theorem node_name_expose_kind_in_contract (c : Json) (kind : String) :
    node_name (expose_kind_in_contract c kind) = node_name c := by
  rw [node_name, node_name, expose_kind_in_contract_other c kind "name" (by decide)]


theorem expose_kind_in_contract_idem (c : Json) (kind : String) :
    expose_kind_in_contract (expose_kind_in_contract c kind) kind =
      expose_kind_in_contract c kind := by
  cases hn : get_field c "nodes" with
  | none =>
    have hid : expose_kind_in_contract c kind = c := by
      rw [expose_kind_in_contract, hn]
    rw [hid, hid]
  | some v =>
    cases v with
    | arr members =>
      have h1 := expose_kind_in_contract_nodes c members kind hn
      rw [expose_kind_in_contract, h1]
      dsimp only
      have hstep : expose_kind_in_contract c kind = set_field c "nodes"
          (.arr (members.map (fun m =>
            if node_type m = some kind then set_visibility_public m else m))) := by
        rw [expose_kind_in_contract, hn]
      rw [hstep, set_field_set_field]
      congr 2
      rw [List.map_map]
      apply List.map_congr_left
      intro m _
      simp only [Function.comp]
      by_cases hm : node_type m = some kind
      · rw [if_pos hm]
        have : node_type (set_visibility_public m) = some kind := by
          rw [node_type_set_visibility_public, hm]
        rw [if_pos this, set_visibility_public_idem]
      · rw [if_neg hm, if_neg hm]
    | null =>
      have hid : expose_kind_in_contract c kind = c := by
        rw [expose_kind_in_contract, hn]
      rw [hid, hid]
    | bool b =>
      have hid : expose_kind_in_contract c kind = c := by
        rw [expose_kind_in_contract, hn]
      rw [hid, hid]
    | num m =>
      have hid : expose_kind_in_contract c kind = c := by
        rw [expose_kind_in_contract, hn]
      rw [hid, hid]
    | str sv =>
      have hid : expose_kind_in_contract c kind = c := by
        rw [expose_kind_in_contract, hn]
      rw [hid, hid]
    | obj fs =>
      have hid : expose_kind_in_contract c kind = c := by
        rw [expose_kind_in_contract, hn]
      rw [hid, hid]



theorem find_named_contract_congr (l₁ l₂ : List Json) (base : Nat) (tgt : String)
    (hlen : l₁.length = l₂.length)
    (hpt : ∀ k a b, l₁.get? k = some a → l₂.get? k = some b →
      node_type a = node_type b ∧ node_name a = node_name b) :
    find_named_contract l₁ base tgt = find_named_contract l₂ base tgt := by
  induction l₁ generalizing l₂ base with
  | nil =>
    cases l₂ with
    | nil => rfl
    | cons b t => simp at hlen
  | cons a t ih =>
    cases l₂ with
    | nil => simp at hlen
    | cons b t₂ =>
      obtain ⟨hty, hname⟩ := hpt 0 a b rfl rfl
      have hiff : is_contract_named a tgt ↔ is_contract_named b tgt := by
        rw [is_contract_named, is_contract_named, hty, hname]
      rw [find_named_contract, find_named_contract]
      by_cases hca : is_contract_named a tgt
      · rw [if_pos hca, if_pos (hiff.mp hca)]
      · rw [if_neg hca, if_neg (fun hb => hca (hiff.mpr hb))]
        exact ih t₂ (base + 1) (by simpa using hlen)
          (fun k a' b' ha hb => hpt (k + 1) a' b' (by simpa using ha) (by simpa using hb))


theorem find_last_contract_congr (l₁ l₂ : List Json) (base : Nat)
    (hlen : l₁.length = l₂.length)
    (hpt : ∀ k a b, l₁.get? k = some a → l₂.get? k = some b →
      node_type a = node_type b ∧ node_name a = node_name b) :
    find_last_contract l₁ base = find_last_contract l₂ base := by
  induction l₁ generalizing l₂ base with
  | nil =>
    cases l₂ with
    | nil => rfl
    | cons b t => simp at hlen
  | cons a t ih =>
    cases l₂ with
    | nil => simp at hlen
    | cons b t₂ =>
      obtain ⟨hty, hname⟩ := hpt 0 a b rfl rfl
      have hiff : is_contract a ↔ is_contract b := by
        rw [is_contract, is_contract, hty]
      have hrec : find_last_contract t (base + 1) = find_last_contract t₂ (base + 1) :=
        ih t₂ (base + 1) (by simpa using hlen)
          (fun k a' b' ha hb => hpt (k + 1) a' b' (by simpa using ha) (by simpa using hb))
      rw [find_last_contract, find_last_contract, hrec]
      cases find_last_contract t₂ (base + 1) with
      | some i => rfl
      | none =>
        by_cases hca : is_contract a
        · rw [if_pos hca, if_pos (hiff.mp hca)]
        · rw [if_neg hca, if_neg (fun hb => hca (hiff.mpr hb))]


theorem contract_definition_indices_congr (l₁ l₂ : List Json) (base : Nat)
    (hlen : l₁.length = l₂.length)
    (hpt : ∀ k a b, l₁.get? k = some a → l₂.get? k = some b →
      node_type a = node_type b ∧ node_name a = node_name b) :
    contract_definition_indices l₁ base = contract_definition_indices l₂ base := by
  induction l₁ generalizing l₂ base with
  | nil =>
    cases l₂ with
    | nil => rfl
    | cons b t => simp at hlen
  | cons a t ih =>
    cases l₂ with
    | nil => simp at hlen
    | cons b t₂ =>
      obtain ⟨hty, hname⟩ := hpt 0 a b rfl rfl
      have hrec : contract_definition_indices t (base + 1) =
          contract_definition_indices t₂ (base + 1) :=
        ih t₂ (base + 1) (by simpa using hlen)
          (fun k a' b' ha hb => hpt (k + 1) a' b' (by simpa using ha) (by simpa using hb))
      rw [contract_definition_indices, contract_definition_indices, hty, hrec]


theorem find_instrumented_contract_index_congr (unit₁ unit₂ : Json)
    (l₁ l₂ : List Json) (nm : Option String)
    (h₁ : get_field unit₁ "nodes" = some (.arr l₁))
    (h₂ : get_field unit₂ "nodes" = some (.arr l₂))
    (hlen : l₁.length = l₂.length)
    (hpt : ∀ k a b, l₁.get? k = some a → l₂.get? k = some b →
      node_type a = node_type b ∧ node_name a = node_name b) :
    find_instrumented_contract_index unit₁ nm =
      find_instrumented_contract_index unit₂ nm := by
  cases nm with
  | some tgt =>
    simp only [find_instrumented_contract_index, h₁, h₂]
    rw [find_named_contract_congr l₁ l₂ 0 tgt hlen hpt]
  | none =>
    simp only [find_instrumented_contract_index, h₁, h₂]
    rw [find_last_contract_congr l₁ l₂ 0 hlen hpt]


theorem contract_indices_congr (unit₁ unit₂ : Json) (l₁ l₂ : List Json)
    (nm : Option String)
    (h₁ : get_field unit₁ "nodes" = some (.arr l₁))
    (h₂ : get_field unit₂ "nodes" = some (.arr l₂))
    (hlen : l₁.length = l₂.length)
    (hpt : ∀ k a b, l₁.get? k = some a → l₂.get? k = some b →
      node_type a = node_type b ∧ node_name a = node_name b) :
    contract_indices unit₁ nm = contract_indices unit₂ nm := by
  cases nm with
  | some tgt =>
    simp only [contract_indices]
    rw [find_instrumented_contract_index_congr unit₁ unit₂ l₁ l₂ (some tgt) h₁ h₂ hlen hpt]
  | none =>
    simp only [contract_indices, h₁, h₂]
    rw [contract_definition_indices_congr l₁ l₂ 0 hlen hpt]


/-- Idempotence of mutate_contracts for a mutator that is idempotent
and preserves node types and names. -/
theorem mutate_contracts_idem (unit : Json) (nm : Option String) (f : Json → Json)
    (hidem : ∀ x, f (f x) = f x)
    (hty : ∀ x, node_type (f x) = node_type x)
    (hname : ∀ x, node_name (f x) = node_name x)
    (u1 : Json) (h : mutate_contracts unit nm f = .ok u1) :
    mutate_contracts u1 nm f = .ok u1 := by
  rw [mutate_contracts] at h
  split at h
  · cases h
  · rename_i idxs hci
    split at h
    · rename_i nodes hn
      cases h
      set N1 := idxs.foldl (fun ns i => modify_at ns i f) nodes with hN1
      have hn1 : get_field (set_field unit "nodes" (.arr N1)) "nodes" =
          some (.arr N1) :=
        get_field_set_field_same _ _ _ (by rw [hn]; rfl)
      have hlen : N1.length = nodes.length := foldl_modify_length idxs nodes f
      have hpoint : ∀ k, N1.get? k = nodes.get? k ∨
          N1.get? k = (nodes.get? k).map f := by
        intro k
        by_cases hk : k ∈ idxs
        · right
          exact foldl_modify_get?_mem idxs nodes k f hidem hk
        · left
          exact foldl_modify_get?_not_mem idxs nodes k f hk
      have hpt : ∀ k a b, N1.get? k = some a → nodes.get? k = some b →
          node_type a = node_type b ∧ node_name a = node_name b := by
        intro k a b ha hb
        rcases hpoint k with hv | hv
        · rw [ha, hb] at hv
          cases hv
          exact ⟨rfl, rfl⟩
        · rw [ha, hb] at hv
          simp only [Option.map_some'] at hv
          cases hv
          exact ⟨hty b, hname b⟩
      have hci2 : contract_indices (set_field unit "nodes" (.arr N1)) nm = .ok idxs := by
        rw [contract_indices_congr (set_field unit "nodes" (.arr N1)) unit N1 nodes nm
          hn1 hn (by rw [hlen]) hpt]
        exact hci
      simp only [mutate_contracts, hci2, hn1]
      have hfix : idxs.foldl (fun ns i => modify_at ns i f) N1 = N1 := by
        apply foldl_modify_id
        intro i hi v hv
        have hm := foldl_modify_get?_mem idxs nodes i f hidem hi
        rw [← hN1, hv] at hm
        cases hc : nodes.get? i with
        | none =>
          rw [hc] at hm
          cases hm
        | some c =>
          rw [hc] at hm
          simp only [Option.map_some', Option.some.injEq] at hm
          rw [hm, hidem]
      rw [hfix, set_field_set_field]
    · cases h


/-- C9: applying a visibility-promotion operation (expose_variables_internal
or expose_functions_internal) twice to the same state yields the same AST as
applying it once; each application maps every member of the matching kind in
the targeted contracts through set_visibility_public, which sets the
visibility attribute to "public", inserting the field when absent and
replacing it otherwise while leaving every other field unchanged. -/
theorem C9_expose_idempotent :
    (∀ unit nm u1, expose_variables_internal unit nm = .ok u1 →
      expose_variables_internal u1 nm = .ok u1) ∧
    (∀ unit nm u1, expose_functions_internal unit nm = .ok u1 →
      expose_functions_internal u1 nm = .ok u1) ∧
    (∀ c members kind, get_field c "nodes" = some (.arr members) →
      get_field (expose_kind_in_contract c kind) "nodes" =
        some (.arr (members.map (fun m =>
          if node_type m = some kind then set_visibility_public m else m)))) ∧
    (∀ fields : List (String × Json),
      get_field (set_visibility_public (.obj fields)) "visibility" =
        some (.str "public") ∧
      (∀ k, k ≠ "visibility" →
        get_field (set_visibility_public (.obj fields)) k =
          get_field (.obj fields) k) ∧
      (fields.lookup "visibility" = none →
        set_visibility_public (.obj fields) =
          .obj (fields ++ [("visibility", .str "public")]))) := by
  refine ⟨?_, ?_, ?_, ?_⟩
  · intro unit nm u1 h
    exact mutate_contracts_idem unit nm _
      (fun x => expose_kind_in_contract_idem x "VariableDeclaration")
      (fun x => node_type_expose_kind_in_contract x "VariableDeclaration")
      (fun x => node_name_expose_kind_in_contract x "VariableDeclaration")
      u1 h
  · intro unit nm u1 h
    exact mutate_contracts_idem unit nm _
      (fun x => expose_kind_in_contract_idem x "FunctionDefinition")
      (fun x => node_type_expose_kind_in_contract x "FunctionDefinition")
      (fun x => node_name_expose_kind_in_contract x "FunctionDefinition")
      u1 h
  · intro c members kind h
    exact expose_kind_in_contract_nodes c members kind h
  · intro fields
    refine ⟨set_visibility_public_visibility fields,
      fun k hk => set_visibility_public_other _ k hk, ?_⟩
    intro hnone
    simp only [set_visibility_public, hnone]


/-- Witness for C9 at concrete units: promoting variables inserts the
missing visibility field, promoting functions replaces an internal one,
and both operations are fixed on their own output. -/
theorem C9_witness :
    expose_variables_internal c9_unit none = .ok c9_exposed ∧
    expose_variables_internal c9_exposed none = .ok c9_exposed ∧
    expose_functions_internal c9_funit none = .ok c9_fexposed ∧
    expose_functions_internal c9_fexposed none = .ok c9_fexposed ∧
    get_field (set_visibility_public
      (.obj [("nodeType", .str "VariableDeclaration")])) "visibility" =
        some (.str "public") ∧
    set_visibility_public (.obj [("nodeType", .str "VariableDeclaration")]) =
      .obj [("nodeType", .str "VariableDeclaration"),
            ("visibility", .str "public")] := by
  refine ⟨rfl, C9_expose_idempotent.1 c9_unit none c9_exposed rfl,
    rfl, C9_expose_idempotent.2.1 c9_funit none c9_fexposed rfl,
    (C9_expose_idempotent.2.2.2 [("nodeType", .str "VariableDeclaration")]).1,
    ?_⟩
  exact (C9_expose_idempotent.2.2.2
    [("nodeType", .str "VariableDeclaration")]).2.2 rfl


/-- apply_after propagates a walker error together with the partially
mutated statement list. -/
theorem apply_after_error (stmts template : List Json) (n : Int)
    (out : List Json) (n2 : Int) (err : String)
    (h : inject_after stmts template n = (out, n2, some err)) :
    apply_after stmts template n = (out, n2, some err) := by
  unfold apply_after
  rw [h]


/-- The run of inject_edges through the error exit of the after-walker,
with every intermediate result named: the partially mutated statement
list is written back into the unit next to the error. -/
theorem inject_edges_error_run
    (unit contract function : Json) (bodyFields : List (String × Json))
    (cidx fidx : Nat) (sel : FunctionSelectorKind)
    (bs as : List String) (eb ea : Except String (List Json))
    (members stmts before after clones out : List Json)
    (n1 n2 : Int) (err : String)
    (hbs : bs.isEmpty = false)
    (hcm : contract_mut_at unit cidx = .ok contract)
    (hres : resolve_function_idx contract sel = .ok fidx)
    (hnodes : get_field contract "nodes" = some (.arr members))
    (hmem : members.get? fidx = some function)
    (hbody : get_field function "body" = some (.obj bodyFields))
    (hasm : ensure_no_inline_assembly (.obj bodyFields) = .ok ())
    (hp : parse_statements bs eb = .ok before)
    (hq : parse_statements as ea = .ok after)
    (hbe : before.isEmpty = false)
    (hae : after.isEmpty = false)
    (hstmts : get_field (.obj bodyFields) "statements" = some (.arr stmts))
    (hclone : clone_statements before (max_id unit) = (clones, n1))
    (happ : apply_after (clones ++ stmts) after n1 = (out, n2, some err)) :
    inject_edges unit cidx sel bs as eb ea =
      (set_function_body_statements unit cidx fidx out, .error err) := by
  have hmem2 : members[fidx]? = some function := by simpa using hmem
  simp [inject_edges, hbs, hcm, hres, hnodes, hmem2, hbody, hasm, hp, hq,
    hbe, hae, hstmts, hclone, happ]


/-- The C6 body passes the inline-assembly precondition. -/
theorem c6_ensure_ok : ensure_no_inline_assembly (.obj c6_body_fields) = .ok () := by
  simp [ensure_no_inline_assembly, ensure_no_asm_list,
    ensure_no_inline_assembly_in_statement, node_type, get_field,
    c6_body_fields, c6_dowhile, List.lookup]


/-- The after-walker fails on the DoWhile statement, leaving the already
inserted prologue in the list. -/
theorem c6_inject_after_eval : inject_after [c6_tpl7, c6_dowhile] [c6_tpl] 7 =
    ([c6_tpl7, c6_dowhile], 7, some "DoWhile body missing statements array") := by
  simp [inject_after, node_type, get_field, c6_tpl7, c6_dowhile, List.lookup]


theorem c6_apply_after_eval : apply_after [c6_tpl7, c6_dowhile] [c6_tpl] 7 =
    ([c6_tpl7, c6_dowhile], 7, some "DoWhile body missing statements array") :=
  apply_after_error _ _ _ _ _ _ c6_inject_after_eval


/-- C6: the spec demands that a failed mutation leave the AST unchanged,
but inject_edges mutates through the &mut unit before the after-walker can
fail: on this input it returns the DoWhile error while the returned unit
differs from the input (the before prologue was already inserted). -/
theorem C6_failed_mutation_alters_unit :
    inject_edges c6_unit 0 (.name "f") ["x;"] ["y;"]
        (.ok [c6_tpl]) (.ok [c6_tpl]) =
      (c6_mutated, .error "DoWhile body missing statements array") ∧
    c6_mutated ≠ c6_unit := by
  constructor
  · have h := inject_edges_error_run c6_unit c6_contract c6_function c6_body_fields
      0 0 (.name "f") ["x;"] ["y;"] (.ok [c6_tpl]) (.ok [c6_tpl])
      [c6_function] [c6_dowhile] [c6_tpl] [c6_tpl] [c6_tpl7]
      [c6_tpl7, c6_dowhile] 7 7 "DoWhile body missing statements array"
      rfl rfl rfl rfl rfl rfl c6_ensure_ok rfl rfl rfl rfl rfl rfl
      c6_apply_after_eval
    rw [h]
    rfl
  · intro h
    exact absurd (congrArg nt_count h) (by decide)


/-- C8 counterexample: an anonymous (nameless) FunctionDefinition IS
assigned a conflict key (the name defaults to the empty string), and under
Replace stitching a matching anonymous fragment member replaces the target
member in place instead of being appended: the result keeps length one and
its member is the overlaid fragment node, not the target node. -/
theorem C8_counterexample :
    contract_part_key c8_frag_fn = .ok (some (.function "" [] "fallback")) ∧
    stitch_replace [c8_target_fn] [c8_frag_fn] 30 = .ok ([c8_frag_repl], 30) ∧
    c8_frag_repl ≠ c8_target_fn := by
  refine ⟨rfl, rfl, ?_⟩
  intro h
  have := congrArg (fun j => (get_field j "documentation").isSome) h
  simp [c8_frag_repl, c8_target_fn, get_field, List.lookup] at this


/-- C8 (amended): UsingForDirective members, nameless members of the
optional-name kinds, and unrecognised kinds get no conflict key, and a
keyless fragment member is queued for appending, never scheduled as a
replacement; a FunctionDefinition, anonymous or not, is always keyed, its
missing name defaulting to the empty string. -/
theorem C8_keyless_append :
    (∀ node, node_type node = some "UsingForDirective" →
      contract_part_key node = .ok none) ∧
    (∀ node t, node_type node = some t →
      (t = "VariableDeclaration" ∨ t = "EventDefinition" ∨ t = "ErrorDefinition" ∨
       t = "ModifierDefinition" ∨ t = "StructDefinition" ∨ t = "EnumDefinition" ∨
       t = "UserDefinedValueTypeDefinition") →
      node_name node = none → contract_part_key node = .ok none) ∧
    (∀ node sig, node_type node = some "FunctionDefinition" →
      node_name node = none → function_signature node = .ok sig →
      contract_part_key node = .ok (some (.function "" sig (function_kind_tag node)))) ∧
    (∀ m node rest r a, contract_part_key node = .ok none →
      split_fragment m rest = .ok (r, a) →
      split_fragment m (node :: rest) = .ok (r, node :: a)) := by
  refine ⟨?_, ?_, ?_, ?_⟩
  · intro node h
    simp only [contract_part_key, h]
  · intro node t htype hmem hname
    rcases hmem with rfl | rfl | rfl | rfl | rfl | rfl | rfl <;>
      simp only [contract_part_key, htype, hname, Option.map_none']
  · intro node sig htype hname hsig
    simp only [contract_part_key, htype, hsig, hname, Option.getD_none]
  · intro m node rest r a hk hrec
    simp only [split_fragment, hk, hrec]


/-- Witness for C8 at concrete members: a UsingForDirective and a nameless
variable get no key, the anonymous fallback is keyed with the empty name,
and a keyless member is queued for appending. -/
theorem C8_witness :
    contract_part_key c8_ufd = .ok none ∧
    contract_part_key c8_anon_var = .ok none ∧
    contract_part_key c8_frag_fn = .ok (some (.function "" [] "fallback")) ∧
    split_fragment [] [c8_ufd] = .ok ([], [c8_ufd]) := by
  refine ⟨C8_keyless_append.1 c8_ufd rfl,
    C8_keyless_append.2.1 c8_anon_var "VariableDeclaration" rfl (Or.inl rfl) rfl,
    C8_keyless_append.2.2.1 c8_frag_fn [] rfl rfl rfl,
    C8_keyless_append.2.2.2 [] c8_ufd [] [] [] rfl rfl⟩


theorem nt_count_fields_append (xs ys : List (String × Json)) :
    nt_count_fields (xs ++ ys) = nt_count_fields xs + nt_count_fields ys := by
  induction xs with
  | nil => simp [nt_count_fields]
  | cons kv rest ih =>
    obtain ⟨k, v⟩ := kv
    simp [nt_count_fields, ih]
    omega


/-- Concatenating two successive snapshot consumptions: the first walk
takes kv entries at cursor c (overflowing into the counter), the second
takes kr entries at the advanced cursor, and together they read as one
walk taking kv + kr entries. -/
theorem snap_take_append (snap : List Int) (c : Nat) (n : Int) (kv kr : Nat) :
    ((snap.drop c).take kv ++ int_range n (kv - (snap.length - c))) ++
      ((snap.drop (c + min kv (snap.length - c))).take kr ++
        int_range (n + ((kv - (snap.length - c) : Nat) : Int))
          (kr - (snap.length - (c + min kv (snap.length - c))))) =
    (snap.drop c).take (kv + kr) ++
      int_range n ((kv + kr) - (snap.length - c)) := by
  by_cases h : kv ≤ snap.length - c
  · have hf1 : kv - (snap.length - c) = 0 := by omega
    have hc1 : min kv (snap.length - c) = kv := by omega
    have hcount : kr - (snap.length - (c + kv)) = kv + kr - (snap.length - c) := by
      omega
    rw [hf1, hc1, hcount]
    simp only [int_range, Nat.cast_zero, add_zero, List.append_nil]
    rw [List.take_add, List.drop_drop, List.append_assoc]
  · have hc1 : min kv (snap.length - c) = snap.length - c := by omega
    have hdrop : snap.drop (c + (snap.length - c)) = [] := by
      apply List.drop_eq_nil_of_le
      omega
    have htake1 : (snap.drop c).take kv = snap.drop c := by
      apply List.take_of_length_le
      rw [List.length_drop]
      omega
    have htake2 : (snap.drop c).take (kv + kr) = snap.drop c := by
      apply List.take_of_length_le
      rw [List.length_drop]
      omega
    have hrem : snap.length - (c + (snap.length - c)) = 0 := by omega
    rw [hc1, hdrop, hrem, htake1, htake2]
    simp only [List.take_nil, Nat.sub_zero, List.nil_append, List.append_assoc]
    have hcnt : (kv - (snap.length - c)) + kr = kv + kr - (snap.length - c) := by
      omega
    rw [int_range_append, hcnt]


/-- Master characterisation of assign_ids_with_snapshot: per node of the
result (in traversal order) one snapshot entry is consumed from the
cursor while any remain, the counter supplies the overflow in an
ascending run, and erasing node ids recovers the original subtree. -/
theorem assign_snap_spec :
    (∀ j : Json, ∀ snap : List Int, ∀ c : Nat, ∀ n : Int,
      (assign_ids_with_snapshot j snap c n).2.1 =
        c + min (nt_count (assign_ids_with_snapshot j snap c n).1)
          (snap.length - c) ∧
      (assign_ids_with_snapshot j snap c n).2.2 =
        n + ((nt_count (assign_ids_with_snapshot j snap c n).1
          - (snap.length - c) : Nat) : Int) ∧
      nt_ids (assign_ids_with_snapshot j snap c n).1 =
        (snap.drop c).take (nt_count (assign_ids_with_snapshot j snap c n).1) ++
          int_range n (nt_count (assign_ids_with_snapshot j snap c n).1
            - (snap.length - c)) ∧
      erase_nt_ids (assign_ids_with_snapshot j snap c n).1 = erase_nt_ids j) ∧
    (∀ fs : List (String × Json),
      (∀ snap : List Int, ∀ c : Nat, ∀ n : Int,
        (assign_snap_fields fs snap c n).2.1 =
          c + min (nt_count_fields (assign_snap_fields fs snap c n).1)
            (snap.length - c) ∧
        (assign_snap_fields fs snap c n).2.2 =
          n + ((nt_count_fields (assign_snap_fields fs snap c n).1
            - (snap.length - c) : Nat) : Int) ∧
        nt_ids_fields (assign_snap_fields fs snap c n).1 =
          (snap.drop c).take (nt_count_fields (assign_snap_fields fs snap c n).1) ++
            int_range n (nt_count_fields (assign_snap_fields fs snap c n).1
              - (snap.length - c)) ∧
        erase_nt_ids_fields (assign_snap_fields fs snap c n).1 =
          erase_nt_ids_fields fs ∧
        erase_nt_ids_fields_drop (assign_snap_fields fs snap c n).1 =
          erase_nt_ids_fields_drop fs ∧
        (assign_snap_fields fs snap c n).1.map Prod.fst = fs.map Prod.fst) ∧
      (∀ snap : List Int, ∀ idv : Int, ∀ c : Nat, ∀ n : Int,
        (assign_snap_fields_id fs snap idv c n).2.1 =
          c + min (nt_count_fields (assign_snap_fields_id fs snap idv c n).1)
            (snap.length - c) ∧
        (assign_snap_fields_id fs snap idv c n).2.2 =
          n + ((nt_count_fields (assign_snap_fields_id fs snap idv c n).1
            - (snap.length - c) : Nat) : Int) ∧
        nt_ids_fields (assign_snap_fields_id fs snap idv c n).1 =
          (snap.drop c).take
            (nt_count_fields (assign_snap_fields_id fs snap idv c n).1) ++
            int_range n (nt_count_fields (assign_snap_fields_id fs snap idv c n).1
              - (snap.length - c)) ∧
        erase_nt_ids_fields_drop (assign_snap_fields_id fs snap idv c n).1 =
          erase_nt_ids_fields_drop fs ∧
        (assign_snap_fields_id fs snap idv c n).1.map Prod.fst = fs.map Prod.fst ∧
        ((fs.lookup "id").isSome →
          (assign_snap_fields_id fs snap idv c n).1.lookup "id" =
            some (.num idv)))) ∧
    (∀ l : List Json, ∀ snap : List Int, ∀ c : Nat, ∀ n : Int,
      (assign_snap_list l snap c n).2.1 =
        c + min (nt_count_list (assign_snap_list l snap c n).1)
          (snap.length - c) ∧
      (assign_snap_list l snap c n).2.2 =
        n + ((nt_count_list (assign_snap_list l snap c n).1
          - (snap.length - c) : Nat) : Int) ∧
      nt_ids_list (assign_snap_list l snap c n).1 =
        (snap.drop c).take (nt_count_list (assign_snap_list l snap c n).1) ++
          int_range n (nt_count_list (assign_snap_list l snap c n).1
            - (snap.length - c)) ∧
      erase_nt_ids_list (assign_snap_list l snap c n).1 = erase_nt_ids_list l) := by
  refine json_mutual_ind _ _ _ ?_ ?_ ?_ ?_ ?_ ?_ ?_ ?_ ?_ ?_
  · intro snap c n
    simp [assign_ids_with_snapshot, nt_count, nt_ids, erase_nt_ids, int_range]
  · intro b snap c n
    simp [assign_ids_with_snapshot, nt_count, nt_ids, erase_nt_ids, int_range]
  · intro m snap c n
    simp [assign_ids_with_snapshot, nt_count, nt_ids, erase_nt_ids, int_range]
  · intro s snap c n
    simp [assign_ids_with_snapshot, nt_count, nt_ids, erase_nt_ids, int_range]
  · -- arrays
    intro l hl snap c n
    obtain ⟨h1, h2, h3, h4⟩ := hl snap c n
    rcases hL : assign_snap_list l snap c n with ⟨L1, L2, L3⟩
    rw [hL] at h1 h2 h3 h4
    refine ⟨?_, ?_, ?_, ?_⟩ <;>
      simp_all [assign_ids_with_snapshot, nt_count, nt_ids, erase_nt_ids, hL]
  · -- objects
    intro fs hfs snap c n
    obtain ⟨hplain, hid⟩ := hfs
    by_cases hnt : (fs.lookup "nodeType").isSome
    · -- a node: consume a snapshot entry or bump the counter
      cases hsc : snap.get? c with
      | some v =>
        obtain ⟨hlt, hvget⟩ := List.get?_eq_some.mp hsc
        have hvelem : snap[c] = v := by
          simpa using hvget
        have hsc2 : snap[c]? = some v := by
          simpa using hsc
        have hdropc : snap.drop c = v :: snap.drop (c + 1) := by
          rw [List.drop_eq_getElem_cons hlt, hvelem]
        obtain ⟨m1, m2, mids, mdrop, mkeys, midlookup⟩ := hid snap v (c + 1) n
        rcases hF : assign_snap_fields_id fs snap v (c + 1) n with ⟨F1, F2, F3⟩
        rw [hF] at m1 m2 mids mdrop mkeys midlookup
        simp only at m1 m2 mids mdrop mkeys midlookup
        have keynt : (F1.lookup "nodeType").isSome = (fs.lookup "nodeType").isSome :=
          lookup_isSome_of_keys_eq mkeys "nodeType"
        have keyid : (F1.lookup "id").isSome = (fs.lookup "id").isSome :=
          lookup_isSome_of_keys_eq mkeys "id"
        by_cases hidp : (fs.lookup "id").isSome
        · have hstep : assign_ids_with_snapshot (.obj fs) snap c n =
              (.obj F1, F2, F3) := by
            simp [assign_ids_with_snapshot, hnt, hsc, hsc2, hidp, hF]
          rw [hstep]
          dsimp only
          have hK : nt_count (Json.obj F1) = nt_count_fields F1 + 1 := by
            rw [nt_count, if_pos (show (F1.lookup "nodeType").isSome = true by
              rw [keynt]; exact hnt)]
            omega
          refine ⟨?_, ?_, ?_, ?_⟩
          · rw [hK, m1]
            omega
          · rw [hK, m2]
            omega
          · rw [nt_ids_obj_node F1 v (by rw [keynt]; exact hnt) (midlookup hidp),
              hK, mids, hdropc, List.take_succ_cons]
            have h2 : nt_count_fields F1 + 1 - (snap.length - c) =
                nt_count_fields F1 - (snap.length - (c + 1)) := by omega
            rw [h2, List.cons_append]
          · rw [erase_nt_ids_obj_node F1 (by rw [keynt]; exact hnt),
              erase_nt_ids_obj_node fs hnt, mdrop]
        · have hstep : assign_ids_with_snapshot (.obj fs) snap c n =
              (.obj (F1 ++ [("id", .num v)]), F2, F3) := by
            simp [assign_ids_with_snapshot, hnt, hsc, hsc2, hidp, hF]
          rw [hstep]
          dsimp only
          have keynt' : ((F1 ++ [("id", Json.num v)]).lookup "nodeType").isSome
              = true := by
            rw [List.lookup_append]
            cases h : F1.lookup "nodeType" with
            | some w => simp
            | none =>
              exfalso
              rw [h] at keynt
              simp [hnt] at keynt
          have keyid' : (F1 ++ [("id", Json.num v)]).lookup "id" =
              some (Json.num v) := by
            rw [List.lookup_append]
            cases h : F1.lookup "id" with
            | some w =>
              exfalso
              rw [h] at keyid
              simp [hidp] at keyid
            | none => simp [List.lookup]
          have hK : nt_count (Json.obj (F1 ++ [("id", Json.num v)])) =
              nt_count_fields F1 + 1 := by
            rw [nt_count, if_pos keynt', nt_count_fields_append]
            have hz : nt_count_fields [("id", Json.num v)] = 0 := by
              simp [nt_count_fields, nt_count]
            rw [hz]
            omega
          refine ⟨?_, ?_, ?_, ?_⟩
          · rw [hK, m1]
            omega
          · rw [hK, m2]
            omega
          · rw [nt_ids_obj_node _ v keynt' keyid', nt_ids_fields_append, hK]
            have hz : nt_ids_fields [("id", Json.num v)] = [] := by
              simp [nt_ids_fields, nt_ids]
            rw [hz, List.append_nil, mids, hdropc, List.take_succ_cons]
            have h2 : nt_count_fields F1 + 1 - (snap.length - c) =
                nt_count_fields F1 - (snap.length - (c + 1)) := by omega
            rw [h2, List.cons_append]
          · rw [erase_nt_ids_obj_node _ keynt', erase_nt_ids_obj_node fs hnt,
              erase_nt_ids_fields_drop_append, mdrop]
            simp [erase_nt_ids_fields_drop]
      | none =>
        have hge : snap.length ≤ c := List.get?_eq_none.mp hsc
        have hsc2 : snap[c]? = none := by
          simpa using hsc
        have hdropc : snap.drop c = [] := List.drop_eq_nil_of_le hge
        have hrem : snap.length - c = 0 := by omega
        obtain ⟨m1, m2, mids, mdrop, mkeys, midlookup⟩ := hid snap (n + 1) c (n + 1)
        rcases hF : assign_snap_fields_id fs snap (n + 1) c (n + 1) with ⟨F1, F2, F3⟩
        rw [hF] at m1 m2 mids mdrop mkeys midlookup
        simp only at m1 m2 mids mdrop mkeys midlookup
        have keynt : (F1.lookup "nodeType").isSome = (fs.lookup "nodeType").isSome :=
          lookup_isSome_of_keys_eq mkeys "nodeType"
        have keyid : (F1.lookup "id").isSome = (fs.lookup "id").isSome :=
          lookup_isSome_of_keys_eq mkeys "id"
        have hidline : ∀ K : Nat, (n + 1) :: int_range (n + 1) K =
            int_range n (K + 1) := by
          intro K
          rw [int_range]
        by_cases hidp : (fs.lookup "id").isSome
        · have hstep : assign_ids_with_snapshot (.obj fs) snap c n =
              (.obj F1, F2, F3) := by
            simp [assign_ids_with_snapshot, hnt, hsc, hsc2, hidp, hF]
          rw [hstep]
          dsimp only
          have hK : nt_count (Json.obj F1) = nt_count_fields F1 + 1 := by
            rw [nt_count, if_pos (show (F1.lookup "nodeType").isSome = true by
              rw [keynt]; exact hnt)]
            omega
          refine ⟨?_, ?_, ?_, ?_⟩
          · rw [hK, m1, hrem]
            omega
          · rw [hK, m2, hrem]
            push_cast
            omega
          · rw [nt_ids_obj_node F1 (n + 1) (by rw [keynt]; exact hnt)
              (midlookup hidp), hK, mids, hdropc, hrem]
            simp only [List.take_nil, List.nil_append, Nat.sub_zero]
            exact hidline (nt_count_fields F1)
          · rw [erase_nt_ids_obj_node F1 (by rw [keynt]; exact hnt),
              erase_nt_ids_obj_node fs hnt, mdrop]
        · have hstep : assign_ids_with_snapshot (.obj fs) snap c n =
              (.obj (F1 ++ [("id", .num (n + 1))]), F2, F3) := by
            simp [assign_ids_with_snapshot, hnt, hsc, hsc2, hidp, hF]
          rw [hstep]
          dsimp only
          have keynt' : ((F1 ++ [("id", Json.num (n + 1))]).lookup "nodeType").isSome
              = true := by
            rw [List.lookup_append]
            cases h : F1.lookup "nodeType" with
            | some w => simp
            | none =>
              exfalso
              rw [h] at keynt
              simp [hnt] at keynt
          have keyid' : (F1 ++ [("id", Json.num (n + 1))]).lookup "id" =
              some (Json.num (n + 1)) := by
            rw [List.lookup_append]
            cases h : F1.lookup "id" with
            | some w =>
              exfalso
              rw [h] at keyid
              simp [hidp] at keyid
            | none => simp [List.lookup]
          have hK : nt_count (Json.obj (F1 ++ [("id", Json.num (n + 1))])) =
              nt_count_fields F1 + 1 := by
            rw [nt_count, if_pos keynt', nt_count_fields_append]
            have hz : nt_count_fields [("id", Json.num (n + 1))] = 0 := by
              simp [nt_count_fields, nt_count]
            rw [hz]
            omega
          refine ⟨?_, ?_, ?_, ?_⟩
          · rw [hK, m1, hrem]
            omega
          · rw [hK, m2, hrem]
            push_cast
            omega
          · rw [nt_ids_obj_node _ (n + 1) keynt' keyid', nt_ids_fields_append, hK]
            have hz : nt_ids_fields [("id", Json.num (n + 1))] = [] := by
              simp [nt_ids_fields, nt_ids]
            rw [hz, List.append_nil, mids, hdropc, hrem]
            simp only [List.take_nil, List.nil_append, Nat.sub_zero]
            exact hidline (nt_count_fields F1)
          · rw [erase_nt_ids_obj_node _ keynt', erase_nt_ids_obj_node fs hnt,
              erase_nt_ids_fields_drop_append, mdrop]
            simp [erase_nt_ids_fields_drop]
    · -- not a node: plain walk
      obtain ⟨m1, m2, mids, merase, mdrop, mkeys⟩ := hplain snap c n
      rcases hF : assign_snap_fields fs snap c n with ⟨F1, F2, F3⟩
      rw [hF] at m1 m2 mids merase mdrop mkeys
      simp only at m1 m2 mids merase mdrop mkeys
      have keynt : (F1.lookup "nodeType").isSome = (fs.lookup "nodeType").isSome :=
        lookup_isSome_of_keys_eq mkeys "nodeType"
      have hntf : (fs.lookup "nodeType").isSome = false :=
        Bool.eq_false_iff.mpr hnt
      have hstep : assign_ids_with_snapshot (.obj fs) snap c n = (.obj F1, F2, F3) := by
        simp [assign_ids_with_snapshot, hntf, hF]
      rw [hstep]
      dsimp only
      have hK : nt_count (Json.obj F1) = nt_count_fields F1 := by
        rw [nt_count, if_neg (show ¬ (F1.lookup "nodeType").isSome = true by
          simp [keynt, hntf])]
        omega
      refine ⟨by rw [hK]; exact m1, by rw [hK]; exact m2, ?_, ?_⟩
      · rw [nt_ids_obj_plain F1 (by rw [keynt]; exact hntf), hK]
        exact mids
      · rw [erase_nt_ids_obj_plain F1 (by rw [keynt]; exact hntf),
          erase_nt_ids_obj_plain fs hntf, merase]
  · -- empty field list
    refine ⟨fun snap c n => ?_, fun snap idv c n => ?_⟩ <;>
      simp [assign_snap_fields, assign_snap_fields_id, nt_count_fields,
        nt_ids_fields, erase_nt_ids_fields, erase_nt_ids_fields_drop,
        int_range, List.lookup]
  · -- field cons
    intro k v rest hv hrest
    obtain ⟨hplain, hid⟩ := hrest
    constructor
    · intro snap c n
      obtain ⟨v1, v2, vids, verase⟩ := hv snap c n
      rcases hV : assign_ids_with_snapshot v snap c n with ⟨V1, C1, N1⟩
      rw [hV] at v1 v2 vids verase
      simp only at v1 v2 vids verase
      obtain ⟨r1, r2, rids, rerase, rdrop, rkeys⟩ := hplain snap C1 N1
      rcases hR : assign_snap_fields rest snap C1 N1 with ⟨R1, C2, N2⟩
      rw [hR] at r1 r2 rids rerase rdrop rkeys
      simp only at r1 r2 rids rerase rdrop rkeys
      have hstep : assign_snap_fields ((k, v) :: rest) snap c n =
          ((k, V1) :: R1, C2, N2) := by
        simp [assign_snap_fields, hV, hR]
      rw [hstep]
      dsimp only
      have hKs : nt_count_fields ((k, V1) :: R1) =
          nt_count V1 + nt_count_fields R1 := by
        rw [nt_count_fields]
      refine ⟨?_, ?_, ?_, ?_, ?_, ?_⟩
      · rw [hKs, r1, v1]
        omega
      · rw [hKs, r2, v2, v1]
        omega
      · rw [hKs]
        simp only [nt_ids_fields, vids, rids, v1, v2]
        exact snap_take_append snap c n (nt_count V1) (nt_count_fields R1)
      · simp [erase_nt_ids_fields, verase, rerase]
      · by_cases hk : k = "id" <;>
          simp [erase_nt_ids_fields_drop, hk, verase, rdrop]
      · simp [rkeys]
    · intro snap idv c n
      by_cases hk : k = "id"
      · obtain ⟨r1, r2, rids, rdrop, rkeys, ridlk⟩ := hid snap idv c n
        rcases hR : assign_snap_fields_id rest snap idv c n with ⟨R1, C2, N2⟩
        rw [hR] at r1 r2 rids rdrop rkeys ridlk
        simp only at r1 r2 rids rdrop rkeys ridlk
        have hstep : assign_snap_fields_id ((k, v) :: rest) snap idv c n =
            ((k, .num idv) :: R1, C2, N2) := by
          simp [assign_snap_fields_id, hk, hR]
        rw [hstep]
        dsimp only
        have hKs : nt_count_fields ((k, Json.num idv) :: R1) =
            nt_count_fields R1 := by
          simp [nt_count_fields, nt_count]
        refine ⟨by rw [hKs]; exact r1, by rw [hKs]; exact r2, ?_, ?_, ?_, ?_⟩
        · rw [hKs]
          simp [nt_ids_fields, nt_ids, rids]
        · simp [erase_nt_ids_fields_drop, hk, rdrop]
        · simp [rkeys]
        · intro _
          subst hk
          simp [List.lookup]
      · obtain ⟨v1, v2, vids, verase⟩ := hv snap c n
        rcases hV : assign_ids_with_snapshot v snap c n with ⟨V1, C1, N1⟩
        rw [hV] at v1 v2 vids verase
        simp only at v1 v2 vids verase
        obtain ⟨r1, r2, rids, rdrop, rkeys, ridlk⟩ := hid snap idv C1 N1
        rcases hR : assign_snap_fields_id rest snap idv C1 N1 with ⟨R1, C2, N2⟩
        rw [hR] at r1 r2 rids rdrop rkeys ridlk
        simp only at r1 r2 rids rdrop rkeys ridlk
        have hstep : assign_snap_fields_id ((k, v) :: rest) snap idv c n =
            ((k, V1) :: R1, C2, N2) := by
          simp [assign_snap_fields_id, hk, hV, hR]
        rw [hstep]
        dsimp only
        have hKs : nt_count_fields ((k, V1) :: R1) =
            nt_count V1 + nt_count_fields R1 := by
          rw [nt_count_fields]
        refine ⟨?_, ?_, ?_, ?_, ?_, ?_⟩
        · rw [hKs, r1, v1]
          omega
        · rw [hKs, r2, v2, v1]
          omega
        · rw [hKs]
          simp only [nt_ids_fields, vids, rids, v1, v2]
          exact snap_take_append snap c n (nt_count V1) (nt_count_fields R1)
        · simp [erase_nt_ids_fields_drop, hk, verase, rdrop]
        · simp [rkeys]
        · intro hpresent
          have hkbeq : ("id" == k) = false := by
            rw [beq_eq_false_iff_ne]
            exact fun h => hk h.symm
          simp only [List.lookup, hkbeq] at hpresent ⊢
          exact ridlk hpresent
  · -- empty element list
    intro snap c n
    simp [assign_snap_list, nt_count_list, nt_ids_list, erase_nt_ids_list,
      int_range]
  · -- element cons
    intro j rest hj hrest snap c n
    obtain ⟨j1, j2, jids, jerase⟩ := hj snap c n
    rcases hJ : assign_ids_with_snapshot j snap c n with ⟨J1, C1, N1⟩
    rw [hJ] at j1 j2 jids jerase
    simp only at j1 j2 jids jerase
    obtain ⟨r1, r2, rids, rerase⟩ := hrest snap C1 N1
    rcases hR : assign_snap_list rest snap C1 N1 with ⟨R1, C2, N2⟩
    rw [hR] at r1 r2 rids rerase
    simp only at r1 r2 rids rerase
    have hstep : assign_snap_list (j :: rest) snap c n = (J1 :: R1, C2, N2) := by
      simp [assign_snap_list, hJ, hR]
    rw [hstep]
    dsimp only
    have hKs : nt_count_list (J1 :: R1) = nt_count J1 + nt_count_list R1 := by
      rw [nt_count_list]
    refine ⟨?_, ?_, ?_, ?_⟩
    · rw [hKs, r1, j1]
      omega
    · rw [hKs, r2, j2, j1]
      omega
    · rw [hKs]
      simp only [nt_ids_list, jids, rids, j1, j2]
      exact snap_take_append snap c n (nt_count J1) (nt_count_list R1)
    · simp [erase_nt_ids_list, jerase, rerase]


theorem key_insert_mem (m : KeyMap) (k : ConflictKey) (v : Nat × List Int)
    (e : ConflictKey × Nat × List Int) (h : e ∈ key_insert m k v) :
    e = (k, v) ∨ e ∈ m := by
  induction m with
  | nil =>
    simp only [key_insert, List.mem_singleton] at h
    exact Or.inl h
  | cons kv' rest ih =>
    obtain ⟨k', v'⟩ := kv'
    rw [key_insert] at h
    by_cases hk : k' = k
    · rw [if_pos hk] at h
      rcases List.mem_cons.mp h with h | h
      · exact Or.inl h
      · exact Or.inr (List.mem_cons_of_mem _ h)
    · rw [if_neg hk] at h
      rcases List.mem_cons.mp h with h | h
      · exact Or.inr (h ▸ List.mem_cons_self _ _)
      · rcases ih h with h | h
        · exact Or.inl h
        · exact Or.inr (List.mem_cons_of_mem _ h)


theorem key_remove_mem (m : KeyMap) (k : ConflictKey) (iv : Nat × List Int)
    (m' : KeyMap) (h : key_remove m k = some (iv, m')) : (k, iv) ∈ m := by
  induction m generalizing m' with
  | nil => simp [key_remove] at h
  | cons kv' rest ih =>
    obtain ⟨k', v'⟩ := kv'
    rw [key_remove] at h
    by_cases hk : k' = k
    · rw [if_pos hk] at h
      simp only [Option.some.injEq, Prod.mk.injEq] at h
      obtain ⟨h1, _⟩ := h
      subst hk
      rw [← h1]
      exact List.mem_cons_self _ _
    · rw [if_neg hk] at h
      cases hr : key_remove rest k with
      | none => rw [hr] at h; cases h
      | some p =>
        obtain ⟨iv0, m0⟩ := p
        rw [hr] at h
        simp only [Option.map_some', Option.some.injEq, Prod.mk.injEq] at h
        obtain ⟨h1, _⟩ := h
        rw [h1] at hr
        exact List.mem_cons_of_mem _ (ih m0 hr)


theorem build_key_map_sound (nodes : List Json) (base : Nat) (m0 m : KeyMap)
    (h : build_key_map nodes base m0 = .ok m) :
    ∀ e ∈ m, e ∈ m0 ∨ ∃ i node, nodes.get? i = some node ∧ e.2.1 = base + i ∧
      contract_part_key node = .ok (some e.1) ∧ e.2.2 = collect_ids node := by
  induction nodes generalizing base m0 with
  | nil =>
    rw [build_key_map] at h
    cases h
    intro e he
    exact Or.inl he
  | cons node rest ih =>
    rw [build_key_map] at h
    intro e he
    split at h
    · cases h
    · rename_i k hk
      rcases ih (base + 1) (key_insert m0 k (base, collect_ids node)) h e he with
        hmem | ⟨i, node', h1, h2, h3, h4⟩
      · rcases key_insert_mem m0 k (base, collect_ids node) e hmem with heq | hin
        · right
          refine ⟨0, node, rfl, ?_, ?_, ?_⟩
          · rw [heq]
            simp
          · rw [heq]
            exact hk
          · rw [heq]
        · exact Or.inl hin
      · right
        exact ⟨i + 1, node', by simpa using h1, by omega, h3, h4⟩
    · rename_i hk
      rcases ih (base + 1) m0 h e he with hmem | ⟨i, node', h1, h2, h3, h4⟩
      · exact Or.inl hmem
      · right
        exact ⟨i + 1, node', by simpa using h1, by omega, h3, h4⟩


/-- C2: under the Replace strategy a keyed fragment member overlays the
matching target member at its recorded index; its nodes receive, in
traversal order, the recorded id sequence of the overlaid member's
subtree, overflowing into fresh counter ids; the key map records index
and collect_ids of each keyed target member; replacements are applied
to the target list before the queued members are clone-renumbered and
appended; and the orchestrator seeds the counter with max_id of the
unit. -/
theorem C2_replace_overlays :
    (∀ member snap (n : Int),
      nt_ids (apply_id_snapshot member snap n).1 =
        snap.take (nt_count (apply_id_snapshot member snap n).1) ++
          int_range n (nt_count (apply_id_snapshot member snap n).1 -
            snap.length) ∧
      erase_nt_ids (apply_id_snapshot member snap n).1 = erase_nt_ids member ∧
      (apply_id_snapshot member snap n).2.2 =
        n + ((nt_count (apply_id_snapshot member snap n).1 -
          snap.length : Nat) : Int)) ∧
    (∀ target m, build_key_map target 0 [] = .ok m →
      ∀ e ∈ m, ∃ i node, target.get? i = some node ∧ e.2.1 = i ∧
        contract_part_key node = .ok (some e.1) ∧ e.2.2 = collect_ids node) ∧
    (∀ m node rest k iv m' repls apps,
      contract_part_key node = .ok (some k) →
      key_remove m k = some (iv, m') →
      split_fragment m' rest = .ok (repls, apps) →
      split_fragment m (node :: rest) = .ok ((iv.1, iv.2, node) :: repls, apps) ∧
      (k, iv) ∈ m) ∧
    (∀ idx snap repl rest target (n : Int), idx < target.length →
      apply_replacements ((idx, snap, repl) :: rest) target n =
        apply_replacements rest (target.set idx (apply_id_snapshot repl snap n).1)
          (apply_id_snapshot repl snap n).2.2) ∧
    (∀ target frag (n : Int) m repls apps t1 (n1 : Int),
      build_key_map target 0 [] = .ok m →
      split_fragment m frag = .ok (repls, apps) →
      apply_replacements (sort_repls repls) target n = .ok (t1, n1) →
      stitch_replace target frag n =
        .ok (t1 ++ (clone_statements apps n1).1, (clone_statements apps n1).2)) ∧
    (∀ unit cidx fragc contract target_nodes fragment_nodes new_nodes (nn : Int),
      contract_mut_at unit cidx = .ok contract →
      get_field fragc "nodes" = some (.arr fragment_nodes) →
      get_field contract "nodes" = some (.arr target_nodes) →
      stitch_replace target_nodes fragment_nodes (max_id unit) =
        .ok (new_nodes, nn) →
      stitch_fragment_into_contract unit cidx fragc .replace =
        .ok (set_contract_nodes unit cidx new_nodes)) := by
  refine ⟨?_, ?_, ?_, ?_, ?_, ?_⟩
  · intro member snap n
    obtain ⟨h1, h2, h3, h4⟩ := assign_snap_spec.1 member snap 0 n
    simp only [apply_id_snapshot]
    refine ⟨?_, h4, ?_⟩
    · simpa using h3
    · simpa using h2
  · intro target m hm e he
    rcases build_key_map_sound target 0 [] m hm e he with h | ⟨i, node, h1, h2, h3, h4⟩
    · cases h
    · exact ⟨i, node, h1, by simpa using h2, h3, h4⟩
  · intro m node rest k iv m' repls apps h1 h2 h3
    refine ⟨?_, key_remove_mem m k iv m' h2⟩
    simp only [split_fragment, h1, h2, h3]
  · intro idx snap repl rest target n h
    rcases happ : apply_id_snapshot repl snap n with ⟨nodep, cur, n1⟩
    simp [apply_replacements, happ, h]
  · intro target frag n m repls apps t1 n1 h1 h2 h3
    simp only [stitch_replace, h1, h2, h3]
  · intro unit cidx fragc contract target_nodes fragment_nodes new_nodes nn
      h1 h2 h3 h4
    simp only [stitch_fragment_into_contract, stitch_fragment_nodes_into_contract,
      h1, h2, h3, h4]


/-- Witness for C2 on a one-member contract: the fragment function
overlays the target function at index 0 reusing recorded id 3, nothing
is appended, the full stitch writes the overlaid member back, and the
overlaid subtree equals the fragment subtree up to node ids. -/
theorem C2_witness :
    stitch_replace [c2_target_f] [c2_frag_f] 10 = .ok ([c2_overlaid], 10) ∧
    stitch_fragment_into_contract c2_unit 0 c2_fragc .replace =
      .ok (set_contract_nodes c2_unit 0 [c2_overlaid]) ∧
    nt_ids c2_overlaid = [3] ∧
    erase_nt_ids c2_overlaid = erase_nt_ids c2_frag_f := by
  refine ⟨?_, ?_, ?_, ?_⟩
  · have h5 := C2_replace_overlays.2.2.2.2.1 [c2_target_f] [c2_frag_f] 10
      [(c2_key, 0, [3])] [(0, [3], c2_frag_f)] [] [c2_overlaid] 10 rfl rfl rfl
    simpa [clone_statements] using h5
  · have h5 := C2_replace_overlays.2.2.2.2.1 [c2_target_f] [c2_frag_f] 3
      [(c2_key, 0, [3])] [(0, [3], c2_frag_f)] [] [c2_overlaid] 3 rfl rfl rfl
    have h5s : stitch_replace [c2_target_f] [c2_frag_f] (max_id c2_unit) =
        .ok ([c2_overlaid], 3) := by
      simpa [clone_statements] using h5
    exact C2_replace_overlays.2.2.2.2.2 c2_unit 0 c2_fragc c2_contract
      [c2_target_f] [c2_frag_f] [c2_overlaid] 3 rfl rfl rfl h5s
  · have h1 := (C2_replace_overlays.1 c2_frag_f [3] 10).1
    have he : (apply_id_snapshot c2_frag_f [3] 10).1 = c2_overlaid := rfl
    have hk : nt_count c2_overlaid = 1 := rfl
    rw [he, hk] at h1
    simpa [int_range] using h1
  · have h2 := (C2_replace_overlays.1 c2_frag_f [3] 10).2.1
    have he : (apply_id_snapshot c2_frag_f [3] 10).1 = c2_overlaid := rfl
    rw [he] at h2
    exact h2



/-- Every clone batch copies the parts up to node ids and takes exactly
the ascending id run from the entry counter to the exit counter. -/
theorem clone_statements_spec (parts : List Json) (n : Int) :
    n ≤ (clone_statements parts n).2 ∧
    nt_ids_list (clone_statements parts n).1 =
      int_range n ((clone_statements parts n).2 - n).toNat ∧
    (clone_statements parts n).1.map erase_nt_ids = parts.map erase_nt_ids := by
  induction parts generalizing n with
  | nil => simp [clone_statements, nt_ids_list, int_range]
  | cons p rest ih =>
    obtain ⟨h1, h2, h3⟩ := walk_renumber_spec.1 p n
    rcases hc : walk_renumber p n with ⟨c, m1⟩
    rw [hc] at h1 h2 h3
    simp only at h1 h2 h3
    obtain ⟨r1, r2, r3⟩ := ih m1
    rcases hr : clone_statements rest m1 with ⟨cs, m2⟩
    rw [hr] at r1 r2 r3
    simp only at r1 r2 r3
    have hstep : clone_statements (p :: rest) n = (c :: cs, m2) := by
      simp [clone_statements, clone_with_new_ids, hc, hr]
    rw [hstep]
    have hcount : (m2 - n).toNat = (m1 - n).toNat + (m2 - m1).toNat := by omega
    refine ⟨by omega, ?_, ?_⟩
    · simp only [nt_ids_list, h2, r2, hcount]
      rw [← int_range_append]
      congr 2
      omega
    · simp [h3, r3]


/-- apply_after on a successful walk: the walked list with one clone of
the template appended. -/
theorem apply_after_success (stmts template : List Json) (n : Int)
    (out0 : List Json) (n2 : Int) (tail : List Json) (n3 : Int)
    (h1 : inject_after stmts template n = (out0, n2, none))
    (h2 : clone_statements template n2 = (tail, n3)) :
    apply_after stmts template n = (out0 ++ tail, n3, none) := by
  unfold apply_after
  simp only [h1, h2]


theorem inject_success_facts (N : Nat) :
    (∀ stmts tpl (n : Int) out (n2 : Int), 2 * sizeOf stmts ≤ N →
      inject_after stmts tpl n = (out, n2, none) →
      InsertedAfter tpl stmts out ∧ n ≤ n2) ∧
    (∀ node tpl (n : Int) out (n2 : Int), 2 * sizeOf node + 5 ≤ N →
      inject_into_block_or_statement node tpl n = (out, n2, none) →
      InsertedInto tpl node out ∧ n ≤ n2) ∧
    (∀ clauses tpl (n : Int) out (n2 : Int), 2 * sizeOf clauses + 1 ≤ N →
      inject_try_clauses clauses tpl n = (out, n2, none) →
      InsertedClauses tpl clauses out ∧ n ≤ n2) := by
  induction N with
  | zero =>
    refine ⟨fun stmts tpl n out n2 hsz _ => absurd hsz ?_,
      fun node tpl n out n2 hsz _ => absurd hsz ?_,
      fun clauses tpl n out n2 hsz _ => absurd hsz ?_⟩
    · cases stmts <;> simp
    · have := json_sizeOf_pos node
      omega
    · cases clauses <;> simp
  | succ N ih =>
    obtain ⟨ihA, ihB, ihC⟩ := ih
    refine ⟨?_, ?_, ?_⟩
    · intro stmts tpl n out n2 hsz h
      cases stmts with
      | nil =>
        rw [inject_after] at h
        simp only [Prod.mk.injEq] at h
        obtain ⟨h1, h2, _⟩ := h
        rw [← h1, ← h2]
        exact ⟨.nil, le_refl n⟩
      | cons s rest =>
        have hs1 : sizeOf (s :: rest) = 1 + sizeOf s + sizeOf rest := by simp
        rw [inject_after] at h
        split at h
        · -- Return
          rename_i hty
          rcases hc : clone_statements tpl n with ⟨clones, m1⟩
          simp only [hc] at h
          rcases hr : inject_after rest tpl m1 with ⟨rest', m2, e⟩
          simp only [hr] at h
          simp only [Prod.mk.injEq] at h
          obtain ⟨hout, hn2, he⟩ := h
          rw [he] at hr
          obtain ⟨hrel, hmono⟩ := ihA rest tpl m1 rest' m2 (by omega) hr
          have hcl := (clone_statements_spec tpl n).2.2
          have hclm := (clone_statements_spec tpl n).1
          rw [hc] at hcl hclm
          simp only at hcl hclm
          rw [← hout, ← hn2]
          exact ⟨.ret s rest rest' clones hty hcl hrel, by omega⟩
        · -- Block
          rename_i hty
          split at h
          · rename_i ss hss
            rcases hin : inject_after ss tpl n with ⟨ss', m1, e⟩
            simp only [hin] at h
            split at h
            · simp only [Prod.mk.injEq] at h
              obtain ⟨_, _, hcontra⟩ := h
              cases hcontra
            · 
              rcases hr : inject_after rest tpl m1 with ⟨rest', m2, e2⟩
              simp only [hr] at h
              simp only [Prod.mk.injEq] at h
              obtain ⟨hout, hn2, he2⟩ := h
              rw [he2] at hr
              have hsz1 := get_field_arr_sizeOf hss
              obtain ⟨hrelss, hmono1⟩ := ihA ss tpl n ss' m1 (by omega) hin
              obtain ⟨hrel, hmono2⟩ := ihA rest tpl m1 rest' m2 (by omega) hr
              rw [← hout, ← hn2]
              exact ⟨.block s rest ss ss' rest' (Or.inl hty) hss hrelss hrel,
                by omega⟩
          · rename_i hnotss
            simp only [Prod.mk.injEq] at h
            obtain ⟨_, _, hcontra⟩ := h
            cases hcontra
        · -- UncheckedBlock
          rename_i hty
          split at h
          · rename_i ss hss
            rcases hin : inject_after ss tpl n with ⟨ss', m1, e⟩
            simp only [hin] at h
            split at h
            · simp only [Prod.mk.injEq] at h
              obtain ⟨_, _, hcontra⟩ := h
              cases hcontra
            · 
              rcases hr : inject_after rest tpl m1 with ⟨rest', m2, e2⟩
              simp only [hr] at h
              simp only [Prod.mk.injEq] at h
              obtain ⟨hout, hn2, he2⟩ := h
              rw [he2] at hr
              have hsz1 := get_field_arr_sizeOf hss
              obtain ⟨hrelss, hmono1⟩ := ihA ss tpl n ss' m1 (by omega) hin
              obtain ⟨hrel, hmono2⟩ := ihA rest tpl m1 rest' m2 (by omega) hr
              rw [← hout, ← hn2]
              exact ⟨.block s rest ss ss' rest' (Or.inr hty) hss hrelss hrel,
                by omega⟩
          · rename_i hnotss
            simp only [Prod.mk.injEq] at h
            obtain ⟨_, _, hcontra⟩ := h
            cases hcontra
        · -- IfStatement
          rename_i hty
          split at h
          · rename_i tb htb
            rcases hintb : inject_into_block_or_statement tb tpl n with ⟨tb', m1, e⟩
            simp only [hintb] at h
            split at h
            · simp only [Prod.mk.injEq] at h
              obtain ⟨_, _, hcontra⟩ := h
              cases hcontra
            · 
              have hsztb := get_field_sizeOf htb
              obtain ⟨hreltb, hmono1⟩ := ihB tb tpl n tb' m1 (by omega) hintb
              split at h
              · rename_i fb hfb
                rcases hinfb : inject_into_block_or_statement fb tpl m1 with
                  ⟨fb', m2, e2⟩
                simp only [hinfb] at h
                split at h
                · simp only [Prod.mk.injEq] at h
                  obtain ⟨_, _, hcontra⟩ := h
                  cases hcontra
                · 
                  rcases hr : inject_after rest tpl m2 with ⟨rest', m3, e3⟩
                  simp only [hr] at h
                  simp only [Prod.mk.injEq] at h
                  obtain ⟨hout, hn2, he3⟩ := h
                  rw [he3] at hr
                  have hszfb := get_field_sizeOf hfb
                  obtain ⟨hrelfb, hmono2⟩ := ihB fb tpl m1 fb' m2 (by omega) hinfb
                  obtain ⟨hrel, hmono3⟩ := ihA rest tpl m2 rest' m3 (by omega) hr
                  rw [← hout, ← hn2]
                  exact ⟨.ifBoth s rest tb tb' fb fb' rest' hty htb hfb
                    hreltb hrelfb hrel, by omega⟩
              · rename_i hfb
                rcases hr : inject_after rest tpl m1 with ⟨rest', m2, e2⟩
                simp only [hr] at h
                simp only [Prod.mk.injEq] at h
                obtain ⟨hout, hn2, he2⟩ := h
                rw [he2] at hr
                obtain ⟨hrel, hmono2⟩ := ihA rest tpl m1 rest' m2 (by omega) hr
                rw [← hout, ← hn2]
                exact ⟨.ifTrue s rest tb tb' rest' hty htb hfb hreltb hrel,
                  by omega⟩
          · rename_i htb
            split at h
            · rename_i fb hfb
              rcases hinfb : inject_into_block_or_statement fb tpl n with
                ⟨fb', m1, e⟩
              simp only [hinfb] at h
              split at h
              · simp only [Prod.mk.injEq] at h
                obtain ⟨_, _, hcontra⟩ := h
                cases hcontra
              · 
                rcases hr : inject_after rest tpl m1 with ⟨rest', m2, e2⟩
                simp only [hr] at h
                simp only [Prod.mk.injEq] at h
                obtain ⟨hout, hn2, he2⟩ := h
                rw [he2] at hr
                have hszfb := get_field_sizeOf hfb
                obtain ⟨hrelfb, hmono1⟩ := ihB fb tpl n fb' m1 (by omega) hinfb
                obtain ⟨hrel, hmono2⟩ := ihA rest tpl m1 rest' m2 (by omega) hr
                rw [← hout, ← hn2]
                exact ⟨.ifFalse s rest fb fb' rest' hty htb hfb hrelfb hrel,
                  by omega⟩
            · rename_i hfb
              rcases hr : inject_after rest tpl n with ⟨rest', m1, e1⟩
              simp only [hr] at h
              simp only [Prod.mk.injEq] at h
              obtain ⟨hout, hn2, he1⟩ := h
              rw [he1] at hr
              obtain ⟨hrel, hmono⟩ := ihA rest tpl n rest' m1 (by omega) hr
              rw [← hout, ← hn2]
              exact ⟨.ifNone s rest rest' hty htb hfb hrel, hmono⟩
        · -- WhileStatement
          rename_i hty
          split at h
          · rename_i b hb
            rcases hinb : inject_into_block_or_statement b tpl n with ⟨b', m1, e⟩
            simp only [hinb] at h
            split at h
            · simp only [Prod.mk.injEq] at h
              obtain ⟨_, _, hcontra⟩ := h
              cases hcontra
            · 
              rcases hr : inject_after rest tpl m1 with ⟨rest', m2, e2⟩
              simp only [hr] at h
              simp only [Prod.mk.injEq] at h
              obtain ⟨hout, hn2, he2⟩ := h
              rw [he2] at hr
              have hszb := get_field_sizeOf hb
              obtain ⟨hrelb, hmono1⟩ := ihB b tpl n b' m1 (by omega) hinb
              obtain ⟨hrel, hmono2⟩ := ihA rest tpl m1 rest' m2 (by omega) hr
              rw [← hout, ← hn2]
              exact ⟨.loopBody s rest b b' rest' (Or.inl hty) hb hrelb hrel,
                by omega⟩
          · rename_i hb
            rcases hr : inject_after rest tpl n with ⟨rest', m1, e1⟩
            simp only [hr] at h
            simp only [Prod.mk.injEq] at h
            obtain ⟨hout, hn2, he1⟩ := h
            rw [he1] at hr
            obtain ⟨hrel, hmono⟩ := ihA rest tpl n rest' m1 (by omega) hr
            rw [← hout, ← hn2]
            exact ⟨.loopNoBody s rest rest' (Or.inl hty) hb hrel, hmono⟩
        · -- ForStatement
          rename_i hty
          split at h
          · rename_i b hb
            rcases hinb : inject_into_block_or_statement b tpl n with ⟨b', m1, e⟩
            simp only [hinb] at h
            split at h
            · simp only [Prod.mk.injEq] at h
              obtain ⟨_, _, hcontra⟩ := h
              cases hcontra
            · 
              rcases hr : inject_after rest tpl m1 with ⟨rest', m2, e2⟩
              simp only [hr] at h
              simp only [Prod.mk.injEq] at h
              obtain ⟨hout, hn2, he2⟩ := h
              rw [he2] at hr
              have hszb := get_field_sizeOf hb
              obtain ⟨hrelb, hmono1⟩ := ihB b tpl n b' m1 (by omega) hinb
              obtain ⟨hrel, hmono2⟩ := ihA rest tpl m1 rest' m2 (by omega) hr
              rw [← hout, ← hn2]
              exact ⟨.loopBody s rest b b' rest' (Or.inr hty) hb hrelb hrel,
                by omega⟩
          · rename_i hb
            rcases hr : inject_after rest tpl n with ⟨rest', m1, e1⟩
            simp only [hr] at h
            simp only [Prod.mk.injEq] at h
            obtain ⟨hout, hn2, he1⟩ := h
            rw [he1] at hr
            obtain ⟨hrel, hmono⟩ := ihA rest tpl n rest' m1 (by omega) hr
            rw [← hout, ← hn2]
            exact ⟨.loopNoBody s rest rest' (Or.inr hty) hb hrel, hmono⟩
        · -- DoWhileStatement
          rename_i hty
          split at h
          · rename_i b hb
            split at h
            · rename_i ss hbs
              rcases hin : inject_after ss tpl n with ⟨ss', m1, e⟩
              simp only [hin] at h
              split at h
              · simp only [Prod.mk.injEq] at h
                obtain ⟨_, _, hcontra⟩ := h
                cases hcontra
              · 
                rcases hr : inject_after rest tpl m1 with ⟨rest', m2, e2⟩
                simp only [hr] at h
                simp only [Prod.mk.injEq] at h
                obtain ⟨hout, hn2, he2⟩ := h
                rw [he2] at hr
                have hszb := get_field_sizeOf hb
                have hszss := get_field_arr_sizeOf hbs
                obtain ⟨hrelss, hmono1⟩ := ihA ss tpl n ss' m1 (by omega) hin
                obtain ⟨hrel, hmono2⟩ := ihA rest tpl m1 rest' m2 (by omega) hr
                rw [← hout, ← hn2]
                exact ⟨.doWhile s rest b ss ss' rest' hty hb hbs hrelss hrel,
                  by omega⟩
            · rename_i hnot
              simp only [Prod.mk.injEq] at h
              obtain ⟨_, _, hcontra⟩ := h
              cases hcontra
          · rename_i hb
            rcases hr : inject_after rest tpl n with ⟨rest', m1, e1⟩
            simp only [hr] at h
            simp only [Prod.mk.injEq] at h
            obtain ⟨hout, hn2, he1⟩ := h
            rw [he1] at hr
            obtain ⟨hrel, hmono⟩ := ihA rest tpl n rest' m1 (by omega) hr
            rw [← hout, ← hn2]
            exact ⟨.doWhileNoBody s rest rest' hty hb hrel, hmono⟩
        · -- TryStatement
          rename_i hty
          split at h
          · rename_i clauses hc
            rcases hin : inject_try_clauses clauses tpl n with ⟨clauses', m1, e⟩
            simp only [hin] at h
            split at h
            · simp only [Prod.mk.injEq] at h
              obtain ⟨_, _, hcontra⟩ := h
              cases hcontra
            · 
              rcases hr : inject_after rest tpl m1 with ⟨rest', m2, e2⟩
              simp only [hr] at h
              simp only [Prod.mk.injEq] at h
              obtain ⟨hout, hn2, he2⟩ := h
              rw [he2] at hr
              have hszc := get_field_arr_sizeOf hc
              obtain ⟨hrelc, hmono1⟩ := ihC clauses tpl n clauses' m1 (by omega) hin
              obtain ⟨hrel, hmono2⟩ := ihA rest tpl m1 rest' m2 (by omega) hr
              rw [← hout, ← hn2]
              exact ⟨.tryClauses s rest clauses clauses' rest' hty hc hrelc hrel,
                by omega⟩
          · rename_i hnotc
            rcases hr : inject_after rest tpl n with ⟨rest', m1, e1⟩
            simp only [hr] at h
            simp only [Prod.mk.injEq] at h
            obtain ⟨hout, hn2, he1⟩ := h
            rw [he1] at hr
            obtain ⟨hrel, hmono⟩ := ihA rest tpl n rest' m1 (by omega) hr
            rw [← hout, ← hn2]
            refine ⟨.tryOther s rest rest' hty ?_ hrel, hmono⟩
            intro cl hcl
            exact hnotc cl hcl
        · -- default
          rename_i h1 h2 h3 h4 h5 h6 h7 h8
          rcases hr : inject_after rest tpl n with ⟨rest', m1, e1⟩
          simp only [hr] at h
          simp only [Prod.mk.injEq] at h
          obtain ⟨hout, hn2, he1⟩ := h
          rw [he1] at hr
          obtain ⟨hrel, hmono⟩ := ihA rest tpl n rest' m1 (by omega) hr
          rw [← hout, ← hn2]
          exact ⟨.other s rest rest' ⟨h1, h2, h3, h4, h5, h6, h7, h8⟩ hrel, hmono⟩
    · intro node tpl n out n2 hsz h
      rw [inject_into_block_or_statement] at h
      split at h
      · rename_i hblk
        split at h
        · rename_i ss hss
          rcases hin : inject_after ss tpl n with ⟨ss', m1, e⟩
          simp only [hin] at h
          simp only [Prod.mk.injEq] at h
          obtain ⟨hout, hn2, he⟩ := h
          rw [he] at hin
          have hszss := get_field_arr_sizeOf hss
          obtain ⟨hrelss, hmono⟩ := ihA ss tpl n ss' m1 (by omega) hin
          rw [← hout, ← hn2]
          exact ⟨.intoBlock node ss ss' hblk hss hrelss, hmono⟩
        · rename_i hnot
          simp only [Prod.mk.injEq] at h
          obtain ⟨_, _, hcontra⟩ := h
          cases hcontra
      · rename_i hblk
        rw [ensure_block, if_neg hblk] at h
        rcases hin : inject_after [node] tpl (n + 1) with ⟨ss', m1, e⟩
        simp only [hin] at h
        simp only [Prod.mk.injEq] at h
        obtain ⟨hout, hn2, he⟩ := h
        rw [he] at hin
        have hsznode : sizeOf ([node] : List Json) = sizeOf node + 2 := by
          simp
          omega
        obtain ⟨hrelss, hmono⟩ := ihA [node] tpl (n + 1) ss' m1 (by omega) hin
        rw [← hout, ← hn2]
        constructor
        · have hset : set_field (.obj [("nodeType", .str "Block"),
              ("id", .num (n + 1)),
              ("src", (get_field node "src").getD (.str "0:0:0")),
              ("statements", .arr [node])]) "statements" (.arr ss') =
              .obj [("nodeType", .str "Block"), ("id", .num (n + 1)),
                ("src", (get_field node "src").getD (.str "0:0:0")),
                ("statements", .arr ss')] := by
            simp [set_field]
          rw [hset]
          exact .wrap node ss' (n + 1) hblk hrelss
        · omega
    · intro clauses tpl n out n2 hsz h
      cases clauses with
      | nil =>
        rw [inject_try_clauses] at h
        simp only [Prod.mk.injEq] at h
        obtain ⟨h1, h2, _⟩ := h
        rw [← h1, ← h2]
        exact ⟨.nil, le_refl n⟩
      | cons clause rest =>
        have hs1 : sizeOf (clause :: rest) = 1 + sizeOf clause + sizeOf rest := by
          simp
        rw [inject_try_clauses] at h
        split at h
        · rename_i block hb
          split at h
          · rename_i ss hbs
            rcases hin : inject_after ss tpl n with ⟨ss', m1, e⟩
            simp only [hin] at h
            split at h
            · simp only [Prod.mk.injEq] at h
              obtain ⟨_, _, hcontra⟩ := h
              cases hcontra
            · 
              rcases hr : inject_try_clauses rest tpl m1 with ⟨rest', m2, e2⟩
              simp only [hr] at h
              simp only [Prod.mk.injEq] at h
              obtain ⟨hout, hn2, he2⟩ := h
              rw [he2] at hr
              have hszb := get_field_sizeOf hb
              have hszss := get_field_arr_sizeOf hbs
              obtain ⟨hrelss, hmono1⟩ := ihA ss tpl n ss' m1 (by omega) hin
              obtain ⟨hrel, hmono2⟩ := ihC rest tpl m1 rest' m2 (by omega) hr
              rw [← hout, ← hn2]
              exact ⟨.clauseBlock clause rest block ss ss' rest' hb hbs
                hrelss hrel, by omega⟩
          · rename_i hnot
            simp only [Prod.mk.injEq] at h
            obtain ⟨_, _, hcontra⟩ := h
            cases hcontra
        · rename_i hb
          rcases hr : inject_try_clauses rest tpl n with ⟨rest', m1, e1⟩
          simp only [hr] at h
          simp only [Prod.mk.injEq] at h
          obtain ⟨hout, hn2, he1⟩ := h
          rw [he1] at hr
          obtain ⟨hrel, hmono⟩ := ihC rest tpl n rest' m1 (by omega) hr
          rw [← hout, ← hn2]
          exact ⟨.noBlock clause rest rest' hb hrel, hmono⟩


/-- C1: a successful after-walk realises the insertion shape — one clone
of the template (equal to it up to node ids) immediately before every
reachable Return, through blocks, branches, loop and do-while bodies and
try clauses, wrapping non-block children in a fresh Block — and the full
after-step additionally appends exactly one more clone of the template at
the end of the top-level statement list. -/
theorem C1_after_template_insertion :
    (∀ stmts tpl (n : Int) out (n2 : Int),
      inject_after stmts tpl n = (out, n2, none) →
      InsertedAfter tpl stmts out) ∧
    (∀ stmts tpl (n : Int) out (n2 : Int),
      apply_after stmts tpl n = (out, n2, none) →
      ∃ mid tail, out = mid ++ tail ∧ InsertedAfter tpl stmts mid ∧
        tail.map erase_nt_ids = tpl.map erase_nt_ids) := by
  constructor
  · intro stmts tpl n out n2 h
    exact ((inject_success_facts (2 * sizeOf stmts)).1 stmts tpl n out n2
      (le_refl _) h).1
  · intro stmts tpl n out n2 h
    rw [apply_after] at h
    rcases hin : inject_after stmts tpl n with ⟨stmts2, m2, e⟩
    simp only [hin] at h
    split at h
    · simp only [Prod.mk.injEq] at h
      obtain ⟨_, _, hcontra⟩ := h
      cases hcontra
    · rcases hc : clone_statements tpl m2 with ⟨tail, m3⟩
      simp only [hc] at h
      simp only [Prod.mk.injEq] at h
      obtain ⟨hout, _, _⟩ := h
      have hrel := ((inject_success_facts (2 * sizeOf stmts)).1 stmts tpl n
        stmts2 m2 (le_refl _) hin).1
      have herase := (clone_statements_spec tpl m2).2.2
      rw [hc] at herase
      exact ⟨stmts2, tail, hout.symm, hrel, herase⟩


/-- Witness for C1: a body consisting of one Return, template one
expression statement; the walk inserts one clone (id 11) before the
Return and the after-step appends one clone (id 12) at the end. -/
theorem C1_witness :
    InsertedAfter [c1_tpl] [c1_ret] [c1_tpl11, c1_ret] ∧
    (∃ mid tail, [c1_tpl11, c1_ret, c1_tpl12] = mid ++ tail ∧
      InsertedAfter [c1_tpl] [c1_ret] mid ∧
      tail.map erase_nt_ids = [c1_tpl].map erase_nt_ids) := by
  have hinj : inject_after [c1_ret] [c1_tpl] 10 =
      ([c1_tpl11, c1_ret], 11, none) := by
    simp [inject_after, clone_statements, clone_with_new_ids, walk_renumber,
      walk_renumber_fields_id, walk_renumber_fields, walk_renumber_list,
      node_type, get_field, c1_tpl, c1_ret, c1_tpl11, List.lookup, insert_key]
  constructor
  · exact C1_after_template_insertion.1 [c1_ret] [c1_tpl] 10
      [c1_tpl11, c1_ret] 11 hinj
  · have hc : clone_statements [c1_tpl] 11 = ([c1_tpl12], 12) := rfl
    have happ : apply_after [c1_ret] [c1_tpl] 10 =
        ([c1_tpl11, c1_ret, c1_tpl12], 12, none) := by
      have h := apply_after_success [c1_ret] [c1_tpl] 10 [c1_tpl11, c1_ret] 11
        [c1_tpl12] 12 hinj hc
      simpa using h
    exact C1_after_template_insertion.2 [c1_ret] [c1_tpl] 10
      [c1_tpl11, c1_ret, c1_tpl12] 12 happ




end AstEngine
